import Mathlib

/-!
Shallow embedding of the `theory` book-container library.

The development models, from the Rust sources: the LEB128 and big-endian
integer codecs, UTF-8 validation (`String::from_utf8`), the key-value list
codec (`persistence/kvlist.rs`), the metadata codec (`metadata.rs`), the
data-block writer (`persistence/datablock/writer.rs`) and reader
(`persistence/datablock/reader.rs`), the page store
(`page/persistence.rs`), the v1 container (`persistence/v1.rs`) and the
table-of-contents builder (`toc.rs`).

Machine integers are modelled as `Nat` with explicit `% 2 ^ 64` where the
source relies on wrapping arithmetic; byte streams are `List Nat` whose
elements are byte values; fallible operations return `Except` or `Option`.
-/

deriving instance DecidableEq for Except

namespace Theory

/-- `u64::MAX`, the sentinel size hint that forces a fresh data block. -/
def U64MAX : Nat := 2 ^ 64 - 1

/-! ### LEB128 (the `leb128` crate) -/

/-- Errors of `leb128::read::unsigned` (I/O or 64-bit overflow). -/
inductive LebError
  | eof
  | overflow
  deriving DecidableEq, Repr

/-- Little-endian base-128 with continuation bit, with an explicit bound
on the number of bytes produced (structural recursion; 10 bytes cover the
whole `u64` domain of `leb128::write::unsigned`). -/
def lebEncodeF : Nat → Nat → List Nat
  | 0, n => [n]
  | fuel + 1, n => if n < 128 then [n] else (n % 128 + 128) :: lebEncodeF fuel (n / 128)

/-- `leb128::write::unsigned`: its argument is a `u64`, and 10 base-128
digits encode every value below `2 ^ 70`. -/
def lebEncode (n : Nat) : List Nat := lebEncodeF 10 n

/-- Loop body of `leb128::read::unsigned`: `shift` starts at 0 and grows by
7 per continuation byte; at `shift = 63` only bytes `0` and `1` are
accepted (the crate's overflow check). Returns the decoded value and the
unread remainder of the input. -/
def lebDecodeAux : List Nat → Nat → Nat → Except LebError (Nat × List Nat)
  | [], _, _ => .error .eof
  | b :: rest, shift, acc =>
    if shift = 63 ∧ b ≠ 0 ∧ b ≠ 1 then .error .overflow
    else
      let acc' := acc + b % 128 * 2 ^ shift
      if b < 128 then .ok (acc', rest)
      else lebDecodeAux rest (shift + 7) acc'

/-- `leb128::read::unsigned`. -/
def lebDecode (l : List Nat) : Except LebError (Nat × List Nat) :=
  lebDecodeAux l 0 0

theorem lebEncode_nonempty (n : Nat) : lebEncode n ≠ [] := by
  rw [lebEncode, lebEncodeF]
  split <;> simp

theorem lebEncodeF_byte_lt :
    ∀ (fuel n : Nat), n < 2 ^ (7 * fuel) → ∀ b ∈ lebEncodeF fuel n, b < 256 := by
  intro fuel
  induction fuel with
  | zero =>
    intro n hn b hb
    simp only [lebEncodeF, List.mem_singleton] at hb
    simp only [Nat.mul_zero, pow_zero] at hn
    omega
  | succ fuel ih =>
    intro n hn b hb
    rw [lebEncodeF] at hb
    split at hb
    · simp only [List.mem_singleton] at hb
      omega
    · simp only [List.mem_cons] at hb
      rcases hb with h | h
      · have := Nat.mod_lt n (y := 128) (by omega)
        omega
      · refine ih (n / 128) ?_ b h
        have h128 : (128 : Nat) = 2 ^ 7 := rfl
        rw [h128, Nat.div_lt_iff_lt_mul (by positivity), ← pow_add]
        have : 7 * fuel + 7 = 7 * (fuel + 1) := by ring
        rw [this]
        exact hn

theorem lebEncode_byte_lt (n : Nat) (h : n < 2 ^ 64) : ∀ b ∈ lebEncode n, b < 256 := by
  refine lebEncodeF_byte_lt 10 n ?_
  calc n < 2 ^ 64 := h
    _ ≤ 2 ^ (7 * 10) := by norm_num

theorem lebDecodeAux_encodeF :
    ∀ (fuel n shift acc : Nat) (rest : List Nat),
      n < 2 ^ (7 * fuel) → n < 2 ^ (64 - shift) → shift ≤ 63 →
      lebDecodeAux (lebEncodeF fuel n ++ rest) shift acc = .ok (acc + n * 2 ^ shift, rest) := by
  intro fuel
  induction fuel with
  | zero =>
    intro n shift acc rest hfuel hn hshift
    simp only [Nat.mul_zero, pow_zero] at hfuel
    have hn0 : n = 0 := by omega
    subst hn0
    simp [lebEncodeF, lebDecodeAux]
  | succ fuel ih =>
    intro n shift acc rest hfuel hn hshift
    rw [lebEncodeF]
    by_cases h : n < 128
    · have hcase : ¬(shift = 63 ∧ n ≠ 0 ∧ n ≠ 1) := by
        rintro ⟨h63, h0, h1⟩
        subst h63
        simp only [show (64 : Nat) - 63 = 1 from rfl, pow_one] at hn
        omega
      simp only [if_pos h, List.cons_append, List.nil_append, lebDecodeAux,
        if_neg hcase, Nat.mod_eq_of_lt h]
    · have hb : ¬(n % 128 + 128 < 128) := by omega
      have hcase : ¬(shift = 63 ∧ n % 128 + 128 ≠ 0 ∧ n % 128 + 128 ≠ 1) := by
        rintro ⟨h63, -, -⟩
        subst h63
        simp only [show (64 : Nat) - 63 = 1 from rfl, pow_one] at hn
        omega
      have hmod : (n % 128 + 128) % 128 = n % 128 := by omega
      simp only [if_neg h, List.cons_append, lebDecodeAux, if_neg hcase, if_neg hb, hmod]
      have hshift7 : shift + 7 ≤ 63 := by
        by_contra hc
        have h7 : 64 - shift ≤ 7 := by omega
        have : (2 : Nat) ^ (64 - shift) ≤ 2 ^ 7 := Nat.pow_le_pow_right (by omega) h7
        omega
      have h128 : (128 : Nat) = 2 ^ 7 := rfl
      have hdiv : n / 128 < 2 ^ (64 - (shift + 7)) := by
        rw [h128, Nat.div_lt_iff_lt_mul (by positivity)]
        have : (2 : Nat) ^ (64 - (shift + 7)) * 2 ^ 7 = 2 ^ (64 - shift) := by
          rw [← pow_add]
          congr 1
          omega
        omega
      have hfuel' : n / 128 < 2 ^ (7 * fuel) := by
        rw [h128, Nat.div_lt_iff_lt_mul (by positivity), ← pow_add]
        have : 7 * fuel + 7 = 7 * (fuel + 1) := by ring
        rw [this]
        exact hfuel
      rw [ih (n / 128) (shift + 7) (acc + n % 128 * 2 ^ shift) rest hfuel' hdiv hshift7]
      have hsplit : n % 128 + 128 * (n / 128) = n := Nat.mod_add_div n 128
      have h27 : (2 : Nat) ^ 7 = 128 := rfl
      have key : acc + n % 128 * 2 ^ shift + n / 128 * 2 ^ (shift + 7)
          = acc + n * 2 ^ shift := by
        rw [pow_add, h27]
        calc acc + n % 128 * 2 ^ shift + n / 128 * (2 ^ shift * 128)
            = acc + (n % 128 + 128 * (n / 128)) * 2 ^ shift := by ring
          _ = acc + n * 2 ^ shift := by rw [hsplit]
      rw [key]

/-- LEB128 round-trip: decoding an encoded 64-bit value returns the value
and leaves the remainder of the input untouched. -/
theorem lebDecode_encode (n : Nat) (rest : List Nat) (h : n < 2 ^ 64) :
    lebDecode (lebEncode n ++ rest) = .ok (n, rest) := by
  have h70 : n < 2 ^ (7 * 10) := by
    calc n < 2 ^ 64 := h
      _ ≤ 2 ^ (7 * 10) := by norm_num
  have := lebDecodeAux_encodeF 10 n 0 0 rest h70 (by simpa using h) (by omega)
  simpa [lebDecode, lebEncode] using this

/-! ### Big-endian integers (`endiannezz` / `u32::to_be_bytes`, `u64::to_be_bytes`) -/

/-- `u32::to_be_bytes`. -/
def be32 (n : Nat) : List Nat :=
  [n / 2 ^ 24 % 256, n / 2 ^ 16 % 256, n / 2 ^ 8 % 256, n % 256]

/-- `u64::to_be_bytes`. -/
def be64 (n : Nat) : List Nat :=
  [n / 2 ^ 56 % 256, n / 2 ^ 48 % 256, n / 2 ^ 40 % 256, n / 2 ^ 32 % 256,
   n / 2 ^ 24 % 256, n / 2 ^ 16 % 256, n / 2 ^ 8 % 256, n % 256]

/-- `uN::from_be_bytes` over a byte list. -/
def fromBe (bs : List Nat) : Nat :=
  bs.foldl (fun a b => a * 256 + b) 0

theorem fromBe_be32 (n : Nat) (h : n < 2 ^ 32) : fromBe (be32 n) = n := by
  simp only [be32, fromBe, List.foldl]
  omega

theorem fromBe_be64 (n : Nat) (h : n < 2 ^ 64) : fromBe (be64 n) = n := by
  simp only [be64, fromBe, List.foldl]
  omega

theorem be32_length (n : Nat) : (be32 n).length = 4 := rfl

theorem be64_length (n : Nat) : (be64 n).length = 8 := rfl

theorem be32_byte_lt (n : Nat) : ∀ b ∈ be32 n, b < 256 := by
  intro b hb
  simp only [be32, List.mem_cons, List.not_mem_nil, or_false] at hb
  rcases hb with h | h | h | h <;> subst h <;> omega

/-! ### UTF-8 validation (`String::from_utf8`) -/

/-- A UTF-8 continuation byte. -/
def isCont (b : Nat) : Bool := 128 ≤ b && b ≤ 191

/-- UTF-8 validity of a byte sequence, as checked by `String::from_utf8`
(RFC 3629: rejects overlong forms, surrogates and values above U+10FFFF). -/
def validUtf8 : List Nat → Bool
  | [] => true
  | b :: rest =>
    if b ≤ 0x7F then validUtf8 rest
    else if b < 0xC2 then false
    else if b ≤ 0xDF then
      match rest with
      | c :: r => isCont c && validUtf8 r
      | [] => false
    else if b ≤ 0xEF then
      match rest with
      | c1 :: c2 :: r =>
        (if b = 0xE0 then decide (0xA0 ≤ c1 ∧ c1 ≤ 0xBF)
         else if b = 0xED then decide (0x80 ≤ c1 ∧ c1 ≤ 0x9F)
         else isCont c1) && isCont c2 && validUtf8 r
      | _ => false
    else if b ≤ 0xF4 then
      match rest with
      | c1 :: c2 :: c3 :: r =>
        (if b = 0xF0 then decide (0x90 ≤ c1 ∧ c1 ≤ 0xBF)
         else if b = 0xF4 then decide (0x80 ≤ c1 ∧ c1 ≤ 0x8F)
         else isCont c1) && isCont c2 && isCont c3 && validUtf8 r
      | _ => false
    else false

/-! ### Byte streams -/

/-- `Read::read_exact` on a list-backed input: returns the first `n` bytes
and the remainder, or fails when fewer than `n` bytes remain. -/
def readN (l : List Nat) (n : Nat) : Option (List Nat × List Nat) :=
  if n ≤ l.length then some (l.take n, l.drop n) else none

theorem readN_append (pre post : List Nat) :
    readN (pre ++ post) pre.length = some (pre, post) := by
  simp [readN]

/-! ### KV-list codec (`persistence/kvlist.rs`), instantiated at the
per-page metadata entries of `page/persistence.rs` -/

/-- `page::persistence::ByteTag`: the tags of per-page metadata entries. -/
inductive PageTag
  | title
  | keywords
  | description
  deriving DecidableEq, Repr

/-- `ByteTag as u8` (`num_enum::IntoPrimitive`). -/
def PageTag.toByte : PageTag → Nat
  | .title => 1
  | .keywords => 2
  | .description => 3

/-- `ByteTag::try_from(u8)` (`num_enum::TryFromPrimitive`). -/
def PageTag.fromByte (b : Nat) : Option PageTag :=
  if b = 1 then some .title
  else if b = 2 then some .keywords
  else if b = 3 then some .description
  else none

/-- A per-page metadata entry `MetadataEntry(ByteTag, Cow<str>)`; the Rust
string is modelled by its UTF-8 byte sequence. -/
structure PageMeta where
  tag : PageTag
  value : List Nat
  deriving DecidableEq, Repr

/-- `kvlist::serialize`: per entry the tag byte, the LEB128 value length
and the value bytes; the list ends with a single `0` byte. -/
def kvSerialize (entries : List PageMeta) : List Nat :=
  (entries.map fun e => e.tag.toByte :: (lebEncode e.value.length ++ e.value)).flatten ++ [0]

/-- `kvlist::DeserializeError`. -/
inductive KvError
  | ioError
  | leb128Error (e : LebError)
  | invalidLength (len : Nat)
  | invalidByteTag
  | parserError
  deriving DecidableEq, Repr

/-- `kvlist::StreamParser`: the unread input, the caller-supplied total
input length used to validate entry lengths, and the poison flag. -/
structure KvParser where
  input : List Nat
  inputLen : Nat
  ioValid : Bool
  deriving DecidableEq, Repr

/-- `StreamParser::next`. Mirrors the source: a failed `read_exact`,
unknown tag or LEB128 error clears `io_valid`; an `InvalidLength` item or
a variant-parse (`ParserError`) item is emitted with `io_valid` left set. -/
def kvNext (s : KvParser) : Option (Except KvError PageMeta) × KvParser :=
  if s.ioValid then
    match s.input with
    | [] => (some (.error .ioError), { s with ioValid := false })
    | b :: rest =>
      if b = 0 then (none, { s with input := rest })
      else
        match PageTag.fromByte b with
        | none => (some (.error .invalidByteTag), { s with ioValid := false })
        | some tag =>
          match lebDecode rest with
          | .error e => (some (.error (.leb128Error e)), { s with ioValid := false })
          | .ok (valueLen, rest') =>
            if valueLen > s.inputLen then
              (some (.error (.invalidLength valueLen)), { s with input := rest' })
            else
              match readN rest' valueLen with
              | none => (some (.error .ioError), { s with ioValid := false })
              | some (value, rest'') =>
                if validUtf8 value then
                  (some (.ok ⟨tag, value⟩), { s with input := rest'' })
                else
                  (some (.error .parserError), { s with input := rest'' })
  else (none, s)

/-- Draining loop over `StreamParser` as `build_page` runs it: entries are
collected in order and the first error aborts (fuel bounds the number of
iterations; it is always sufficient for the inputs considered here). -/
def kvRun : Nat → KvParser → Except KvError (List PageMeta)
  | 0, _ => .error .ioError
  | fuel + 1, s =>
    match kvNext s with
    | (none, _) => .ok []
    | (some (.error e), _) => .error e
    | (some (.ok entry), s') => (kvRun fuel s').map (entry :: ·)

theorem PageTag.fromByte_toByte (t : PageTag) : PageTag.fromByte t.toByte = some t := by
  cases t <;> rfl

theorem PageTag.toByte_ne_zero (t : PageTag) : t.toByte ≠ 0 := by
  cases t <;> simp [PageTag.toByte]

/-- Reading back a serialized KV-list: with enough fuel, values below the
declared input length and valid UTF-8, the parser returns exactly the
serialized entries and stops at the terminator, whatever follows it. -/
theorem kvRun_serialize (es : List PageMeta) :
    ∀ (fuel : Nat) (rest : List Nat) (L : Nat),
      es.length < fuel →
      (∀ e ∈ es, validUtf8 e.value = true) →
      (∀ e ∈ es, e.value.length ≤ L) →
      (∀ e ∈ es, e.value.length < 2 ^ 64) →
      kvRun fuel ⟨kvSerialize es ++ rest, L, true⟩ = .ok es := by
  induction es with
  | nil =>
    intro fuel rest L hfuel _ _ _
    match fuel, hfuel with
    | fuel + 1, _ =>
      simp [kvRun, kvNext, kvSerialize]
  | cons e es ih =>
    intro fuel rest L hfuel hvalid hlen h64
    match fuel, hfuel with
    | fuel + 1, hfuel =>
      have hserial : kvSerialize (e :: es) ++ rest
          = e.tag.toByte :: (lebEncode e.value.length ++ (e.value ++ (kvSerialize es ++ rest))) := by
        simp [kvSerialize, List.flatten]
      rw [hserial]
      have htag : e.tag.toByte ≠ 0 := PageTag.toByte_ne_zero e.tag
      have hleb : lebDecode (lebEncode e.value.length ++ (e.value ++ (kvSerialize es ++ rest)))
          = .ok (e.value.length, e.value ++ (kvSerialize es ++ rest)) :=
        lebDecode_encode _ _ (h64 e (by simp))
      have hread : readN (e.value ++ (kvSerialize es ++ rest)) e.value.length
          = some (e.value, kvSerialize es ++ rest) := readN_append _ _
      have hL : ¬ (e.value.length > L) := by
        have := hlen e (by simp)
        omega
      have hfuel' : es.length < fuel := by
        simp only [List.length_cons] at hfuel
        omega
      simp only [kvRun, kvNext, if_pos rfl, if_neg htag, PageTag.fromByte_toByte, hleb,
        if_neg hL, hread, hvalid e (by simp), if_true, if_pos rfl]
      rw [ih fuel rest L hfuel' (fun x hx => hvalid x (by simp [hx]))
        (fun x hx => hlen x (by simp [hx])) (fun x hx => h64 x (by simp [hx]))]
      rfl

/-- An entry's value is no longer than the whole serialized list. -/
theorem value_length_le_kvSerialize (es : List PageMeta) :
    ∀ e ∈ es, e.value.length ≤ (kvSerialize es).length := by
  induction es with
  | nil =>
    intro e he
    simp at he
  | cons x xs ih =>
    intro e he
    have hcons : kvSerialize (x :: xs)
        = (x.tag.toByte :: (lebEncode x.value.length ++ x.value)) ++ kvSerialize xs := by
      simp [kvSerialize, List.flatten]
    rw [hcons, List.length_append]
    rcases List.mem_cons.mp he with h | h
    · subst h
      simp only [List.length_cons, List.length_append]
      omega
    · have := ih e h
      omega

/-! ### Metadata codec (`metadata.rs`) -/

/-- `MetadataEntry` (book- and page-level metadata in the current model);
Rust strings are modelled by their UTF-8 byte sequences. -/
inductive MetaEntry
  | title (s : List Nat)
  | author (s : List Nat)
  | language (s : List Nat)
  | date (d : Nat)
  | license (s : List Nat)
  | keyword (s : List Nat)
  | user (key : List Nat) (value : List Nat)
  deriving DecidableEq, Repr

/-- `metadata::ByteTag as u8` for the entry's variant. -/
def MetaEntry.tagByte : MetaEntry → Nat
  | .title _ => 1
  | .author _ => 2
  | .language _ => 3
  | .date _ => 4
  | .license _ => 5
  | .keyword _ => 6
  | .user _ _ => 100

/-- The bytes `metadata::dump` writes for one entry: the tag byte, then
one LEB128-length-prefixed value per value of the variant (the `w!` macro
loops over `$values`, so `User` gets two length-prefixed values). -/
def MetaEntry.dumpBytes : MetaEntry → List Nat
  | .title s => 1 :: (lebEncode s.length ++ s)
  | .author s => 2 :: (lebEncode s.length ++ s)
  | .language s => 3 :: (lebEncode s.length ++ s)
  | .date d => 4 :: (lebEncode 8 ++ be64 d)
  | .license s => 5 :: (lebEncode s.length ++ s)
  | .keyword s => 6 :: (lebEncode s.length ++ s)
  | .user k v => 100 :: (lebEncode k.length ++ k ++ (lebEncode v.length ++ v))

/-- `metadata::dump` over a list of entries, ending with the `0` tag. -/
def metaDump (entries : List MetaEntry) : List Nat :=
  (entries.map MetaEntry.dumpBytes).flatten ++ [0]

/-- `metadata::MetadataError`. -/
inductive MetaError
  | unicodeError
  | ioError
  | leb128Error (e : LebError)
  | invalidLength (len : Nat)
  | invalidByteTag (b : Nat)
  deriving DecidableEq, Repr

/-- `metadata::BinaryDataParser`: unread input, declared input length and
poison flag. -/
structure MetaParser where
  input : List Nat
  inputLen : Nat
  ioValid : Bool
  deriving DecidableEq, Repr

/-- The `next_value!` macro of `BinaryDataParser::next`: reads a LEB128
length and that many bytes; every failure (including an oversized length)
clears `io_valid`. -/
def metaReadValue (s : MetaParser) : Except MetaError (List Nat) × MetaParser :=
  match lebDecode s.input with
  | .error e => (.error (.leb128Error e), { s with ioValid := false })
  | .ok (len, rest) =>
    if len > s.inputLen then
      (.error (.invalidLength len), { s with input := rest, ioValid := false })
    else
      match readN rest len with
      | none => (.error .ioError, { s with ioValid := false })
      | some (v, rest') => (.ok v, { s with input := rest' })

/-- The `next_str!` macro: `next_value!` followed by `String::from_utf8`,
whose failure also clears `io_valid` (it runs under `run!`). -/
def metaReadStr (s : MetaParser) : Except MetaError (List Nat) × MetaParser :=
  match metaReadValue s with
  | (.error e, s') => (.error e, s')
  | (.ok v, s') =>
    if validUtf8 v then (.ok v, s')
    else (.error .unicodeError, { s' with ioValid := false })

/-- `BinaryDataParser::next`. The `Date` arm maps a value of length other
than 8 to `InvalidLength` without touching `io_valid` (plain `map_err`,
not `run!`). -/
def metaNext (s : MetaParser) : Option (Except MetaError MetaEntry) × MetaParser :=
  if s.ioValid then
    match s.input with
    | [] => (some (.error .ioError), { s with ioValid := false })
    | b :: rest =>
      if b = 0 then (none, { s with input := rest })
      else if b = 1 ∨ b = 2 ∨ b = 3 ∨ b = 5 ∨ b = 6 then
        match metaReadStr { s with input := rest } with
        | (.error e, s2) => (some (.error e), s2)
        | (.ok v, s2) =>
          let entry := if b = 1 then MetaEntry.title v
            else if b = 2 then MetaEntry.author v
            else if b = 3 then MetaEntry.language v
            else if b = 5 then MetaEntry.license v
            else MetaEntry.keyword v
          (some (.ok entry), s2)
      else if b = 100 then
        match metaReadStr { s with input := rest } with
        | (.error e, s2) => (some (.error e), s2)
        | (.ok k, s2) =>
          match metaReadStr s2 with
          | (.error e, s3) => (some (.error e), s3)
          | (.ok v, s3) => (some (.ok (.user k v)), s3)
      else if b = 4 then
        match metaReadValue { s with input := rest } with
        | (.error e, s2) => (some (.error e), s2)
        | (.ok v, s2) =>
          if v.length = 8 then (some (.ok (.date (fromBe v))), s2)
          else (some (.error (.invalidLength v.length)), s2)
      else (some (.error (.invalidByteTag b)), { s with ioValid := false })
  else (none, s)

/-- Draining loop over `BinaryDataParser`, collecting entries in order and
aborting at the first error. -/
def metaRun : Nat → MetaParser → Except MetaError (List MetaEntry)
  | 0, _ => .error .ioError
  | fuel + 1, s =>
    match metaNext s with
    | (none, _) => .ok []
    | (some (.error e), _) => .error e
    | (some (.ok entry), s') => (metaRun fuel s').map (entry :: ·)

/-- Well-formedness of an entry relative to a declared input length `L`:
strings are valid UTF-8, each length-prefixed value is at most `L` and
fits in `u64`, and dates fit in `u64`. -/
def MetaEntry.wfb (L : Nat) : MetaEntry → Bool
  | .title s => validUtf8 s && decide (s.length ≤ L) && decide (s.length < 2 ^ 64)
  | .author s => validUtf8 s && decide (s.length ≤ L) && decide (s.length < 2 ^ 64)
  | .language s => validUtf8 s && decide (s.length ≤ L) && decide (s.length < 2 ^ 64)
  | .date d => decide (d < 2 ^ 64) && decide (8 ≤ L)
  | .license s => validUtf8 s && decide (s.length ≤ L) && decide (s.length < 2 ^ 64)
  | .keyword s => validUtf8 s && decide (s.length ≤ L) && decide (s.length < 2 ^ 64)
  | .user k v => validUtf8 k && decide (k.length ≤ L) && decide (k.length < 2 ^ 64)
      && (validUtf8 v && decide (v.length ≤ L) && decide (v.length < 2 ^ 64))

theorem metaReadStr_of_encoded (v tail : List Nat) (L : Nat)
    (hvalid : validUtf8 v = true) (hL : v.length ≤ L) (h64 : v.length < 2 ^ 64) :
    metaReadStr ⟨lebEncode v.length ++ (v ++ tail), L, true⟩
      = (.ok v, ⟨tail, L, true⟩) := by
  have hleb : lebDecode (lebEncode v.length ++ (v ++ tail)) = .ok (v.length, v ++ tail) :=
    lebDecode_encode _ _ h64
  have hL' : ¬ (v.length > L) := by omega
  simp [metaReadStr, metaReadValue, hleb, if_neg hL', readN_append, hvalid]

theorem metaReadValue_of_date (d : Nat) (tail : List Nat) (L : Nat)
    (h64 : d < 2 ^ 64) (hL : 8 ≤ L) :
    metaReadValue ⟨lebEncode 8 ++ (be64 d ++ tail), L, true⟩
      = (.ok (be64 d), ⟨tail, L, true⟩) := by
  have hleb : lebDecode (lebEncode 8 ++ (be64 d ++ tail)) = .ok (8, be64 d ++ tail) :=
    lebDecode_encode _ _ (by norm_num)
  have hL' : ¬ ((8 : Nat) > L) := by omega
  have hread : readN (be64 d ++ tail) 8 = some (be64 d, tail) := by
    have := readN_append (be64 d) tail
    rwa [be64_length] at this
  simp only [metaReadValue, hleb, if_neg hL', hread]

/-- `BinaryDataParser::next` on the bytes `metadata::dump` wrote for one
well-formed entry yields exactly that entry and leaves the tail unread. -/
theorem metaNext_dump (e : MetaEntry) (tail : List Nat) (L : Nat) (hwf : e.wfb L = true) :
    metaNext ⟨e.dumpBytes ++ tail, L, true⟩ = (some (.ok e), ⟨tail, L, true⟩) := by
  cases e with
  | title s =>
    simp only [MetaEntry.wfb, Bool.and_eq_true, decide_eq_true_eq] at hwf
    simp [metaNext, MetaEntry.dumpBytes, List.append_assoc,
      metaReadStr_of_encoded s tail L hwf.1.1 hwf.1.2 hwf.2]
  | author s =>
    simp only [MetaEntry.wfb, Bool.and_eq_true, decide_eq_true_eq] at hwf
    simp [metaNext, MetaEntry.dumpBytes, List.append_assoc,
      metaReadStr_of_encoded s tail L hwf.1.1 hwf.1.2 hwf.2]
  | language s =>
    simp only [MetaEntry.wfb, Bool.and_eq_true, decide_eq_true_eq] at hwf
    simp [metaNext, MetaEntry.dumpBytes, List.append_assoc,
      metaReadStr_of_encoded s tail L hwf.1.1 hwf.1.2 hwf.2]
  | license s =>
    simp only [MetaEntry.wfb, Bool.and_eq_true, decide_eq_true_eq] at hwf
    simp [metaNext, MetaEntry.dumpBytes, List.append_assoc,
      metaReadStr_of_encoded s tail L hwf.1.1 hwf.1.2 hwf.2]
  | keyword s =>
    simp only [MetaEntry.wfb, Bool.and_eq_true, decide_eq_true_eq] at hwf
    simp [metaNext, MetaEntry.dumpBytes, List.append_assoc,
      metaReadStr_of_encoded s tail L hwf.1.1 hwf.1.2 hwf.2]
  | date d =>
    simp only [MetaEntry.wfb, Bool.and_eq_true, decide_eq_true_eq] at hwf
    simp [metaNext, MetaEntry.dumpBytes, List.append_assoc,
      metaReadValue_of_date d tail L hwf.1 hwf.2, be64_length, fromBe_be64 d hwf.1]
  | user k v =>
    simp only [MetaEntry.wfb, Bool.and_eq_true, decide_eq_true_eq] at hwf
    simp [metaNext, MetaEntry.dumpBytes, List.append_assoc,
      metaReadStr_of_encoded k (lebEncode v.length ++ (v ++ tail)) L
        hwf.1.1.1 hwf.1.1.2 hwf.1.2,
      metaReadStr_of_encoded v tail L hwf.2.1.1 hwf.2.1.2 hwf.2.2]

/-- Reading back a dumped metadata list: with enough fuel and well-formed
entries, the parser returns exactly the dumped entries, in order, and
stops at the terminator, whatever bytes follow it. -/
theorem metaRun_dump (es : List MetaEntry) :
    ∀ (fuel : Nat) (rest : List Nat) (L : Nat),
      es.length < fuel →
      (∀ e ∈ es, e.wfb L = true) →
      metaRun fuel ⟨metaDump es ++ rest, L, true⟩ = .ok es := by
  induction es with
  | nil =>
    intro fuel rest L hfuel _
    match fuel, hfuel with
    | fuel + 1, _ => simp [metaRun, metaNext, metaDump]
  | cons e es ih =>
    intro fuel rest L hfuel hwf
    match fuel, hfuel with
    | fuel + 1, hfuel =>
      have hfuel' : es.length < fuel := by
        simp only [List.length_cons] at hfuel
        omega
      have hwf' : ∀ x ∈ es, x.wfb L = true := fun x hx => hwf x (by simp [hx])
      have hcons : metaDump (e :: es) ++ rest = e.dumpBytes ++ (metaDump es ++ rest) := by
        simp [metaDump, List.flatten]
      rw [hcons]
      simp only [metaRun, metaNext_dump e (metaDump es ++ rest) L (hwf e (by simp))]
      rw [ih fuel rest L hfuel' hwf']
      rfl

/-! ### Claim C6: failure stickiness of the deserialization iterators -/

/-- C6: failure stickiness is violated. After the KV-list parser emits an
`InvalidLength` error item it still decodes further entries from the same
stream (its `io_valid` flag is left set on that path), and the metadata
parser behaves likewise after a `Date` entry whose payload length is not
8: in both runs below, the call following the error item yields a parsed
entry instead of ending the iteration. -/
theorem C6_error_not_sticky :
    (kvNext ⟨[1, 100, 1, 1, 65, 0], 6, true⟩).1 = some (.error (.invalidLength 100)) ∧
    (kvNext (kvNext ⟨[1, 100, 1, 1, 65, 0], 6, true⟩).2).1 = some (.ok ⟨.title, [65]⟩) ∧
    (metaNext ⟨[4, 1, 7, 1, 1, 65, 0], 7, true⟩).1 = some (.error (.invalidLength 1)) ∧
    (metaNext (metaNext ⟨[4, 1, 7, 1, 1, 65, 0], 7, true⟩).2).1 = some (.ok (.title [65])) :=
  ⟨by decide, by decide, by decide, by decide⟩

/-! ### Claim C7: metadata wire form -/

/-- Payload of one metadata entry as the specification's wire-form claim
describes it (spec-side definition for the refinement comparison): every
entry is claimed to carry a single payload; for `User` that payload is
the LEB128 key length, the key, then the value as the remainder. -/
def specPayload : MetaEntry → List Nat
  | .title s => s
  | .author s => s
  | .language s => s
  | .date d => be64 d
  | .license s => s
  | .keyword s => s
  | .user k v => lebEncode k.length ++ k ++ v

/-- Per-entry wire form as the claim states it: one tag byte, a single
LEB128 payload length, then that many payload bytes. -/
def specEntryWire (e : MetaEntry) : List Nat :=
  e.tagByte :: (lebEncode (specPayload e).length ++ specPayload e)

/-- C7 counterexample: for `User("k", "v")` (key byte 107, value byte
118), `metadata::dump` writes `[100, 1, 107, 1, 118]` — two
length-prefixed fields — not the claimed single-payload form
`[100, 3, 1, 107, 118]`. -/
theorem C7_user_single_payload_counterexample :
    metaDump [.user [107] [118]] = [100, 1, 107, 1, 118, 0] ∧
    specEntryWire (.user [107] [118]) ++ [0] = [100, 3, 1, 107, 118, 0] ∧
    metaDump [.user [107] [118]] ≠ specEntryWire (.user [107] [118]) ++ [0] :=
  ⟨by decide, by decide, by decide⟩

/-- C7 (amended): every non-`User` entry is serialized exactly as the
claimed `tag · LEB128 payload length · payload`; a `User` entry is
serialized as `tag · LEB128 key length · key · LEB128 value length ·
value` (no outer payload length); and the metadata parser reads back
exactly the dumped sequence, in order and multiplicity. -/
theorem C7_wire_form (es : List MetaEntry) (rest : List Nat) (L fuel : Nat)
    (hfuel : es.length < fuel) (hwf : ∀ e ∈ es, e.wfb L = true) :
    (∀ e ∈ es, (∀ k v, e ≠ .user k v) → e.dumpBytes = specEntryWire e) ∧
    (∀ k v, (MetaEntry.user k v).dumpBytes
        = 100 :: (lebEncode k.length ++ k ++ (lebEncode v.length ++ v))) ∧
    metaRun fuel ⟨metaDump es ++ rest, L, true⟩ = .ok es := by
  refine ⟨?_, fun k v => rfl, metaRun_dump es fuel rest L hfuel hwf⟩
  intro e _ hne
  cases e with
  | title s => rfl
  | author s => rfl
  | language s => rfl
  | date d => rfl
  | license s => rfl
  | keyword s => rfl
  | user k v => exact absurd rfl (hne k v)

/-- Witness for `C7_wire_form` at a concrete entry list (a title, a date
and a user entry, with two junk bytes after the terminator). -/
theorem C7_wire_form_witness :
    (([MetaEntry.title [84], .date 5, .user [107] [118]] : List MetaEntry).length < 4 ∧
      (∀ e ∈ ([MetaEntry.title [84], .date 5, .user [107] [118]] : List MetaEntry),
        e.wfb 20 = true)) ∧
    metaRun 4 ⟨metaDump [.title [84], .date 5, .user [107] [118]] ++ [9, 9], 20, true⟩
      = .ok [.title [84], .date 5, .user [107] [118]] :=
  ⟨⟨by decide, by decide⟩,
    (C7_wire_form [.title [84], .date 5, .user [107] [118]] [9, 9] 20 4
      (by decide) (by decide)).2.2⟩

/-! ### Data-block reader (`persistence/datablock/reader.rs`) -/

/-- The `std::io::Error` values produced by the reader. -/
inductive IoErr
  | unexpectedEof
  | invalidBlockType
  | offsetBeyondBlock
  | blockBeyondEnd
  | blockTooLarge
  deriving DecidableEq, Repr

/-- `LruCache::get`-style lookup on the model cache (most recently used
first). -/
def lruLookup (cache : List (Nat × Except IoErr (List Nat))) (k : Nat) :
    Option (Except IoErr (List Nat)) :=
  (cache.find? (fun p => p.1 = k)).map (·.2)

/-- Promotion of an existing key to most-recently-used. -/
def lruPromote (cache : List (Nat × Except IoErr (List Nat))) (k : Nat)
    (v : Except IoErr (List Nat)) : List (Nat × Except IoErr (List Nat)) :=
  (k, v) :: cache.filter (fun p => p.1 ≠ k)

/-- Insertion of a missing key, evicting the least recently used entry
when the cache is at its capacity of `LRU_CACHE_SIZE = 16` entries. -/
def lruInsert (cache : List (Nat × Except IoErr (List Nat))) (k : Nat)
    (v : Except IoErr (List Nat)) : List (Nat × Except IoErr (List Nat)) :=
  (k, v) :: (if 16 ≤ cache.length then cache.dropLast else cache)

/-- `DataBlocksReader` without its stream: the length recorded by `new`
(a seek to the end) and the LRU cache, which stores `Result` values —
decoded payloads or errors. -/
structure ReaderState where
  streamLen : Nat
  cache : List (Nat × Except IoErr (List Nat))
  deriving DecidableEq, Repr

/-- The closure passed to `get_or_insert` in `with_block`: seek to
`block_id`, read the tag byte (only `1`, `Uncompressed`, is a valid
`BlockType` in this build), read the 4-byte big-endian length, reject an
`offset` beyond the declared length, reject a block whose
`block_id.saturating_add(len)` exceeds the recorded stream length, then
read the payload. -/
def readBlockRaw (stream : List Nat) (streamLen : Nat) (blockId offset : Nat) :
    Except IoErr (List Nat) :=
  match readN (stream.drop blockId) 1 with
  | none => .error .unexpectedEof
  | some (tagB, rest1) =>
    if tagB = [1] then
      match readN rest1 4 with
      | none => .error .unexpectedEof
      | some (lenB, rest2) =>
        let len := fromBe lenB
        if offset > len then .error .offsetBeyondBlock
        else if min (blockId + len) U64MAX > streamLen then .error .blockBeyondEnd
        else
          match readN rest2 len with
          | none => .error .unexpectedEof
          | some (data, _) => .ok data
    else .error .invalidBlockType

/-- Outcome of a `with_block` call: the visitor's result, a propagated
`io::Error`, or a Rust panic (an out-of-range slice index). -/
inductive WBResult (α : Type)
  | ok (a : α)
  | err (e : IoErr)
  | panic
  deriving DecidableEq, Repr

/-- `DataBlocksReader::with_block`. On a cache hit the cached `Result` is
reused as is (errors included) and the visitor is applied to
`&data[offset..]`, which panics when `offset > data.len()`; on a miss the
closure's `Result` — error or payload — is inserted into the LRU. -/
def withBlock {α : Type} (stream : List Nat) (r : ReaderState) (blockId offset : Nat)
    (f : List Nat → α) : WBResult α × ReaderState :=
  match lruLookup r.cache blockId with
  | some v =>
    let r' : ReaderState := { r with cache := lruPromote r.cache blockId v }
    match v with
    | .ok data =>
      if offset ≤ data.length then (.ok (f (data.drop offset)), r')
      else (.panic, r')
    | .error e => (.err e, r')
  | none =>
    let v := readBlockRaw stream r.streamLen blockId offset
    let r' : ReaderState := { r with cache := lruInsert r.cache blockId v }
    match v with
    | .ok data => (.ok (f (data.drop offset)), r')
    | .error e => (.err e, r')

/-- A sequence of `with_block` calls, threading the reader state. -/
def runCalls (stream : List Nat) (r : ReaderState) : List (Nat × Nat) → ReaderState
  | [] => r
  | (b, off) :: rest => runCalls stream (withBlock stream r b off (fun l => l)).2 rest

/-! ### Claims C4, C5, C10: reader cache behaviour -/

/-- C4 counterexample: the reader's LRU stores the closure's `Result`, so
a failed read IS cached. Over a stream whose block 0 has the invalid tag
byte 0, the first call fails; if the underlying stream afterwards holds a
valid block at the same position, the next call still returns the cached
error instead of re-reading, although a fresh header parse and payload
read of the new bytes succeeds. -/
theorem C4_error_is_cached_counterexample :
    (withBlock [0, 0, 0, 0, 1, 65] (⟨6, []⟩ : ReaderState) 0 0 (fun l => l)).1
      = .err .invalidBlockType ∧
    (withBlock [1, 0, 0, 0, 1, 65]
        (withBlock [0, 0, 0, 0, 1, 65] (⟨6, []⟩ : ReaderState) 0 0 (fun l => l)).2
        0 0 (fun l => l)).1
      = .err .invalidBlockType ∧
    readBlockRaw [1, 0, 0, 0, 1, 65] 6 0 0 = .ok [65] :=
  ⟨by decide, by decide, by decide⟩

/-- C4 (amended): errors are cached. Whenever the LRU maps `block_id` to
an error, `with_block` returns that error without consulting the stream
at all: the call's outcome and resulting state are identical for any two
streams. -/
theorem C4_cached_error_short_circuits (stream stream' : List Nat) (r : ReaderState)
    (blockId offset : Nat) (e : IoErr)
    (h : lruLookup r.cache blockId = some (.error e)) :
    (withBlock stream r blockId offset (fun l => l)).1 = .err e ∧
    withBlock stream r blockId offset (fun l => l)
      = withBlock stream' r blockId offset (fun l => l) := by
  constructor
  · simp [withBlock, h]
  · simp [withBlock, h]

/-- Witness for `C4_cached_error_short_circuits`: a reader whose cache
already holds an error for block 0. -/
theorem C4_cached_error_short_circuits_witness :
    lruLookup [(0, Except.error IoErr.invalidBlockType)] 0
      = some (.error .invalidBlockType) ∧
    (withBlock [1, 0, 0, 0, 1, 65]
        (⟨6, [(0, Except.error IoErr.invalidBlockType)]⟩ : ReaderState) 0 0
        (fun l => l)).1
      = .err .invalidBlockType :=
  ⟨by decide,
    (C4_cached_error_short_circuits [1, 0, 0, 0, 1, 65] [] ⟨6, [(0, .error .invalidBlockType)]⟩
      0 0 .invalidBlockType (by decide)).1⟩

/-- C5: the offset bound is checked only inside the cache-miss closure.
Over a valid 2-byte block, a first call decodes and caches the payload;
a second call with offset 3 > 2 then hits the cache and panics on the
slice `&data[offset..]`, while a fresh read with the same offset would
have produced the InvalidInput "offset is beyond end of the block"
error. -/
theorem C5_cached_offset_panics :
    (withBlock [1, 0, 0, 0, 2, 65, 66] (⟨7, []⟩ : ReaderState) 0 0 (fun l => l)).1
      = .ok [65, 66] ∧
    (withBlock [1, 0, 0, 0, 2, 65, 66]
        (withBlock [1, 0, 0, 0, 2, 65, 66] (⟨7, []⟩ : ReaderState) 0 0 (fun l => l)).2
        0 3 (fun l => l)).1
      = .panic ∧
    readBlockRaw [1, 0, 0, 0, 2, 65, 66] 7 0 3 = .error .offsetBeyondBlock :=
  ⟨by decide, by decide, by decide⟩

/-- The cache never grows beyond 16 entries in one `with_block` call. -/
theorem withBlock_cache_le (stream : List Nat) (r : ReaderState) (b off : Nat)
    (h : r.cache.length ≤ 16) :
    (withBlock stream r b off (fun l => l)).2.cache.length ≤ 16 := by
  unfold withBlock
  cases hl : lruLookup r.cache b with
  | some v =>
    have hfind : r.cache.find? (fun p => p.1 = b) ≠ none := by
      intro hc
      simp [lruLookup, hc] at hl
    cases hfind' : r.cache.find? (fun p => p.1 = b) with
    | none => exact absurd hfind' hfind
    | some p =>
      have hp := List.find?_some hfind'
      have hmem : p ∈ r.cache := List.mem_of_find?_eq_some hfind'
      have hlt : (r.cache.filter (fun q => q.1 ≠ b)).length < r.cache.length := by
        refine List.length_filter_lt_length_iff_exists.mpr ⟨p, hmem, ?_⟩
        simp only [decide_eq_true_eq] at hp
        simp [hp]
      cases v with
      | ok data =>
        by_cases hoff : off ≤ data.length <;>
          simp only [if_pos, if_neg, hoff, ite_true, ite_false, lruPromote] <;>
          simp only [List.length_cons] <;> omega
      | error e =>
        simp only [lruPromote, List.length_cons]
        omega
  | none =>
    cases hv : readBlockRaw stream r.streamLen b off with
    | ok data =>
      simp only [lruInsert, List.length_cons]
      by_cases hcap : 16 ≤ r.cache.length
      · rw [if_pos hcap]
        have : r.cache.dropLast.length = r.cache.length - 1 := by
          simp [List.length_dropLast]
        omega
      · rw [if_neg hcap]
        omega
    | error e =>
      simp only [lruInsert, List.length_cons]
      by_cases hcap : 16 ≤ r.cache.length
      · rw [if_pos hcap]
        have : r.cache.dropLast.length = r.cache.length - 1 := by
          simp [List.length_dropLast]
        omega
      · rw [if_neg hcap]
        omega

theorem runCalls_cache_le (stream : List Nat) (calls : List (Nat × Nat)) :
    ∀ (r : ReaderState), r.cache.length ≤ 16 →
      (runCalls stream r calls).cache.length ≤ 16 := by
  induction calls with
  | nil => intro r h; exact h
  | cons c rest ih =>
    intro r h
    exact ih _ (withBlock_cache_le stream r c.1 c.2 h)

/-- C10: the LRU is bounded. Starting from a fresh reader, any sequence
of `with_block` calls leaves at most 16 cached entries; and whenever the
cache holds exactly 16 entries and a 17th distinct block is read, the
least recently used entry (the tail of the model list) is evicted and
the new block's `Result` becomes most recent. -/
theorem C10_lru_bounded (stream : List Nat) (streamLen : Nat) (calls : List (Nat × Nat)) :
    (runCalls stream ⟨streamLen, []⟩ calls).cache.length ≤ 16 ∧
    (∀ (r : ReaderState) (b off : Nat), r.cache.length = 16 →
      lruLookup r.cache b = none →
      (withBlock stream r b off (fun l => l)).2.cache
        = (b, readBlockRaw stream r.streamLen b off) :: r.cache.dropLast) := by
  constructor
  · exact runCalls_cache_le stream calls ⟨streamLen, []⟩ (by simp)
  · intro r b off hlen hmiss
    unfold withBlock
    rw [hmiss]
    cases hv : readBlockRaw stream r.streamLen b off <;>
      simp [lruInsert, hlen]

/-- Witness for `C10_lru_bounded` on a concrete 17-block call sequence
and a concrete full cache. -/
theorem C10_lru_bounded_witness :
    ((runCalls [] ⟨0, []⟩ ((List.range 17).map (fun i => (i, 0)))).cache.length ≤ 16) ∧
    (⟨0, (List.range 16).map
        (fun i => (i, Except.error IoErr.unexpectedEof))⟩ : ReaderState).cache.length = 16 ∧
    lruLookup ((List.range 16).map (fun i => (i, Except.error IoErr.unexpectedEof))) 99 = none ∧
    (withBlock [] (⟨0, (List.range 16).map
        (fun i => (i, Except.error IoErr.unexpectedEof))⟩ : ReaderState) 99 0 (fun l => l)).2.cache
      = (99, readBlockRaw [] 0 99 0)
        :: ((List.range 16).map (fun i => (i, Except.error IoErr.unexpectedEof))).dropLast := by
  refine ⟨(C10_lru_bounded [] 0 ((List.range 17).map (fun i => (i, 0)))).1, by decide, by decide, ?_⟩
  exact (C10_lru_bounded [] 0 []).2
    ⟨0, (List.range 16).map (fun i => (i, Except.error IoErr.unexpectedEof))⟩ 99 0
    (by decide) (by decide)

/-! ### Data-block writer (`persistence/datablock/writer.rs`),
compression `None` (the only `BlockType` this build reads back) -/

/-- `MAX_DATA_BLOCK_SIZE = 64 * 1024`. -/
def MAXDATABLOCKSIZE : Nat := 64 * 1024

/-- A seekable output stream: its bytes and the cursor position. -/
structure OutStream where
  data : List Nat
  pos : Nat
  deriving DecidableEq, Repr

/-- `Write::write_all`: overwrite at the cursor, extending the stream as
needed, and advance the cursor. -/
def writeBytes (s : OutStream) (bs : List Nat) : OutStream :=
  { data := s.data.take s.pos ++ bs ++ s.data.drop (s.pos + bs.length),
    pos := s.pos + bs.length }

/-- `Seek::seek(SeekFrom::Start(p))`. -/
def seekTo (s : OutStream) (p : Nat) : OutStream := { s with pos := p }

/-- `writer::BlockState` (the `Invalid` transient never escapes a call). -/
inductive BlockState
  | wait
  | active (blockId : Nat) (offset : Nat)
  deriving DecidableEq, Repr

/-- `DataBlocksWriter` over its stream. -/
structure WriterState where
  out : OutStream
  state : BlockState
  deriving DecidableEq, Repr

/-- `DataBlocksWriter::close_current`. In the `Wait` state the source
uses the sentinel `block_id = !0`; `block_id + 1 + 4` and the subtraction
are `u64` operations, modelled with wrapping (release) semantics. A
positive length is patched over the 4 bytes after the tag; a length that
does not fit `u32` is the "block size can't be written as u32" error. -/
def closeCurrent (w : WriterState) : Except IoErr WriterState :=
  let blockId := match w.state with
    | .wait => U64MAX
    | .active id _ => id
  let currentPosition := w.out.pos
  let hdrEnd := (blockId + 1 + 4) % 2 ^ 64
  let len := (currentPosition + 2 ^ 64 - hdrEnd % 2 ^ 64) % 2 ^ 64
  if len > 0 then
    if len < 2 ^ 32 then
      let patchPos := (blockId + 1) % 2 ^ 64
      let out3 := seekTo (writeBytes (seekTo w.out patchPos) (be32 len)) currentPosition
      .ok { out := out3, state := .wait }
    else .error .blockTooLarge
  else .ok { out := w.out, state := .wait }

/-- `DataBlocksWriter::fragment(size_hint)`: close the active block when
the hint is `u64::MAX` or the block would overflow `MAX_DATA_BLOCK_SIZE`
(the offset/hint sum is a `u64` addition), then open a block if waiting
(record `block_id`, write the tag byte `1` and four zero length bytes).
Returns the writer together with the fragment's `(block_id, offset)`. -/
def fragmentOpen (w : WriterState) (sizeHint : Nat) :
    Except IoErr (WriterState × Nat × Nat) :=
  let currentOffset := match w.state with
    | .active _ off => off
    | _ => 0
  let step1 : Except IoErr WriterState :=
    if sizeHint = U64MAX ∨
        ((currentOffset + sizeHint) % 2 ^ 64 > MAXDATABLOCKSIZE ∧ 0 < currentOffset) then
      closeCurrent w
    else .ok w
  match step1 with
  | .error e => .error e
  | .ok w1 =>
    match w1.state with
    | .wait =>
      let blockId := w1.out.pos
      .ok ({ out := writeBytes w1.out [1, 0, 0, 0, 0], state := .active blockId 0 },
        blockId, 0)
    | .active blockId off => .ok (w1, blockId, off)

/-- `Fragment`'s `Write` implementation: bytes go to the stream and the
active block's decoded offset advances. -/
def fragmentWrite (w : WriterState) (bs : List Nat) : WriterState :=
  match w.state with
  | .active id off => { out := writeBytes w.out bs, state := .active id (off + bs.length) }
  | _ => { w with out := writeBytes w.out bs }

/-- `DataBlocksWriter::finish`: close the active block and return the
stream. -/
def writerFinish (w : WriterState) : Except IoErr OutStream :=
  (closeCurrent w).map (·.out)

/-- A sequence of fragment writes: each pair is `(size_hint, bytes)`;
returns the final writer and each fragment's recorded location. -/
def runFragments (w : WriterState) : List (Nat × List Nat) →
    Except IoErr (WriterState × List (Nat × Nat))
  | [] => .ok (w, [])
  | (hint, bs) :: rest =>
    match fragmentOpen w hint with
    | .error e => .error e
    | .ok (w1, bid, off) =>
      (runFragments (fragmentWrite w1 bs) rest).map fun p => (p.1, (bid, off) :: p.2)

/-! ### Claim C3: block-size policy of the writer -/

/-- C3 counterexample: with one byte already in the active block
(`current_offset = 1`), a fragment with `size_hint = 40000` satisfies the
claimed 32 KiB overflow condition (`1 + 40000 > 32 * 1024` and
`current_offset > 0`), yet the writer keeps it in the same block
(location `(0, 1)`): the source threshold `MAX_DATA_BLOCK_SIZE` is
`64 * 1024`, not 32 KiB. -/
theorem C3_32k_threshold_counterexample :
    (runFragments ⟨⟨[], 0⟩, .wait⟩ [(1, [65]), (40000, [66])]).map (fun p => p.2)
      = .ok [(0, 0), (0, 1)] ∧ 32 * 1024 < 1 + 40000 :=
  ⟨by decide, by decide⟩

/-- C3 (amended): with an active block, `fragment(size_hint)` starts a
new block exactly when `size_hint = u64::MAX` or the decoded offset is
strictly positive and `offset + size_hint` exceeds `64 * 1024`;
consequently a fragment reusing a block at a strictly positive offset
satisfies `offset + size_hint ≤ 64 KiB`, so a block's decoded payload can
exceed 64 KiB only through a fragment whose write starts at decoded
offset 0 (an empty block). -/
theorem C3_new_block_condition (w : WriterState) (bid off sizeHint : Nat)
    (hstate : w.state = .active bid off)
    (hbid : bid + 5 ≤ w.out.pos)
    (hpos : w.out.pos < 2 ^ 64)
    (hlen : w.out.pos - (bid + 5) < 2 ^ 32)
    (hnowrap : off + sizeHint < 2 ^ 64) :
    (∃ w' bid' off', fragmentOpen w sizeHint = .ok (w', bid', off') ∧
      ((bid' ≠ bid) ↔ (sizeHint = U64MAX ∨ (0 < off ∧ MAXDATABLOCKSIZE < off + sizeHint))) ∧
      (bid' = bid → off' = off) ∧ (bid' ≠ bid → off' = 0)) ∧
    (¬ (sizeHint = U64MAX ∨ (0 < off ∧ MAXDATABLOCKSIZE < off + sizeHint)) → 0 < off →
      off + sizeHint ≤ 64 * 1024) := by
  have hmod : (off + sizeHint) % 2 ^ 64 = off + sizeHint := Nat.mod_eq_of_lt hnowrap
  by_cases hc : sizeHint = U64MAX ∨ (0 < off ∧ MAXDATABLOCKSIZE < off + sizeHint)
  · -- the close-and-reopen path
    have hcond : sizeHint = U64MAX ∨
        ((off + sizeHint) % 2 ^ 64 > MAXDATABLOCKSIZE ∧ 0 < off) := by
      rcases hc with h | ⟨h1, h2⟩
      · exact Or.inl h
      · exact Or.inr ⟨by omega, h1⟩
    have hhdr : ((bid + 1 + 4) % 2 ^ 64) % 2 ^ 64 = bid + 5 := by
      rw [Nat.mod_eq_of_lt (Nat.mod_lt _ (by positivity)), Nat.mod_eq_of_lt (by omega)]
    have hlenval : (w.out.pos + 2 ^ 64 - ((bid + 1 + 4) % 2 ^ 64) % 2 ^ 64) % 2 ^ 64
        = w.out.pos - (bid + 5) := by
      rw [hhdr]
      have : w.out.pos + 2 ^ 64 - (bid + 5) = 2 ^ 64 + (w.out.pos - (bid + 5)) := by omega
      rw [this, Nat.add_mod_left, Nat.mod_eq_of_lt (by omega)]
    have hclose : ∃ o : OutStream, closeCurrent w = .ok ⟨o, .wait⟩ ∧ o.pos = w.out.pos := by
      simp only [closeCurrent, hstate, hlenval]
      by_cases h0 : 0 < w.out.pos - (bid + 5)
      · rw [if_pos h0, if_pos hlen]
        exact ⟨_, rfl, rfl⟩
      · rw [if_neg (by omega)]
        exact ⟨w.out, rfl, rfl⟩
    rcases hclose with ⟨o, hcl, hopos⟩
    have hfo : fragmentOpen w sizeHint
        = .ok ({ out := writeBytes o [1, 0, 0, 0, 0], state := .active o.pos 0 }, o.pos, 0) := by
      simp only [fragmentOpen, hstate, if_pos hcond, hcl]
    refine ⟨⟨_, _, _, hfo, ?_, ?_, fun _ => rfl⟩, fun h => absurd hc h⟩
    · constructor
      · intro _
        exact hc
      · intro _
        rw [hopos]
        omega
    · intro h
      exfalso
      rw [hopos] at h
      omega
  · -- the reuse path
    have hcond : ¬ (sizeHint = U64MAX ∨
        ((off + sizeHint) % 2 ^ 64 > MAXDATABLOCKSIZE ∧ 0 < off)) := by
      rw [hmod]
      rintro (h | ⟨h1, h2⟩)
      · exact hc (Or.inl h)
      · exact hc (Or.inr ⟨h2, h1⟩)
    refine ⟨⟨w, bid, off, ?_, ?_, fun _ => rfl, fun h => absurd rfl h⟩, ?_⟩
    · simp only [fragmentOpen, hstate, if_neg hcond]
    · simp only [ne_eq, not_true_eq_false, false_iff]
      exact hc
    · intro _ hoff
      have h3 : ¬ (MAXDATABLOCKSIZE < off + sizeHint) := fun h => hc (Or.inr ⟨hoff, h⟩)
      simp only [MAXDATABLOCKSIZE] at h3
      omega

/-- Witness for `C3_new_block_condition`: the writer state reached after
one 1-byte fragment, probed with `size_hint = 40000`. -/
theorem C3_new_block_condition_witness :
    ((⟨⟨[1, 0, 0, 0, 0, 65], 6⟩, .active 0 1⟩ : WriterState).state = .active 0 1 ∧
      0 + 5 ≤ 6 ∧ (6 : Nat) < 2 ^ 64 ∧ 6 - (0 + 5) < 2 ^ 32 ∧ 1 + 40000 < 2 ^ 64) ∧
    ((∃ w' bid' off',
        fragmentOpen (⟨⟨[1, 0, 0, 0, 0, 65], 6⟩, .active 0 1⟩ : WriterState) 40000
          = .ok (w', bid', off') ∧
        ((bid' ≠ 0) ↔ (40000 = U64MAX ∨ (0 < 1 ∧ MAXDATABLOCKSIZE < 1 + 40000))) ∧
        (bid' = 0 → off' = 1) ∧ (bid' ≠ 0 → off' = 0)) ∧
      (¬ (40000 = U64MAX ∨ (0 < 1 ∧ MAXDATABLOCKSIZE < 1 + 40000)) → 0 < 1 →
        1 + 40000 ≤ 64 * 1024)) :=
  ⟨⟨rfl, by decide, by decide, by decide, by decide⟩,
    C3_new_block_condition ⟨⟨[1, 0, 0, 0, 0, 65], 6⟩, .active 0 1⟩ 0 1 40000
      rfl (by decide) (by decide) (by decide) (by decide)⟩

/-! ### Page store (`page/persistence.rs`) and v1 container
(`persistence/v1.rs`) -/

/-- `u32::MAX` (`!0u32`), the placeholder written into reserved header
and index fields. -/
def U32MAX : Nat := 2 ^ 32 - 1

/-- A `Page` as `dump_pages`/`build_page` use it: identifier, optional
parent, title, optional keywords/description, optional content (strings
as UTF-8 byte sequences). -/
structure Page where
  id : Nat
  parentId : Option Nat
  title : List Nat
  keywords : Option (List Nat)
  description : Option (List Nat)
  content : Option (List Nat)
  deriving DecidableEq, Repr

/-- The KV-list entries `dump_pages` serializes for one page: the title
always, then keywords and description when present. -/
def pageMetaEntries (p : Page) : List PageMeta :=
  [⟨.title, p.title⟩]
    ++ (match p.keywords with | some k => [⟨.keywords, k⟩] | none => [])
    ++ (match p.description with | some d => [⟨.description, d⟩] | none => [])

/-- `page::persistence::IndexEntry`. -/
structure IndexEntry where
  id : Nat
  parentId : Nat
  metadataBlockId : Nat
  metadataBlockOffset : Nat
  contentBlockId : Nat
  contentBlockOffset : Nat
  deriving DecidableEq, Repr

/-- `IndexEntry::write` (`endiannezz` big-endian): six `u32` fields, 24
bytes. -/
def IndexEntry.writeBytes (e : IndexEntry) : List Nat :=
  be32 e.id ++ be32 e.parentId ++ be32 e.metadataBlockId ++ be32 e.metadataBlockOffset
    ++ be32 e.contentBlockId ++ be32 e.contentBlockOffset

/-- `IndexEntry::read` of one 24-byte record. -/
def parseIndexEntry (bs : List Nat) : IndexEntry :=
  ⟨fromBe (bs.take 4), fromBe ((bs.drop 4).take 4), fromBe ((bs.drop 8).take 4),
   fromBe ((bs.drop 12).take 4), fromBe ((bs.drop 16).take 4), fromBe ((bs.drop 20).take 4)⟩

/-- `page::Error`. -/
inductive PageErr
  | io (e : IoErr)
  | unicodeError
  | invalidMetadata (e : KvError)
  | leb128 (e : LebError)
  | invalidLength (n : Nat)
  | invalidId (n : Nat)
  | duplicatedId (n : Nat)
  deriving DecidableEq, Repr

/-- The on-disk rendering of a closed uncompressed block: tag byte `1`,
big-endian length, decoded payload. -/
def renderBlock (b : List Nat) : List Nat := 1 :: (be32 b.length ++ b)

/-- A page's content bytes (`content.as_deref().unwrap_or("")`). -/
def pageContent (p : Page) : List Nat := p.content.getD []

/-- The bytes a page's content fragment holds: the LEB128 content length
then the content (the loop's two writes, combined). -/
def pageFrag (p : Page) : List Nat :=
  lebEncode (pageContent p).length ++ pageContent p

/-- A page's serialized KV-list, as appended to the staging buffer. -/
def pageKv (p : Page) : List Nat := kvSerialize (pageMetaEntries p)

/-- The page loop of `dump_pages`: for each page, open a fragment with
`size_hint = len(content)`, write the LEB128 content length then the
content, record the fragment's `(block_id, offset)` (each must fit `u32`,
as must the metadata staging offset), append the page's KV-list to the
staging buffer, and push the index entry with the metadata block id still
the `!0` placeholder. -/
def dumpPagesLoop : WriterState → List Page → List Nat → List IndexEntry →
    Except IoErr (WriterState × List Nat × List IndexEntry)
  | w, [], buf, idx => .ok (w, buf, idx)
  | w, p :: rest, buf, idx =>
    match fragmentOpen w (pageContent p).length with
    | .error e => .error e
    | .ok (w1, bid, off) =>
      let w2 := fragmentWrite w1 (pageFrag p)
      if bid < 2 ^ 32 ∧ off < 2 ^ 32 ∧ buf.length < 2 ^ 32 then
        dumpPagesLoop w2 rest (buf ++ pageKv p)
          (idx ++ [⟨p.id, p.parentId.getD 0, U32MAX, buf.length, bid, off⟩])
      else .error .blockTooLarge

/-- `dump_pages`: run the page loop, send the staging buffer through a
fragment forced into a fresh block (`size_hint = u64::MAX`), close the
writer, then write the index entries (with the metadata block id patched
in) at the current position, returning that position. -/
def dumpPages (out : OutStream) (pages : List Page) : Except IoErr (OutStream × Nat) :=
  match dumpPagesLoop ⟨out, .wait⟩ pages [] [] with
  | .error e => .error e
  | .ok (w, buf, idx) =>
    match fragmentOpen w U64MAX with
    | .error e => .error e
    | .ok (w1, mbid, _) =>
      let w2 := fragmentWrite w1 buf
      if mbid < 2 ^ 32 then
        match writerFinish w2 with
        | .error e => .error e
        | .ok out2 =>
          let pageIndexPos := out2.pos
          let out3 := writeBytes out2
            ((idx.map fun e => ({ e with metadataBlockId := mbid } : IndexEntry).writeBytes).flatten)
          .ok (out3, pageIndexPos)
      else .error .blockTooLarge

/-- `persistence::PersistenceError`. -/
inductive PError
  | io (e : IoErr)
  | invalidNumber
  | invalidMagic
  | tooManyPages
  | pageError (e : PageErr)
  deriving DecidableEq, Repr

/-- `v1::MAGIC = b"\x89\x01THRPKG"`. -/
def MAGIC : List Nat := [0x89, 0x01, 84, 72, 82, 80, 75, 71]

/-- The book data owned by `BookBuilder` that `v1::dump` consumes. -/
structure BookBuilderModel where
  metadata : List MetaEntry
  pages : List Page
  deriving DecidableEq, Repr

/-- `v1::dump`: record the beginning, write the magic, a placeholder
header (`num_pages` known, offsets `!0`), the book metadata KV-list, the
pages section, then seek back to `beginning + 8` and rewrite the header.
Offsets are taken relative to `beginning` and must fit `u32`
(`TooManyPages` otherwise). -/
def dumpV1 (out : OutStream) (book : BookBuilderModel) : Except PError OutStream :=
  if book.pages.length < 2 ^ 32 then
    let beginning := out.pos
    let out1 := writeBytes out MAGIC
    let out2 := writeBytes out1
      (be32 book.pages.length ++ be32 U32MAX ++ be32 U32MAX ++ be32 U32MAX)
    let metadataPos := out2.pos - beginning
    if metadataPos < 2 ^ 32 then
      let out3 := writeBytes out2 (metaDump book.metadata)
      match dumpPages out3 book.pages with
      | .error e => .error (.io e)
      | .ok (out4, pagePos) =>
        if pagePos - beginning < 2 ^ 32 then
          let out5 := seekTo out4 (beginning + 8)
          .ok (writeBytes out5 (be32 book.pages.length ++ be32 metadataPos
            ++ be32 (pagePos - beginning) ++ be32 U32MAX))
        else .error .tooManyPages
    else .error .tooManyPages
  else .error .tooManyPages

/-- `BTreeMap::insert` on an id-sorted association list, failing on a
duplicate key (as `Index::new` does). -/
def btreeInsert (m : List (Nat × IndexEntry)) (k : Nat) (v : IndexEntry) :
    Option (List (Nat × IndexEntry)) :=
  match m with
  | [] => some [(k, v)]
  | (k', v') :: rest =>
    if k < k' then some ((k, v) :: (k', v') :: rest)
    else if k = k' then none
    else (btreeInsert rest k v).map ((k', v') :: ·)

/-- The entry-reading loop of `page::Index::new`. -/
def indexNewLoop : Nat → List Nat → List (Nat × IndexEntry) →
    Except PageErr (List (Nat × IndexEntry))
  | 0, _, m => .ok m
  | n + 1, input, m =>
    match readN input 24 with
    | none => .error (.io .unexpectedEof)
    | some (eb, rest) =>
      let e := parseIndexEntry eb
      if e.id = 0 then .error (.invalidId e.id)
      else
        match btreeInsert m e.id e with
        | none => .error (.duplicatedId e.id)
        | some m' => indexNewLoop n rest m'

/-- `page::Index::new`: seek to `position` — an absolute
`SeekFrom::Start`, not relative to the container — and read `num_pages`
24-byte entries into an id-keyed ordered map. -/
def indexNew (bytes : List Nat) (numPages : Nat) (position : Nat) :
    Except PageErr (List (Nat × IndexEntry)) :=
  indexNewLoop numPages (bytes.drop position) []

/-- The loaded `Book`: the owned input bytes, the data-block reader state,
`num_pages`, `metadata_pos` and the page index. -/
structure BookModel where
  streamBytes : List Nat
  reader : ReaderState
  numPages : Nat
  metadataPos : Nat
  pageIndex : List (Nat × IndexEntry)
  deriving DecidableEq, Repr

/-- `persistence::load` followed by `v1::load`, starting at `startPos` of
the stream: check the magic, read the header, build the page index from
the absolute `pages_pos`, and construct the book with a fresh data-block
reader whose recorded stream length is the whole input length. -/
def loadV1 (bytes : List Nat) (startPos : Nat) : Except PError BookModel :=
  match readN (bytes.drop startPos) 8 with
  | none => .error .invalidMagic
  | some (magic, _) =>
    if magic = MAGIC then
      match readN (bytes.drop (startPos + 8)) 16 with
      | none => .error (.io .unexpectedEof)
      | some (hdr, _) =>
        let numPages := fromBe (hdr.take 4)
        let metadataPos := fromBe ((hdr.drop 4).take 4)
        let pagesPos := fromBe ((hdr.drop 8).take 4)
        match indexNew bytes numPages pagesPos with
        | .error e => .error (.pageError e)
        | .ok idx => .ok ⟨bytes, ⟨bytes.length, []⟩, numPages, metadataPos, idx⟩
    else .error .invalidMagic

/-- The content visitor of `build_page`: slice the decoded block payload
from the content offset, read the LEB128 content length, take that many
bytes starting right after it, and validate UTF-8. -/
def contentVisitor (blockBytes : List Nat) (off : Nat) : Except PageErr (List Nat) :=
  if off ≤ blockBytes.length then
    let slice := blockBytes.drop off
    match lebDecode slice with
    | .error le => .error (.leb128 le)
    | .ok (len, restAfterLeb) =>
      let position := slice.length - restAfterLeb.length + off
      if len + position ≤ blockBytes.length then
        let content := (blockBytes.drop position).take len
        if validUtf8 content then .ok content else .error .unicodeError
      else .error (.invalidLength len)
  else .error (.invalidLength off)

/-- The metadata visitor of `build_page`: slice the metadata block
payload from the metadata offset and drain the KV-list over it (the slice
length is the parser's declared input length); the last occurrence of
each tag wins. -/
def metaVisitor (blockBytes : List Nat) (off : Nat) :
    Except PageErr (Option (List Nat) × Option (List Nat) × Option (List Nat)) :=
  if off ≤ blockBytes.length then
    let slice := blockBytes.drop off
    match kvRun (slice.length + 1) ⟨slice, slice.length, true⟩ with
    | .error e => .error (.invalidMetadata e)
    | .ok entries =>
      .ok (entries.foldl
        (fun acc e =>
          match e.tag with
          | .title => (some e.value, acc.2.1, acc.2.2)
          | .keywords => (acc.1, some e.value, acc.2.2)
          | .description => (acc.1, acc.2.1, some e.value))
        (none, none, none))
  else .error (.invalidLength off)

/-- `build_page`: read the content fragment then the metadata fragment
through the data-block reader (the old reader interface hands the whole
decoded payload to the visitor, modelled as `withBlock` at offset 0; a
`panic` outcome is impossible at offset 0 and is mapped to an I/O error),
then assemble the `Page`, rejecting id 0. -/
def buildPage (bytes : List Nat) (r : ReaderState) (e : IndexEntry) :
    Except PageErr Page × ReaderState :=
  match withBlock bytes r e.contentBlockId 0 (fun bb => contentVisitor bb e.contentBlockOffset) with
  | (.err ioe, r1) => (.error (.io ioe), r1)
  | (.panic, r1) => (.error (.io .unexpectedEof), r1)
  | (.ok (.error pe), r1) => (.error pe, r1)
  | (.ok (.ok content), r1) =>
    match withBlock bytes r1 e.metadataBlockId 0
        (fun bb => metaVisitor bb e.metadataBlockOffset) with
    | (.err ioe, r2) => (.error (.io ioe), r2)
    | (.panic, r2) => (.error (.io .unexpectedEof), r2)
    | (.ok (.error pe), r2) => (.error pe, r2)
    | (.ok (.ok (title, keywords, description)), r2) =>
      if e.id = 0 then (.error (.invalidId 0), r2)
      else
        (.ok ⟨e.id, if e.parentId = 0 then none else some e.parentId,
          title.getD [], keywords, description, some content⟩, r2)

/-- `Book::pages`: build every page in index (ascending id) order,
threading the reader state. -/
def pagesList (bytes : List Nat) (r : ReaderState) :
    List (Nat × IndexEntry) → List (Except PageErr Page) × ReaderState
  | [] => ([], r)
  | (_, e) :: rest =>
    let (res, r1) := buildPage bytes r e
    let (others, r2) := pagesList bytes r1 rest
    (res :: others, r2)

/-- `Book::metadata`: seek the input to the absolute `metadata_pos` and
decode the book-level metadata list; the declared input length is the
whole stream length. -/
def bookMetadata (b : BookModel) : Except MetaError (List MetaEntry) :=
  metaRun (b.streamBytes.length + 1)
    ⟨b.streamBytes.drop b.metadataPos, b.reader.streamLen, true⟩

/-! ### Claims C2 and C8: empty book and nonzero container start -/

/-- C2: dumping a book with zero pages corrupts the bytes already
written. The forced metadata fragment (`size_hint = u64::MAX`) runs
`close_current` in the `Wait` state, whose sentinel `block_id = !0` makes
the length patch land at stream position 0 (wrapping `!0 + 1`),
overwriting the first four magic bytes with the big-endian length 21; the
subsequent load fails with `InvalidMagic` instead of yielding an empty
book. (Under debug assertions the `block_id + 1 + 4` overflow panics
instead.) -/
theorem C2_empty_book_dump_corrupts_magic :
    (dumpV1 ⟨[], 0⟩ ⟨[], []⟩).map (fun o => (o.data.take 8, loadV1 o.data 0))
      = .ok ([0, 0, 0, 21, 82, 80, 75, 71], .error .invalidMagic) ∧
    ([0, 0, 0, 21, 82, 80, 75, 71] : List Nat) ≠ MAGIC :=
  ⟨by decide, by decide⟩

set_option maxRecDepth 4000 in
/-- C8: the loader treats the header's `metadata_pos` and `pages_pos` as
absolute stream positions (`SeekFrom::Start`), not container-relative
offsets. A one-page book dumped at stream position 4 (after 4 junk
bytes) and loaded from position 4 misreads both sections: the metadata
iterator's first item is `InvalidByteTag 255` (it lands inside the
header) and the pages iterator's first item is an invalid-block-type
I/O error (the misread index points at block 0, a junk byte). The same
book dumped and loaded at position 0 round-trips exactly. -/
theorem C8_load_uses_absolute_offsets :
    ((dumpV1 ⟨[9, 9, 9, 9], 4⟩ ⟨[], [⟨1, none, [84], none, none, some [99]⟩]⟩).map (fun o =>
        (loadV1 o.data 4).map (fun b =>
          (bookMetadata b, (pagesList o.data b.reader b.pageIndex).1))))
      = .ok (.ok (.error (.invalidByteTag 255), [.error (.io .invalidBlockType)])) ∧
    ((dumpV1 ⟨[], 0⟩ ⟨[], [⟨1, none, [84], none, none, some [99]⟩]⟩).map (fun o =>
        (loadV1 o.data 0).map (fun b =>
          (bookMetadata b, (pagesList o.data b.reader b.pageIndex).1))))
      = .ok (.ok (.ok [], [.ok ⟨1, none, [84], none, none, some [99]⟩])) :=
  ⟨by decide, by decide⟩

/-! ### Table-of-contents builder (`toc.rs`) -/

/-- `toc::MAX_SUB_LEVEL`. -/
def MAXSUBLEVEL : Nat := 32

/-- `toc::TocError`. -/
inductive TocErr
  | invalidParent (id : Nat)
  | io (e : IoErr)
  | titleError
  | levelLoop
  deriving DecidableEq, Repr

/-- `toc::TocEntry`: id, title, section number (`SectionNumbers` is
semantically the plain list of pushed `u16` values) and the id-ordered
children map. -/
inductive TocEntry
  | mk (id : Nat) (title : List Nat) (sectionNumber : List Nat)
      (children : List (Nat × TocEntry))

def TocEntry.sectionNumber : TocEntry → List Nat
  | .mk _ _ s _ => s

def TocEntry.children : TocEntry → List (Nat × TocEntry)
  | .mk _ _ _ c => c

/-- `len as u16 + 1`: the truncating cast followed by the wrapping `u16`
increment. -/
def u16succ (n : Nat) : Nat := (n % 2 ^ 16 + 1) % 2 ^ 16

/-- Association-list lookup (`HashMap::get` / `BTreeMap::get_mut`). -/
def assocFind {α : Type} (m : List (Nat × α)) (k : Nat) : Option α :=
  (m.find? (fun p => p.1 = k)).map (·.2)

/-- `BTreeMap::insert` on an id-sorted association list (replacing an
existing key). -/
def btInsertToc (m : List (Nat × TocEntry)) (k : Nat) (v : TocEntry) :
    List (Nat × TocEntry) :=
  match m with
  | [] => [(k, v)]
  | (k', v') :: rest =>
    if k < k' then (k, v) :: (k', v') :: rest
    else if k = k' then (k, v) :: rest
    else (k', v') :: btInsertToc rest k v

/-- The ancestor walk of `BookToc::new`: fill up to `slots` entries of
the fixed 32-slot buffer, following the recorded parent map; a missing
ancestor is `InvalidParent` (reported with the page's direct parent id by
the caller), a recorded root (`Some(None)`) breaks the loop. Returns the
filled buffer in push order (child-most first). -/
def walkGo (parents : List (Nat × Option Nat)) : Nat → Nat → List Nat →
    Except Unit (List Nat)
  | 0, _, acc => .ok acc
  | slots + 1, lastId, acc =>
    let acc' := acc ++ [lastId]
    match assocFind parents lastId with
    | none => .error ()
    | some none => .ok acc'
    | some (some next) => walkGo parents slots next acc'

/-- The `try_fold` descent: follow the reversed ancestor path from the
top-level map down to the target parent entry. -/
def tocFind : List (Nat × TocEntry) → List Nat → Option TocEntry
  | _, [] => none
  | tree, [p] => assocFind tree p
  | tree, p :: rest => match assocFind tree p with
    | none => none
    | some e => tocFind e.children rest

/-- Insert a finished child entry into the children of the node at the
given path (the mutable half of the `try_fold` descent). -/
def tocSetChild : List (Nat × TocEntry) → List Nat → Nat → TocEntry →
    Option (List (Nat × TocEntry))
  | _, [], _, _ => none
  | tree, [p], cid, child =>
    match assocFind tree p with
    | none => none
    | some (.mk i t s cs) => some (btInsertToc tree p (.mk i t s (btInsertToc cs cid child)))
  | tree, p :: rest, cid, child =>
    match assocFind tree p with
    | none => none
    | some (.mk i t s cs) =>
      match tocSetChild cs rest cid child with
      | none => none
      | some cs' => some (btInsertToc tree p (.mk i t s cs'))

/-- One iteration of `BookToc::new`'s page loop, over the page's id, raw
parent id (0 meaning none) and title: record the parent, then either
append a top-level entry (section `[len + 1]`) or walk the parent chain:
a full 32-slot buffer is `LevelLoop` even when the walk broke at a root;
otherwise descend the reversed path, compute the child's section number
from the parent's, and insert. -/
def tocStep (parents : List (Nat × Option Nat)) (tree : List (Nat × TocEntry))
    (id pidRaw : Nat) (title : List Nat) :
    Except TocErr (List (Nat × Option Nat) × List (Nat × TocEntry)) :=
  let parentOpt : Option Nat := if pidRaw = 0 then none else some pidRaw
  let parents' := parents ++ [(id, parentOpt)]
  match parentOpt with
  | none =>
    .ok (parents', btInsertToc tree id (.mk id title [u16succ tree.length] []))
  | some pid =>
    match walkGo parents' MAXSUBLEVEL pid [] with
    | .error () => .error (.invalidParent pid)
    | .ok path =>
      if path.length = MAXSUBLEVEL then .error .levelLoop
      else
        match tocFind tree path.reverse with
        | none => .error (.invalidParent pid)
        | some parentEntry =>
          let child : TocEntry :=
            .mk id title
              (parentEntry.sectionNumber ++ [u16succ parentEntry.children.length]) []
          match tocSetChild tree path.reverse id child with
          | none => .error (.invalidParent pid)
          | some tree' => .ok (parents', tree')

/-- `BookToc::new` over the page index in id order. Each element carries
the page's id, raw parent id and title; the title fetch
(`IndexEntry::get_page_title`, not among the provided sources — per the
spec it scans the page's metadata KV-list for the first `Title`) is
represented by the given title value. -/
def tocNew (entries : List (Nat × Nat × List Nat)) :
    Except TocErr (List (Nat × TocEntry)) :=
  go [] [] entries
where
  go (parents : List (Nat × Option Nat)) (tree : List (Nat × TocEntry)) :
      List (Nat × Nat × List Nat) → Except TocErr (List (Nat × TocEntry))
    | [] => .ok tree
    | (id, pidRaw, title) :: rest =>
      match tocStep parents tree id pidRaw title with
      | .error e => .error e
      | .ok (parents', tree') => go parents' tree' rest

theorem assocFind_btInsertToc_self (m : List (Nat × TocEntry)) (k : Nat) (v : TocEntry) :
    assocFind (btInsertToc m k v) k = some v := by
  induction m with
  | nil => simp [btInsertToc, assocFind, List.find?]
  | cons hd rest ih =>
    obtain ⟨k1, v1⟩ := hd
    rw [btInsertToc]
    by_cases h1 : k < k1
    · simp [if_pos h1, assocFind, List.find?]
    · by_cases h2 : k = k1
      · simp [if_neg h1, if_pos h2, assocFind, List.find?]
      · simp only [if_neg h1, if_neg h2]
        show ((((k1, v1) :: btInsertToc rest k v).find? (fun p => decide (p.1 = k))).map (·.2))
          = some v
        rw [List.find?_cons]
        have hd : decide ((k1, v1).1 = k) = false := by
          simp only [decide_eq_false_iff_not]
          exact fun h => h2 h.symm
        rw [hd]
        exact ih

/-- Inserting a child at a path found in the tree succeeds, and the child
is found afterwards under that path. -/
theorem tocSetChild_of_find (path : List Nat) :
    ∀ (tree : List (Nat × TocEntry)) (parentEntry : TocEntry) (cid : Nat) (child : TocEntry),
      tocFind tree path = some parentEntry →
      ∃ tree', tocSetChild tree path cid child = some tree' ∧
        tocFind tree' (path ++ [cid]) = some child := by
  induction path with
  | nil =>
    intro tree parentEntry cid child hfind
    simp [tocFind] at hfind
  | cons p rest ih =>
    intro tree parentEntry cid child hfind
    cases rest with
    | nil =>
      simp only [tocFind] at hfind
      cases hpe : assocFind tree p with
      | none => rw [hpe] at hfind; exact absurd hfind (by simp)
      | some e =>
        rw [hpe] at hfind
        cases e with
        | mk i t s cs =>
          refine ⟨btInsertToc tree p (.mk i t s (btInsertToc cs cid child)), ?_, ?_⟩
          · simp [tocSetChild, hpe]
          · show tocFind _ [p, cid] = some child
            simp [tocFind, assocFind_btInsertToc_self, TocEntry.children]
    | cons q qs =>
      simp only [tocFind] at hfind
      cases hpe : assocFind tree p with
      | none => rw [hpe] at hfind; exact absurd hfind (by simp)
      | some e =>
        rw [hpe] at hfind
        cases e with
        | mk i t s cs =>
          rcases ih cs parentEntry cid child hfind with ⟨cs', hset, hfind'⟩
          refine ⟨btInsertToc tree p (.mk i t s cs'), ?_, ?_⟩
          · simp only [tocSetChild, hpe, hset]
          · show tocFind _ (p :: (q :: qs ++ [cid])) = some child
            simp only [tocFind, assocFind_btInsertToc_self, TocEntry.children]
            cases qs with
            | nil => exact hfind'
            | cons _ _ => exact hfind'

/-! ### Claim C9: TOC parent-chain depth -/

/-- C9 counterexample: a 33-page chain (ids 1..33, page `i` has parent
`i - 1`). Page 33 has exactly 32 recorded ancestors and its chain
reaches the root within the 32-slot buffer (the walk succeeds with a
full path of length 32), yet `BookToc::new` reports `LevelLoop`: the
buffer-full check fires even when the root was seen on the last slot. -/
theorem C9_32_ancestors_counterexample :
    tocNew ((List.range 33).map (fun i => (i + 1, i, ([] : List Nat)))) = .error .levelLoop ∧
    (walkGo ((List.range 33).map (fun i => (i + 1, if i = 0 then none else some i)))
        MAXSUBLEVEL 32 []).map List.length = .ok 32 :=
  ⟨by rfl, by rfl⟩

/-- C9 (amended): when a page's recorded parent chain reaches a root in
at most 31 steps and the reversed ancestor path leads to a parent entry
in the tree, the TOC step inserts the page under that parent with
section number equal to the parent's extended by the 1-based count of
the parent's children, and does not report `LevelLoop`; `LevelLoop` is
reported exactly when the ancestor walk fills all 32 slots (even when
the 32nd slot is a root). -/
theorem C9_toc_step (parents : List (Nat × Option Nat)) (tree : List (Nat × TocEntry))
    (id pid : Nat) (title : List Nat) (hpid : pid ≠ 0) :
    (∀ (path : List Nat) (parentEntry : TocEntry),
      walkGo (parents ++ [(id, some pid)]) MAXSUBLEVEL pid [] = .ok path →
      path.length ≤ 31 →
      tocFind tree path.reverse = some parentEntry →
      ∃ tree', tocStep parents tree id pid title = .ok (parents ++ [(id, some pid)], tree') ∧
        tocFind tree' (path.reverse ++ [id])
          = some (.mk id title
              (parentEntry.sectionNumber ++ [u16succ parentEntry.children.length]) [])) ∧
    (tocStep parents tree id pid title = .error .levelLoop ↔
      ∃ p, walkGo (parents ++ [(id, some pid)]) MAXSUBLEVEL pid [] = .ok p ∧
        p.length = MAXSUBLEVEL) := by
  have hstep : tocStep parents tree id pid title
      = match walkGo (parents ++ [(id, some pid)]) MAXSUBLEVEL pid [] with
        | .error () => .error (.invalidParent pid)
        | .ok path =>
          if path.length = MAXSUBLEVEL then .error .levelLoop
          else
            match tocFind tree path.reverse with
            | none => .error (.invalidParent pid)
            | some parentEntry =>
              match tocSetChild tree path.reverse id
                  (.mk id title
                    (parentEntry.sectionNumber ++ [u16succ parentEntry.children.length]) []) with
              | none => .error (.invalidParent pid)
              | some tree' => .ok (parents ++ [(id, some pid)], tree') := by
    simp [tocStep, hpid]
  constructor
  · intro path parentEntry hwalk hlen hfind
    rcases tocSetChild_of_find path.reverse tree parentEntry id
        (.mk id title
          (parentEntry.sectionNumber ++ [u16succ parentEntry.children.length]) []) hfind
      with ⟨tree', hset, hfound⟩
    refine ⟨tree', ?_, hfound⟩
    rw [hstep, hwalk]
    have : ¬ (path.length = MAXSUBLEVEL) := by
      simp only [MAXSUBLEVEL]
      omega
    simp only [if_neg this, hfind, hset]
  · rw [hstep]
    cases hwalk : walkGo (parents ++ [(id, some pid)]) MAXSUBLEVEL pid [] with
    | error u =>
      cases u
      constructor
      · intro h
        exact absurd h (by simp)
      · rintro ⟨p, hp, -⟩
        exact absurd hp (by simp)
    | ok path =>
      by_cases hl : path.length = MAXSUBLEVEL
      · simp only [if_pos hl]
        constructor
        · intro _
          exact ⟨path, rfl, hl⟩
        · intro _
          trivial
      · simp only [if_neg hl]
        constructor
        · cases hfind : tocFind tree path.reverse with
          | none =>
            simp only [hfind]
            intro h
            exact absurd h (by simp)
          | some pe =>
            simp only [hfind]
            cases hset : tocSetChild tree path.reverse id
                (.mk id title (pe.sectionNumber ++ [u16succ pe.children.length]) []) with
            | none =>
              simp only [hset]
              intro h
              exact absurd h (by simp)
            | some t' =>
              simp only [hset]
              intro h
              exact absurd h (by simp)
        · rintro ⟨p, hp, hlp⟩
          cases hp
          exact absurd hlp hl

/-- Witness for `C9_toc_step`: a one-entry tree (page 1 at section `[1]`)
receiving page 2 with parent 1. -/
theorem C9_toc_step_witness :
    (2 : Nat) ≠ 0 ∧
    ((∀ (path : List Nat) (parentEntry : TocEntry),
      walkGo ([(1, none)] ++ [(2, some 1)]) MAXSUBLEVEL 1 [] = .ok path →
      path.length ≤ 31 →
      tocFind [(1, .mk 1 [65] [1] [])] path.reverse = some parentEntry →
      ∃ tree', tocStep [(1, none)] [(1, .mk 1 [65] [1] [])] 2 1 [66]
          = .ok ([(1, none)] ++ [(2, some 1)], tree') ∧
        tocFind tree' (path.reverse ++ [2])
          = some (.mk 2 [66]
              (parentEntry.sectionNumber ++ [u16succ parentEntry.children.length]) [])) ∧
    (tocStep [(1, none)] [(1, .mk 1 [65] [1] [])] 2 1 [66] = .error .levelLoop ↔
      ∃ p, walkGo ([(1, none)] ++ [(2, some 1)]) MAXSUBLEVEL 1 [] = .ok p ∧
        p.length = MAXSUBLEVEL)) :=
  ⟨by decide, C9_toc_step [(1, none)] [(1, .mk 1 [65] [1] [])] 2 1 [66] (by decide)⟩

/-! ### Layout of the pages section: proof devices describing the bytes
`dumpPages` produces -/

/-- Pure mirror of the page loop's block grouping: given the stream bytes
before the active block header (`P`, so the active block id is
`P.length`) and the active block's decoded bytes, fold the pages,
closing the block exactly when the source's overflow condition fires;
returns the final prefix, the final active payload, and each page's
fragment location. -/
def layoutLoop : List Page → List Nat → List Nat →
    List Nat × List Nat × List (Nat × Nat)
  | [], P, cur => (P, cur, [])
  | p :: rest, P, cur =>
    if MAXDATABLOCKSIZE < cur.length + (pageContent p).length ∧ 0 < cur.length then
      let r := layoutLoop rest (P ++ renderBlock cur) (pageFrag p)
      (r.1, r.2.1, ((P ++ renderBlock cur).length, 0) :: r.2.2)
    else
      let r := layoutLoop rest P (cur ++ pageFrag p)
      (r.1, r.2.1, (P.length, cur.length) :: r.2.2)

/-- The index entries `dump_pages` accumulates: page ids and raw parent
ids, the `!0` metadata-block placeholder, the running staging-buffer
offset, and the content fragment locations. -/
def zipEntries : List Page → List (Nat × Nat) → Nat → List IndexEntry
  | p :: ps, loc :: locs, bufLen =>
    ⟨p.id, p.parentId.getD 0, U32MAX, bufLen, loc.1, loc.2⟩
      :: zipEntries ps locs (bufLen + (pageKv p).length)
  | _, _, _ => []

theorem renderBlock_length (b : List Nat) : (renderBlock b).length = 5 + b.length := by
  simp [renderBlock, be32]
  omega

theorem writeBytes_append (s : OutStream) (bs : List Nat) (h : s.pos = s.data.length) :
    writeBytes s bs = ⟨s.data ++ bs, s.pos + bs.length⟩ := by
  simp [writeBytes, h, List.take_of_length_le (le_refl s.data.length),
    List.drop_eq_nil_of_le (by omega : s.data.length ≤ s.data.length + bs.length)]

/-- Patching `rep` over the bytes at position `A.length` when the stream
is `A ++ B ++ C` and `rep` is as long as `B`. -/
theorem writeBytes_patch (A B C rep : List Nat) (pos0 : Nat) (h : rep.length = B.length) :
    writeBytes (seekTo ⟨A ++ (B ++ C), pos0⟩ A.length) rep
      = ⟨A ++ (rep ++ C), A.length + rep.length⟩ := by
  simp only [writeBytes, seekTo]
  congr 1
  rw [List.take_left, List.drop_append, h, List.drop_left, List.append_assoc]

/-- `close_current` on an active block whose bytes close the stream. -/
theorem closeCurrent_active (P cur : List Nat)
    (hcur : cur ≠ []) (hcur32 : cur.length < 2 ^ 32) (hlen : P.length + 5 + cur.length < 2 ^ 64) :
    closeCurrent ⟨⟨P ++ ([1, 0, 0, 0, 0] ++ cur), P.length + (5 + cur.length)⟩,
        .active P.length cur.length⟩
      = .ok ⟨⟨P ++ renderBlock cur, P.length + (5 + cur.length)⟩, .wait⟩ := by
  have e1 : (P.length + 1 + 4) % 2 ^ 64 = P.length + 5 := Nat.mod_eq_of_lt (by omega)
  have e2 : (P.length + (5 + cur.length) + 2 ^ 64 - (P.length + 5)) % 2 ^ 64
      = cur.length := by
    have h3 : P.length + (5 + cur.length) + 2 ^ 64 - (P.length + 5)
        = 2 ^ 64 + cur.length := by omega
    rw [h3, Nat.add_mod_left, Nat.mod_eq_of_lt (by omega)]
  have hc0 : cur.length > 0 := List.length_pos.mpr hcur
  have e3 : (P.length + 1) % 2 ^ 64 = P.length + 1 := Nat.mod_eq_of_lt (by omega)
  have hdata : P ++ ([1, 0, 0, 0, 0] ++ cur) = (P ++ [1]) ++ ([0, 0, 0, 0] ++ cur) := by
    simp
  have hrep : (be32 cur.length).length = ([0, 0, 0, 0] : List Nat).length := by
    simp [be32]
  have hlenP1 : P.length + 1 = (P ++ [1]).length := by simp
  simp only [closeCurrent, e1, e2, e3]
  rw [if_pos hc0, if_pos hcur32, hdata, hlenP1,
    writeBytes_patch (P ++ [1]) [0, 0, 0, 0] cur (be32 cur.length) _ hrep]
  simp [seekTo, renderBlock, be32]

theorem pageFrag_ne_nil (p : Page) : pageFrag p ≠ [] := by
  simp only [pageFrag]
  intro h
  exact lebEncode_nonempty _ (List.append_eq_nil.mp h).1

theorem pageContent_le_pageFrag (p : Page) :
    (pageContent p).length ≤ (pageFrag p).length := by
  simp [pageFrag]

/-- The stream length `P.length + 5 + cur.length` never shrinks along the
layout fold. -/
theorem layoutLoop_mono (pages : List Page) :
    ∀ (P cur : List Nat),
      P.length + (5 + cur.length)
        ≤ (layoutLoop pages P cur).1.length + (5 + (layoutLoop pages P cur).2.1.length) := by
  induction pages with
  | nil => intro P cur; simp [layoutLoop]
  | cons p rest ih =>
    intro P cur
    rw [layoutLoop]
    split
    · have := ih (P ++ renderBlock cur) (pageFrag p)
      simp only [List.length_append, renderBlock_length] at this ⊢
      omega
    · have := ih P (cur ++ pageFrag p)
      simp only [List.length_append] at this ⊢
      omega

theorem fragmentOpen_active_reuse (P cur : List Nat) (hint : Nat)
    (hcond : ¬ (hint = U64MAX ∨
      ((cur.length + hint) % 2 ^ 64 > MAXDATABLOCKSIZE ∧ 0 < cur.length))) :
    fragmentOpen ⟨⟨P ++ ([1, 0, 0, 0, 0] ++ cur), P.length + (5 + cur.length)⟩,
        .active P.length cur.length⟩ hint
      = .ok (⟨⟨P ++ ([1, 0, 0, 0, 0] ++ cur), P.length + (5 + cur.length)⟩,
          .active P.length cur.length⟩, P.length, cur.length) := by
  simp only [fragmentOpen, if_neg hcond]

theorem fragmentOpen_active_newblock (P cur : List Nat) (hint : Nat)
    (hcond : hint = U64MAX ∨
      ((cur.length + hint) % 2 ^ 64 > MAXDATABLOCKSIZE ∧ 0 < cur.length))
    (hcur : cur ≠ []) (hcur32 : cur.length < 2 ^ 32)
    (hlen : P.length + 5 + cur.length < 2 ^ 64) :
    fragmentOpen ⟨⟨P ++ ([1, 0, 0, 0, 0] ++ cur), P.length + (5 + cur.length)⟩,
        .active P.length cur.length⟩ hint
      = .ok (⟨⟨(P ++ renderBlock cur) ++ [1, 0, 0, 0, 0], (P ++ renderBlock cur).length + 5⟩,
          .active (P ++ renderBlock cur).length 0⟩, (P ++ renderBlock cur).length, 0) := by
  have hP' : P.length + (5 + cur.length) = (P ++ renderBlock cur).length := by
    simp only [List.length_append, renderBlock_length]
  have hw : writeBytes ⟨P ++ renderBlock cur, P.length + (5 + cur.length)⟩ [1, 0, 0, 0, 0]
      = ⟨(P ++ renderBlock cur) ++ [1, 0, 0, 0, 0], (P ++ renderBlock cur).length + 5⟩ := by
    rw [writeBytes_append _ _ hP']
    simp [hP']
  simp only [fragmentOpen, if_pos hcond, closeCurrent_active P cur hcur hcur32 hlen, hw]
  rw [hP']

theorem fragmentWrite_append (D bs : List Nat) (b o : Nat) :
    fragmentWrite ⟨⟨D, D.length⟩, .active b o⟩ bs
      = ⟨⟨D ++ bs, D.length + bs.length⟩, .active b (o + bs.length)⟩ := by
  simp [fragmentWrite, writeBytes_append]

/-- The page loop of `dump_pages` realizes the pure layout fold: starting
with an active block holding `cur` at block id `P.length`, it produces
the stream `layoutLoop` describes (final prefix plus the still-open
block), appends each page's KV-list to the staging buffer, and records
the layout's fragment locations in the accumulated index entries. -/
theorem dumpPagesLoop_eq_layout (pages : List Page) :
    ∀ (P cur buf : List Nat) (idx : List IndexEntry),
      cur ≠ [] →
      (layoutLoop pages P cur).1.length + (5 + (layoutLoop pages P cur).2.1.length) < 2 ^ 32 →
      buf.length + ((pages.map pageKv).flatten).length < 2 ^ 32 →
      dumpPagesLoop ⟨⟨P ++ ([1, 0, 0, 0, 0] ++ cur), P.length + (5 + cur.length)⟩,
          .active P.length cur.length⟩ pages buf idx
        = .ok (⟨⟨(layoutLoop pages P cur).1 ++ ([1, 0, 0, 0, 0] ++ (layoutLoop pages P cur).2.1),
                 (layoutLoop pages P cur).1.length + (5 + (layoutLoop pages P cur).2.1.length)⟩,
                .active (layoutLoop pages P cur).1.length (layoutLoop pages P cur).2.1.length⟩,
               buf ++ (pages.map pageKv).flatten,
               idx ++ zipEntries pages (layoutLoop pages P cur).2.2 buf.length) := by
  induction pages with
  | nil =>
    intro P cur buf idx hcur hstream hbuf
    simp [dumpPagesLoop, layoutLoop, zipEntries]
  | cons p rest ih =>
    intro P cur buf idx hcur hstream hbuf
    have hcur0 : 0 < cur.length := List.length_pos.mpr hcur
    by_cases hover : MAXDATABLOCKSIZE < cur.length + (pageContent p).length
    · -- the block overflows: close it and open a fresh one
      have hcl : (MAXDATABLOCKSIZE < cur.length + (pageContent p).length ∧ 0 < cur.length)
          = True := by simp [hover, hcur0]
      rw [layoutLoop] at hstream ⊢
      rw [if_pos ⟨hover, hcur0⟩] at hstream ⊢
      have hmono := layoutLoop_mono rest (P ++ renderBlock cur) (pageFrag p)
      simp only [List.length_append, renderBlock_length] at hmono hstream
      have hP32 : (P ++ renderBlock cur).length < 2 ^ 32 := by
        simp only [List.length_append, renderBlock_length]
        omega
      have hfrag32 : (pageFrag p).length < 2 ^ 32 := by omega
      have hcont32 : (pageContent p).length < 2 ^ 32 := by
        have := pageContent_le_pageFrag p
        omega
      have hcur32 : cur.length < 2 ^ 32 := by omega
      have hnw : (cur.length + (pageContent p).length) % 2 ^ 64
          = cur.length + (pageContent p).length := Nat.mod_eq_of_lt (by omega)
      have hcond : (pageContent p).length = U64MAX ∨
          ((cur.length + (pageContent p).length) % 2 ^ 64 > MAXDATABLOCKSIZE
            ∧ 0 < cur.length) := by
        right
        rw [hnw]
        exact ⟨hover, hcur0⟩
      have hfo := fragmentOpen_active_newblock P cur (pageContent p).length hcond hcur hcur32
        (by omega)
      have hhdr5 : (P ++ renderBlock cur).length + 5
          = ((P ++ renderBlock cur) ++ [1, 0, 0, 0, 0]).length := by
        simp only [List.length_append, List.length_cons, List.length_nil]
      have hfw := fragmentWrite_append ((P ++ renderBlock cur) ++ [1, 0, 0, 0, 0]) (pageFrag p)
        (P ++ renderBlock cur).length 0
      have hguard : (P ++ renderBlock cur).length < 2 ^ 32 ∧ (0 : Nat) < 2 ^ 32
          ∧ buf.length < 2 ^ 32 := by
        refine ⟨hP32, by norm_num, ?_⟩
        simp only [List.map_cons, List.flatten_cons, List.length_append] at hbuf
        omega
      rw [dumpPagesLoop, hfo]
      simp only [hhdr5, hfw, if_pos hguard]
      have hw2 : (⟨⟨((P ++ renderBlock cur) ++ [1, 0, 0, 0, 0]) ++ pageFrag p,
            ((P ++ renderBlock cur) ++ [1, 0, 0, 0, 0]).length + (pageFrag p).length⟩,
          .active (P ++ renderBlock cur).length (0 + (pageFrag p).length)⟩ : WriterState)
          = ⟨⟨(P ++ renderBlock cur) ++ ([1, 0, 0, 0, 0] ++ pageFrag p),
              (P ++ renderBlock cur).length + (5 + (pageFrag p).length)⟩,
            .active (P ++ renderBlock cur).length (pageFrag p).length⟩ := by
        simp only [List.append_assoc, List.length_append, List.length_cons, List.length_nil]
        congr 2
        all_goals omega
      rw [hw2, ih (P ++ renderBlock cur) (pageFrag p) (buf ++ pageKv p)
        (idx ++ [(⟨p.id, p.parentId.getD 0, U32MAX, buf.length,
          (P ++ renderBlock cur).length, 0⟩ : IndexEntry)])
        (pageFrag_ne_nil p) hstream
        (by simp only [List.map_cons, List.flatten_cons, List.length_append] at hbuf ⊢; omega)]
      simp only [zipEntries, List.append_assoc, List.singleton_append, List.length_append,
        List.map_cons, List.flatten_cons]
    · -- the fragment fits in the active block
      rw [layoutLoop] at hstream ⊢
      rw [if_neg (fun hc => hover hc.1)] at hstream ⊢
      have hmono := layoutLoop_mono rest P (cur ++ pageFrag p)
      simp only [List.length_append] at hmono hstream
      have hP32 : P.length < 2 ^ 32 := by omega
      have hfrag32 : (pageFrag p).length < 2 ^ 32 := by omega
      have hcont32 : (pageContent p).length < 2 ^ 32 := by
        have := pageContent_le_pageFrag p
        omega
      have hcur32 : cur.length < 2 ^ 32 := by omega
      have hnw : (cur.length + (pageContent p).length) % 2 ^ 64
          = cur.length + (pageContent p).length := Nat.mod_eq_of_lt (by omega)
      have hcond : ¬ ((pageContent p).length = U64MAX ∨
          ((cur.length + (pageContent p).length) % 2 ^ 64 > MAXDATABLOCKSIZE
            ∧ 0 < cur.length)) := by
        rintro (h | ⟨h1, -⟩)
        · have : U64MAX = 2 ^ 64 - 1 := rfl
          omega
        · rw [hnw] at h1
          exact hover h1
      have hfo := fragmentOpen_active_reuse P cur (pageContent p).length hcond
      have hpos : P.length + (5 + cur.length)
          = (P ++ ([1, 0, 0, 0, 0] ++ cur)).length := by
        simp only [List.length_append, List.length_cons, List.length_nil]
      have hfw := fragmentWrite_append (P ++ ([1, 0, 0, 0, 0] ++ cur)) (pageFrag p)
        P.length cur.length
      have hguard : P.length < 2 ^ 32 ∧ cur.length < 2 ^ 32 ∧ buf.length < 2 ^ 32 := by
        refine ⟨hP32, hcur32, ?_⟩
        simp only [List.map_cons, List.flatten_cons, List.length_append] at hbuf
        omega
      rw [dumpPagesLoop, hfo]
      simp only [hpos, hfw, if_pos hguard]
      have hw2 : (⟨⟨(P ++ ([1, 0, 0, 0, 0] ++ cur)) ++ pageFrag p,
            (P ++ ([1, 0, 0, 0, 0] ++ cur)).length + (pageFrag p).length⟩,
          .active P.length (cur.length + (pageFrag p).length)⟩ : WriterState)
          = ⟨⟨P ++ ([1, 0, 0, 0, 0] ++ (cur ++ pageFrag p)),
              P.length + (5 + (cur ++ pageFrag p).length)⟩,
            .active P.length (cur ++ pageFrag p).length⟩ := by
        simp only [List.append_assoc, List.length_append, List.length_cons, List.length_nil]
        congr 2
        all_goals omega
      rw [hw2, ih P (cur ++ pageFrag p) (buf ++ pageKv p)
        (idx ++ [(⟨p.id, p.parentId.getD 0, U32MAX, buf.length, P.length,
          cur.length⟩ : IndexEntry)])
        (by simp [hcur]) hstream
        (by simp only [List.map_cons, List.flatten_cons, List.length_append] at hbuf ⊢; omega)]
      simp only [zipEntries, List.append_assoc, List.singleton_append, List.length_append,
        List.map_cons, List.flatten_cons]

/-- `zipEntries` with the metadata block id already patched in. -/
def zipEntriesM (m : Nat) : List Page → List (Nat × Nat) → Nat → List IndexEntry
  | p :: ps, loc :: locs, bufLen =>
    ⟨p.id, p.parentId.getD 0, m, bufLen, loc.1, loc.2⟩
      :: zipEntriesM m ps locs (bufLen + (pageKv p).length)
  | _, _, _ => []

theorem zipEntries_patch (m : Nat) :
    ∀ (ps : List Page) (locs : List (Nat × Nat)) (bufLen : Nat),
      (zipEntries ps locs bufLen).map (fun e => { e with metadataBlockId := m })
        = zipEntriesM m ps locs bufLen := by
  intro ps
  induction ps with
  | nil => intro locs bufLen; cases locs <;> rfl
  | cons p rest ih =>
    intro locs bufLen
    cases locs with
    | nil => rfl
    | cons loc locs' =>
      simp only [zipEntries, zipEntriesM, List.map_cons, ih]

theorem kvSerialize_ne_nil (es : List PageMeta) : kvSerialize es ≠ [] := by
  simp [kvSerialize]

theorem pageKv_ne_nil (p : Page) : pageKv p ≠ [] := kvSerialize_ne_nil _

/-- The layout fold's final open payload is nonempty when the starting
payload is: the payload either grows or restarts at a page fragment. -/
theorem layoutLoop_cur_ne (pages : List Page) :
    ∀ (P cur : List Nat), cur ≠ [] → (layoutLoop pages P cur).2.1 ≠ [] := by
  induction pages with
  | nil => intro P cur hcur; simpa [layoutLoop] using hcur
  | cons p rest ih =>
    intro P cur hcur
    rw [layoutLoop]
    split
    · exact ih (P ++ renderBlock cur) (pageFrag p) (pageFrag_ne_nil p)
    · exact ih P (cur ++ pageFrag p) (by simp [pageFrag_ne_nil p])

/-- Mapping "patch the metadata block id, then serialize" over the
accumulated entries equals serializing the patched `zipEntriesM`. -/
theorem map_patch_zip (m : Nat) (ps : List Page) (locs : List (Nat × Nat)) (bufLen : Nat) :
    (zipEntries ps locs bufLen).map
        (fun e => ({ e with metadataBlockId := m } : IndexEntry).writeBytes)
      = (zipEntriesM m ps locs bufLen).map IndexEntry.writeBytes := by
  rw [← zipEntries_patch, List.map_map]
  rfl

theorem fragmentOpen_wait (S0 : List Nat) (hint : Nat) (hne : hint ≠ U64MAX) :
    fragmentOpen ⟨⟨S0, S0.length⟩, .wait⟩ hint
      = .ok (⟨⟨S0 ++ [1, 0, 0, 0, 0], S0.length + 5⟩, .active S0.length 0⟩, S0.length, 0) := by
  have hcond : ¬ (hint = U64MAX ∨
      ((0 + hint) % 2 ^ 64 > MAXDATABLOCKSIZE ∧ 0 < 0)) := by
    rintro (h | ⟨-, h⟩)
    · exact hne h
    · omega
  simp only [fragmentOpen, if_neg hcond, writeBytes_append ⟨S0, S0.length⟩ _ rfl]
  rfl

/-- `dump_pages` on a nonempty page list over a stream positioned at its
end: the final stream is the prior bytes, the content blocks from the
layout fold, the still-open block closed, the metadata block, and the
patched 24-byte index entries; the returned position is where the index
starts. -/
theorem dumpPages_eq_layout (S0 : List Nat) (p : Page) (rest : List Page)
    (hstream : (layoutLoop rest S0 (pageFrag p)).1.length
      + (5 + (layoutLoop rest S0 (pageFrag p)).2.1.length) < 2 ^ 32)
    (hbuf : (((p :: rest).map pageKv).flatten).length < 2 ^ 32) :
    dumpPages ⟨S0, S0.length⟩ (p :: rest)
      = .ok (⟨((layoutLoop rest S0 (pageFrag p)).1
              ++ renderBlock (layoutLoop rest S0 (pageFrag p)).2.1
              ++ renderBlock (((p :: rest).map pageKv).flatten))
            ++ ((zipEntriesM ((layoutLoop rest S0 (pageFrag p)).1
                  ++ renderBlock (layoutLoop rest S0 (pageFrag p)).2.1).length
                (p :: rest) ((S0.length, 0) :: (layoutLoop rest S0 (pageFrag p)).2.2) 0).map
                IndexEntry.writeBytes).flatten,
          ((layoutLoop rest S0 (pageFrag p)).1
              ++ renderBlock (layoutLoop rest S0 (pageFrag p)).2.1
              ++ renderBlock (((p :: rest).map pageKv).flatten)).length
            + (((zipEntriesM ((layoutLoop rest S0 (pageFrag p)).1
                  ++ renderBlock (layoutLoop rest S0 (pageFrag p)).2.1).length
                (p :: rest) ((S0.length, 0) :: (layoutLoop rest S0 (pageFrag p)).2.2) 0).map
                IndexEntry.writeBytes).flatten).length⟩,
        ((layoutLoop rest S0 (pageFrag p)).1
            ++ renderBlock (layoutLoop rest S0 (pageFrag p)).2.1
            ++ renderBlock (((p :: rest).map pageKv).flatten)).length) := by
  have hmono := layoutLoop_mono rest S0 (pageFrag p)
  have hfrag32 : (pageFrag p).length < 2 ^ 32 := by omega
  have hcont : (pageContent p).length ≠ U64MAX := by
    have h1 := pageContent_le_pageFrag p
    have : U64MAX = 2 ^ 64 - 1 := rfl
    omega
  have hS032 : S0.length < 2 ^ 32 := by omega
  -- step 1: the first page from the Wait state
  rw [dumpPages, dumpPagesLoop, fragmentOpen_wait S0 _ hcont]
  have hfw := fragmentWrite_append (S0 ++ [1, 0, 0, 0, 0]) (pageFrag p) S0.length 0
  have hlen5 : S0.length + 5 = (S0 ++ [1, 0, 0, 0, 0]).length := by
    simp only [List.length_append, List.length_cons, List.length_nil]
  have hguard1 : S0.length < 2 ^ 32 ∧ (0 : Nat) < 2 ^ 32
      ∧ ([] : List Nat).length < 2 ^ 32 := ⟨hS032, by norm_num, by norm_num⟩
  simp only [hlen5, hfw, if_pos hguard1]
  have hw2 : (⟨⟨(S0 ++ [1, 0, 0, 0, 0]) ++ pageFrag p,
        (S0 ++ [1, 0, 0, 0, 0]).length + (pageFrag p).length⟩,
      .active S0.length (0 + (pageFrag p).length)⟩ : WriterState)
      = ⟨⟨S0 ++ ([1, 0, 0, 0, 0] ++ pageFrag p), S0.length + (5 + (pageFrag p).length)⟩,
        .active S0.length (pageFrag p).length⟩ := by
    simp only [List.append_assoc, List.length_append, List.length_cons, List.length_nil]
    congr 2
    all_goals omega
  rw [hw2]
  simp only [List.nil_append, List.length_nil]
  -- step 2: the remaining pages via the layout fold
  rw [dumpPagesLoop_eq_layout rest S0 (pageFrag p) (pageKv p)
    [(⟨p.id, p.parentId.getD 0, U32MAX, 0, S0.length, 0⟩ : IndexEntry)]
    (pageFrag_ne_nil p) hstream
    (by simp only [List.map_cons, List.flatten_cons, List.length_append] at hbuf ⊢; omega)]
  -- step 3: the forced metadata fragment
  have hcurF : (layoutLoop rest S0 (pageFrag p)).2.1 ≠ [] :=
    layoutLoop_cur_ne rest S0 (pageFrag p) (pageFrag_ne_nil p)
  have hstr := hstream
  have hcurF32 : (layoutLoop rest S0 (pageFrag p)).2.1.length < 2 ^ 32 := by omega
  have hlen64 : (layoutLoop rest S0 (pageFrag p)).1.length + 5
      + (layoutLoop rest S0 (pageFrag p)).2.1.length < 2 ^ 64 := by
    have h32 : (2 : Nat) ^ 32 < 2 ^ 64 := by norm_num
    omega
  have hfo2 := fragmentOpen_active_newblock (layoutLoop rest S0 (pageFrag p)).1
    (layoutLoop rest S0 (pageFrag p)).2.1 U64MAX (Or.inl rfl) hcurF hcurF32 hlen64
  have hhdr : ((layoutLoop rest S0 (pageFrag p)).1
        ++ renderBlock (layoutLoop rest S0 (pageFrag p)).2.1).length + 5
      = (((layoutLoop rest S0 (pageFrag p)).1
          ++ renderBlock (layoutLoop rest S0 (pageFrag p)).2.1) ++ [1, 0, 0, 0, 0]).length := by
    simp only [List.length_append, List.length_cons, List.length_nil]
  have hfw2 := fragmentWrite_append (((layoutLoop rest S0 (pageFrag p)).1
      ++ renderBlock (layoutLoop rest S0 (pageFrag p)).2.1) ++ [1, 0, 0, 0, 0])
    (pageKv p ++ (rest.map pageKv).flatten)
    ((layoutLoop rest S0 (pageFrag p)).1
      ++ renderBlock (layoutLoop rest S0 (pageFrag p)).2.1).length 0
  have hmbid : ((layoutLoop rest S0 (pageFrag p)).1
      ++ renderBlock (layoutLoop rest S0 (pageFrag p)).2.1).length < 2 ^ 32 := by
    simp only [List.length_append, renderBlock_length]
    omega
  simp only [hfo2, hhdr, hfw2, if_pos hmbid]
  -- step 4: closing the metadata block
  have hbufne : pageKv p ++ (rest.map pageKv).flatten ≠ [] := by
    simp [pageKv_ne_nil p]
  have hbuf32 : (pageKv p ++ (rest.map pageKv).flatten).length < 2 ^ 32 := by
    simp only [List.map_cons, List.flatten_cons, List.length_append] at hbuf
    simp only [List.length_append]
    omega
  have hlen642 : ((layoutLoop rest S0 (pageFrag p)).1
        ++ renderBlock (layoutLoop rest S0 (pageFrag p)).2.1).length + 5
      + (pageKv p ++ (rest.map pageKv).flatten).length < 2 ^ 64 := by
    have h32 : (2 : Nat) ^ 32 < 2 ^ 64 := by norm_num
    omega
  have hw3 : (⟨⟨(((layoutLoop rest S0 (pageFrag p)).1
            ++ renderBlock (layoutLoop rest S0 (pageFrag p)).2.1) ++ [1, 0, 0, 0, 0])
          ++ (pageKv p ++ (rest.map pageKv).flatten),
        (((layoutLoop rest S0 (pageFrag p)).1
            ++ renderBlock (layoutLoop rest S0 (pageFrag p)).2.1) ++ [1, 0, 0, 0, 0]).length
          + (pageKv p ++ (rest.map pageKv).flatten).length⟩,
      .active ((layoutLoop rest S0 (pageFrag p)).1
          ++ renderBlock (layoutLoop rest S0 (pageFrag p)).2.1).length
        (0 + (pageKv p ++ (rest.map pageKv).flatten).length)⟩ : WriterState)
      = ⟨⟨((layoutLoop rest S0 (pageFrag p)).1
            ++ renderBlock (layoutLoop rest S0 (pageFrag p)).2.1)
          ++ ([1, 0, 0, 0, 0] ++ (pageKv p ++ (rest.map pageKv).flatten)),
        ((layoutLoop rest S0 (pageFrag p)).1
            ++ renderBlock (layoutLoop rest S0 (pageFrag p)).2.1).length
          + (5 + (pageKv p ++ (rest.map pageKv).flatten).length)⟩,
      .active ((layoutLoop rest S0 (pageFrag p)).1
          ++ renderBlock (layoutLoop rest S0 (pageFrag p)).2.1).length
        (pageKv p ++ (rest.map pageKv).flatten).length⟩ := by
    simp only [List.append_assoc, List.length_append, List.length_cons, List.length_nil]
    congr 2
    all_goals omega
  rw [hw3]
  have hclose := closeCurrent_active ((layoutLoop rest S0 (pageFrag p)).1
      ++ renderBlock (layoutLoop rest S0 (pageFrag p)).2.1)
    (pageKv p ++ (rest.map pageKv).flatten) hbufne hbuf32 hlen642
  simp only [writerFinish, hclose, Except.map]
  -- step 5: the index entries after the stream
  have hpos2 : ((layoutLoop rest S0 (pageFrag p)).1
        ++ renderBlock (layoutLoop rest S0 (pageFrag p)).2.1).length
      + (5 + (pageKv p ++ (rest.map pageKv).flatten).length)
      = (((layoutLoop rest S0 (pageFrag p)).1
          ++ renderBlock (layoutLoop rest S0 (pageFrag p)).2.1)
        ++ renderBlock (pageKv p ++ (rest.map pageKv).flatten)).length := by
    simp only [List.length_append, renderBlock_length]
  rw [hpos2, writeBytes_append _ _ rfl]
  -- step 6: identify both sides
  simp only [List.singleton_append, List.map_cons, List.map_map, zipEntriesM,
    List.flatten_cons, Nat.zero_add, List.append_assoc]
  rw [map_patch_zip]

/-! ### Load-side infrastructure for the dump/load round trip -/

theorem layoutLoop_locs_length (ps : List Page) :
    ∀ (P cur : List Nat), (layoutLoop ps P cur).2.2.length = ps.length := by
  induction ps with
  | nil => intro P cur; rfl
  | cons p rest ih =>
    intro P cur
    rw [layoutLoop]
    split
    · simp [ih]
    · simp [ih]

/-- In the final stream of the layout fold (the accumulated blocks plus
the closed active block), position `P.length` holds a complete rendered
block whose payload extends the starting payload `cur`. -/
theorem layoutLoop_active_block (ps : List Page) :
    ∀ (P cur : List Nat), ∃ ext junk,
      (layoutLoop ps P cur).1 ++ renderBlock (layoutLoop ps P cur).2.1
        = P ++ (renderBlock (cur ++ ext) ++ junk) := by
  induction ps with
  | nil =>
    intro P cur
    exact ⟨[], [], by simp [layoutLoop]⟩
  | cons p rest ih =>
    intro P cur
    rw [layoutLoop]
    split
    · obtain ⟨ext, junk, h⟩ := ih (P ++ renderBlock cur) (pageFrag p)
      refine ⟨[], renderBlock (pageFrag p ++ ext) ++ junk, ?_⟩
      simpa [List.append_assoc] using h
    · obtain ⟨ext, junk, h⟩ := ih P (cur ++ pageFrag p)
      refine ⟨pageFrag p ++ ext, junk, ?_⟩
      simpa [List.append_assoc] using h

/-- The stream the layout fold builds is bounded by the starting stream
plus five header bytes and each page's fragment bytes. -/
theorem layoutLoop_length_le (ps : List Page) :
    ∀ (P cur : List Nat),
      (layoutLoop ps P cur).1.length + (5 + (layoutLoop ps P cur).2.1.length)
        ≤ P.length + (5 + cur.length) + (ps.map (fun q => 5 + (pageFrag q).length)).sum := by
  induction ps with
  | nil => intro P cur; simp [layoutLoop]
  | cons p rest ih =>
    intro P cur
    rw [layoutLoop]
    split
    · have := ih (P ++ renderBlock cur) (pageFrag p)
      simp only [List.length_append, renderBlock_length, List.map_cons, List.sum_cons] at this ⊢
      omega
    · have := ih P (cur ++ pageFrag p)
      simp only [List.length_append, List.map_cons, List.sum_cons] at this ⊢
      omega

theorem kvSerialize_length_ge (es : List PageMeta) : es.length ≤ (kvSerialize es).length := by
  induction es with
  | nil => simp [kvSerialize]
  | cons e es ih =>
    have hcons : kvSerialize (e :: es)
        = (e.tag.toByte :: (lebEncode e.value.length ++ e.value)) ++ kvSerialize es := by
      simp [kvSerialize, List.flatten]
    rw [hcons]
    simp only [List.length_append, List.length_cons]
    omega

theorem metaDump_length_gt (es : List MetaEntry) : es.length < (metaDump es).length := by
  induction es with
  | nil => simp [metaDump]
  | cons e es ih =>
    have hcons : metaDump (e :: es) = e.dumpBytes ++ metaDump es := by
      simp [metaDump, List.flatten]
    have hne : e.dumpBytes ≠ [] := by cases e <;> simp [MetaEntry.dumpBytes]
    have : 0 < e.dumpBytes.length := List.length_pos.mpr hne
    rw [hcons]
    simp only [List.length_append, List.length_cons]
    omega

theorem wfb_mono (e : MetaEntry) (L L' : Nat) (h : L ≤ L') (hwf : e.wfb L = true) :
    e.wfb L' = true := by
  cases e with
  | title s =>
    simp only [MetaEntry.wfb, Bool.and_eq_true, decide_eq_true_eq] at hwf ⊢
    exact ⟨⟨hwf.1.1, by omega⟩, hwf.2⟩
  | author s =>
    simp only [MetaEntry.wfb, Bool.and_eq_true, decide_eq_true_eq] at hwf ⊢
    exact ⟨⟨hwf.1.1, by omega⟩, hwf.2⟩
  | language s =>
    simp only [MetaEntry.wfb, Bool.and_eq_true, decide_eq_true_eq] at hwf ⊢
    exact ⟨⟨hwf.1.1, by omega⟩, hwf.2⟩
  | date d =>
    simp only [MetaEntry.wfb, Bool.and_eq_true, decide_eq_true_eq] at hwf ⊢
    exact ⟨hwf.1, by omega⟩
  | license s =>
    simp only [MetaEntry.wfb, Bool.and_eq_true, decide_eq_true_eq] at hwf ⊢
    exact ⟨⟨hwf.1.1, by omega⟩, hwf.2⟩
  | keyword s =>
    simp only [MetaEntry.wfb, Bool.and_eq_true, decide_eq_true_eq] at hwf ⊢
    exact ⟨⟨hwf.1.1, by omega⟩, hwf.2⟩
  | user k v =>
    simp only [MetaEntry.wfb, Bool.and_eq_true, decide_eq_true_eq] at hwf ⊢
    exact ⟨⟨⟨hwf.1.1.1, by omega⟩, hwf.1.2⟩, ⟨⟨hwf.2.1.1, by omega⟩, hwf.2.2⟩⟩

theorem drop_append_ge (A R : List Nat) (b : Nat) (h : A.length ≤ b) :
    (A ++ R).drop b = R.drop (b - A.length) := by
  obtain ⟨i, rfl⟩ : ∃ i, b = A.length + i := ⟨b - A.length, by omega⟩
  rw [List.drop_append]
  congr 1
  omega

theorem forall2_mem_right {α β : Type} {R : α → β → Prop} :
    ∀ {l₁ : List α} {l₂ : List β}, List.Forall₂ R l₁ l₂ → ∀ b ∈ l₂, ∃ a ∈ l₁, R a b := by
  intro l₁ l₂ h
  induction h with
  | nil => intro b hb; simp at hb
  | cons hr _ ih =>
    intro b hb
    rcases List.mem_cons.mp hb with h | h
    · exact ⟨_, by simp, h ▸ hr⟩
    · obtain ⟨a, ha, hR⟩ := ih b h
      exact ⟨a, by simp [ha], hR⟩

theorem forall2_map_eq {α β γ : Type} (f : α → γ) (g : β → γ) :
    ∀ {l₁ : List α} {l₂ : List β}, List.Forall₂ (fun a b => g b = f a) l₁ l₂ →
      l₂.map g = l₁.map f := by
  intro l₁ l₂ h
  induction h with
  | nil => rfl
  | cons hr _ ih => simp [ih, hr]

/-- A fragment recorded at location `loc` is readable from the stream
`W`: a complete rendered block sits at position `loc.1` and its payload
holds the page's fragment bytes at offset `loc.2`. -/
def FragAt (W : List Nat) (p : Page) (loc : Nat × Nat) : Prop :=
  ∃ pre bl junk tl,
    W = pre ++ (renderBlock bl ++ junk) ∧ pre.length = loc.1 ∧
    loc.2 + (pageFrag p).length ≤ bl.length ∧
    bl.drop loc.2 = pageFrag p ++ tl

/-- Every location the layout fold records points at a complete rendered
block of the final stream containing that page's fragment; all locations
lie at or after the starting stream length. -/
theorem layoutLoop_fragments (ps : List Page) :
    ∀ (P cur : List Nat),
      List.Forall₂
        (fun p loc => P.length ≤ loc.1 ∧
          FragAt ((layoutLoop ps P cur).1 ++ renderBlock (layoutLoop ps P cur).2.1) p loc)
        ps (layoutLoop ps P cur).2.2 := by
  induction ps with
  | nil =>
    intro P cur
    simp only [layoutLoop]
    exact List.Forall₂.nil
  | cons p rest ih =>
    intro P cur
    rw [layoutLoop]
    split
    · refine List.Forall₂.cons ⟨by simp, ?_⟩ ?_
      · obtain ⟨ext, junk, h⟩ := layoutLoop_active_block rest (P ++ renderBlock cur) (pageFrag p)
        refine ⟨P ++ renderBlock cur, pageFrag p ++ ext, junk, ext, h, rfl, ?_, ?_⟩
        · simp only [List.length_append]
          omega
        · simp
      · refine (ih (P ++ renderBlock cur) (pageFrag p)).imp ?_
        intro q loc hq
        refine ⟨?_, hq.2⟩
        have := hq.1
        simp only [List.length_append] at this
        omega
    · refine List.Forall₂.cons ⟨le_refl _, ?_⟩ (ih P (cur ++ pageFrag p))
      obtain ⟨ext, junk, h⟩ := layoutLoop_active_block rest P (cur ++ pageFrag p)
      refine ⟨P, (cur ++ pageFrag p) ++ ext, junk, ext, h, rfl, ?_, ?_⟩
      · simp only [List.length_append]
        omega
      · rw [List.append_assoc, List.drop_left]

/-- Reading a rendered block found at position `b` of the stream: the
reader returns exactly the decoded payload. -/
theorem readBlockRaw_render (D junk bl : List Nat) (b : Nat)
    (hdrop : D.drop b = renderBlock bl ++ junk) (hbl : bl.length < 2 ^ 32) :
    readBlockRaw D D.length b 0 = .ok bl := by
  have hlen : D.length - b = 5 + bl.length + junk.length := by
    have := congrArg List.length hdrop
    simpa [renderBlock_length] using this
  have hble : b + 5 + bl.length ≤ D.length := by
    rcases Nat.lt_or_ge b D.length with h | h
    · omega
    · exfalso
      rw [List.drop_eq_nil_of_le h] at hdrop
      have := congrArg List.length hdrop
      simp only [List.length_nil, List.length_append, renderBlock_length] at this
      omega
  have hshape : D.drop b = [1] ++ (be32 bl.length ++ (bl ++ junk)) := by
    rw [hdrop]
    simp [renderBlock]
  have hr1 : readN (D.drop b) 1 = some ([1], be32 bl.length ++ (bl ++ junk)) := by
    have := readN_append [1] (be32 bl.length ++ (bl ++ junk))
    rw [← hshape] at this
    simpa using this
  have hr4 : readN (be32 bl.length ++ (bl ++ junk)) 4 = some (be32 bl.length, bl ++ junk) := by
    have := readN_append (be32 bl.length) (bl ++ junk)
    rwa [be32_length] at this
  have hfe : fromBe (be32 bl.length) = bl.length := fromBe_be32 _ hbl
  have hoff : ¬ ((0 : Nat) > bl.length) := by omega
  have hmin : ¬ (min (b + bl.length) U64MAX > D.length) := by
    have h1 : min (b + bl.length) U64MAX ≤ b + bl.length := Nat.min_le_left _ _
    omega
  have hrp : readN (bl ++ junk) bl.length = some (bl, junk) := readN_append _ _
  rw [readBlockRaw, hr1]
  simp only [if_pos rfl, hr4, hfe, if_neg hoff, if_neg hmin, hrp, if_true]

/-- The reader-state invariant of the round trip: the recorded stream
length is the input length, and every cached `Result` is what the block
closure computes at offset zero for that block id. -/
def CacheOK (D : List Nat) (r : ReaderState) : Prop :=
  r.streamLen = D.length ∧
  ∀ kv ∈ r.cache, kv.2 = readBlockRaw D D.length kv.1 0

theorem withBlock_cacheOK {α : Type} (D : List Nat) (r : ReaderState) (b : Nat) (bl : List Nat)
    (f : List Nat → α) (hok : CacheOK D r)
    (hread : readBlockRaw D D.length b 0 = .ok bl) :
    (withBlock D r b 0 f).1 = .ok (f bl) ∧ CacheOK D (withBlock D r b 0 f).2 := by
  rw [withBlock]
  cases hfind : lruLookup r.cache b with
  | some v =>
    obtain ⟨kv, hkvfind⟩ : ∃ kv, r.cache.find? (fun q => q.1 = b) = some kv := by
      rw [lruLookup] at hfind
      cases hf : r.cache.find? (fun q => q.1 = b) with
      | none => rw [hf] at hfind; simp at hfind
      | some kv => exact ⟨kv, rfl⟩
    have hkvmem : kv ∈ r.cache := List.mem_of_find?_eq_some hkvfind
    have hkey : kv.1 = b := by
      have := List.find?_some hkvfind
      simpa using this
    have hv : v = kv.2 := by
      rw [lruLookup, hkvfind] at hfind
      simpa using hfind.symm
    have hvval : v = .ok bl := by
      rw [hv, hok.2 kv hkvmem, hkey, hread]
    subst hvval
    have hoff : (0 : Nat) ≤ bl.length := Nat.zero_le _
    simp only [if_pos hoff, List.drop_zero]
    refine ⟨by simp, hok.1, ?_⟩
    intro kv' hkv'
    rw [lruPromote] at hkv'
    rcases List.mem_cons.mp hkv' with h | h
    · subst h
      rw [hread]
    · exact hok.2 kv' (List.mem_filter.mp h).1
  | none =>
    have hrb : readBlockRaw D r.streamLen b 0 = .ok bl := by
      rw [hok.1, hread]
    simp only [hrb]
    refine ⟨by rw [List.drop_zero], hok.1, ?_⟩
    intro kv' hkv'
    rw [lruInsert] at hkv'
    rcases List.mem_cons.mp hkv' with h | h
    · subst h
      exact hread.symm
    · refine hok.2 kv' ?_
      by_cases hc : 16 ≤ r.cache.length
      · rw [if_pos hc] at h
        exact (List.dropLast_sublist _).subset h
      · rw [if_neg hc] at h
        exact h

/-- The content visitor recovers exactly the page content from a block
payload holding the page's fragment at the given offset. -/
theorem contentVisitor_frag (bl tl : List Nat) (p : Page) (o : Nat)
    (hle : o + (pageFrag p).length ≤ bl.length)
    (hdrop : bl.drop o = pageFrag p ++ tl)
    (hutf : validUtf8 (pageContent p) = true)
    (h64 : (pageContent p).length < 2 ^ 64) :
    contentVisitor bl o = .ok (pageContent p) := by
  have ho : o ≤ bl.length := by omega
  have hslice : bl.drop o
      = lebEncode (pageContent p).length ++ (pageContent p ++ tl) := by
    rw [hdrop, pageFrag, List.append_assoc]
  have hleb : lebDecode (bl.drop o) = .ok ((pageContent p).length, pageContent p ++ tl) := by
    rw [hslice]
    exact lebDecode_encode _ _ h64
  have hfraglen : (pageFrag p).length
      = (lebEncode (pageContent p).length).length + (pageContent p).length := by
    simp [pageFrag]
  have hdlen : (bl.drop o).length = bl.length - o := by simp
  have hpos : (bl.drop o).length - (pageContent p ++ tl).length + o
      = o + (lebEncode (pageContent p).length).length := by
    have := congrArg List.length hslice
    simp only [List.length_append] at this ⊢
    omega
  have hguard : (pageContent p).length
      + (o + (lebEncode (pageContent p).length).length) ≤ bl.length := by
    omega
  have hdp : bl.drop (o + (lebEncode (pageContent p).length).length)
      = pageContent p ++ tl := by
    have h1 : (bl.drop o).drop (lebEncode (pageContent p).length).length
        = pageContent p ++ tl := by
      rw [hslice, List.drop_left]
    rw [List.drop_drop] at h1
    exact h1
  simp only [contentVisitor, if_pos ho, hleb, hpos, if_pos hguard, hdp, List.take_left, hutf,
    if_true]

/-- The metadata visitor recovers the page's title, keywords and
description from the staging-buffer payload holding the page's KV-list at
the given offset. -/
theorem metaVisitor_kv (M tlx : List Nat) (p : Page) (o : Nat)
    (hdrop : M.drop o = pageKv p ++ tlx)
    (hutf1 : validUtf8 p.title = true)
    (hutf2 : ∀ k, p.keywords = some k → validUtf8 k = true)
    (hutf3 : ∀ d, p.description = some d → validUtf8 d = true)
    (h64 : M.length < 2 ^ 64) :
    metaVisitor M o = .ok (some p.title, p.keywords, p.description) := by
  have hlendrop : (M.drop o).length = M.length - o := by simp
  have ho : o ≤ M.length := by
    by_contra hc
    push_neg at hc
    rw [List.drop_eq_nil_of_le (by omega)] at hdrop
    have hl := congrArg List.length hdrop
    have hkv := List.length_pos.mpr (pageKv_ne_nil p)
    simp only [List.length_nil, List.length_append] at hl
    omega
  have hvalid : ∀ e ∈ pageMetaEntries p, validUtf8 e.value = true := by
    intro e he
    simp only [pageMetaEntries, List.mem_append, List.mem_singleton] at he
    rcases he with (he | he) | he
    · exact he ▸ hutf1
    · rcases hk : p.keywords with _ | k <;> rw [hk] at he
      · simp at he
      · simp only [List.mem_singleton] at he
        exact he ▸ hutf2 _ hk
    · rcases hd : p.description with _ | d <;> rw [hd] at he
      · simp at he
      · simp only [List.mem_singleton] at he
        exact he ▸ hutf3 _ hd
  have hpk : (pageKv p).length = (kvSerialize (pageMetaEntries p)).length := rfl
  have hbase : M.length - o = (pageKv p).length + tlx.length := by
    have := congrArg List.length hdrop
    simpa [List.length_append] using this
  have hlen : ∀ e ∈ pageMetaEntries p, e.value.length ≤ M.length - o := by
    intro e he
    have h1 := value_length_le_kvSerialize (pageMetaEntries p) e he
    omega
  have h64s : ∀ e ∈ pageMetaEntries p, e.value.length < 2 ^ 64 := by
    intro e he
    have h1 := hlen e he
    omega
  have hfuel : (pageMetaEntries p).length < M.length - o + 1 := by
    have h1 := kvSerialize_length_ge (pageMetaEntries p)
    omega
  have hkv : kvRun (M.length - o + 1) ⟨pageKv p ++ tlx, M.length - o, true⟩
      = .ok (pageMetaEntries p) := by
    rw [pageKv]
    exact kvRun_serialize (pageMetaEntries p) _ tlx _ hfuel hvalid hlen h64s
  simp only [metaVisitor, if_pos ho]
  rw [hlendrop, hdrop, hkv]
  rcases hk : p.keywords with _ | k <;> rcases hd : p.description with _ | d <;>
    simp [pageMetaEntries, hk, hd]

/-- `build_page` on an index entry whose content and metadata blocks are
readable and hold the page's fragment and KV-list: the loaded page is the
source page with the content made explicit. -/
theorem buildPage_ok (D : List Nat) (r : ReaderState) (e : IndexEntry) (p : Page)
    (cbl mbl : List Nat)
    (hok : CacheOK D r)
    (hrc : readBlockRaw D D.length e.contentBlockId 0 = .ok cbl)
    (hcv : contentVisitor cbl e.contentBlockOffset = .ok (pageContent p))
    (hrm : readBlockRaw D D.length e.metadataBlockId 0 = .ok mbl)
    (hmv : metaVisitor mbl e.metadataBlockOffset
      = .ok (some p.title, p.keywords, p.description))
    (hid : e.id = p.id) (hid0 : p.id ≠ 0)
    (hpar : e.parentId = p.parentId.getD 0) (hpar0 : p.parentId ≠ some 0) :
    (buildPage D r e).1 = .ok { p with content := some (pageContent p) } ∧
    CacheOK D (buildPage D r e).2 := by
  obtain ⟨h1, h2⟩ := withBlock_cacheOK D r e.contentBlockId cbl
    (fun bb => contentVisitor bb e.contentBlockOffset) hok hrc
  obtain ⟨res1, r1, hw1⟩ : ∃ a b,
      withBlock D r e.contentBlockId 0 (fun bb => contentVisitor bb e.contentBlockOffset)
        = (a, b) := ⟨_, _, rfl⟩
  rw [hw1] at h1 h2
  have hres1 : res1 = .ok (.ok (pageContent p)) := by
    rw [← hcv]
    exact h1
  have hok1 : CacheOK D r1 := h2
  subst hres1
  obtain ⟨h3, h4⟩ := withBlock_cacheOK D r1 e.metadataBlockId mbl
    (fun bb => metaVisitor bb e.metadataBlockOffset) hok1 hrm
  obtain ⟨res2, r2, hw2⟩ : ∃ a b,
      withBlock D r1 e.metadataBlockId 0 (fun bb => metaVisitor bb e.metadataBlockOffset)
        = (a, b) := ⟨_, _, rfl⟩
  rw [hw2] at h3 h4
  have hres2 : res2 = .ok (.ok (some p.title, p.keywords, p.description)) := by
    rw [← hmv]
    exact h3
  have hok2 : CacheOK D r2 := h4
  subst hres2
  have hidne : ¬ (e.id = 0) := by
    rw [hid]
    exact hid0
  rw [buildPage, hw1]
  simp only [hw2, if_neg hidne]
  refine ⟨?_, hok2⟩
  simp only [Option.getD_some, hid]
  congr 1
  cases hpp : p.parentId with
  | none =>
    rw [hpp] at hpar
    simp only [Option.getD_none] at hpar
    simp [hpar]
  | some q =>
    have hq0 : q ≠ 0 := by
      intro hc
      exact hpar0 (by rw [hpp, hc])
    rw [hpp] at hpar
    simp only [Option.getD_some] at hpar
    simp [hpar, hq0]

/-- Threading any `CacheOK` reader through `Book::pages` yields, entry by
entry, the values the per-entry function `v` prescribes. -/
theorem pagesList_map (D : List Nat) (v : Nat × IndexEntry → Except PageErr Page) :
    ∀ (m : List (Nat × IndexEntry)) (r : ReaderState),
      CacheOK D r →
      (∀ kv ∈ m, ∀ r', CacheOK D r' →
        (buildPage D r' kv.2).1 = v kv ∧ CacheOK D (buildPage D r' kv.2).2) →
      (pagesList D r m).1 = m.map v := by
  intro m
  induction m with
  | nil => intro r _ _; rfl
  | cons kv rest ih =>
    intro r hok hv
    obtain ⟨h1, h2⟩ := hv kv (by simp) r hok
    obtain ⟨res1, r1, hw1⟩ : ∃ a b, buildPage D r kv.2 = (a, b) := ⟨_, _, rfl⟩
    rw [hw1] at h1 h2
    have hres1 : res1 = v kv := h1
    have hok1 : CacheOK D r1 := h2
    rw [pagesList, hw1]
    simp only [List.map_cons, hres1]
    have := ih r1 hok1 (fun kv' hkv' => hv kv' (by simp [hkv']))
    obtain ⟨others, r2, hw2⟩ : ∃ a b, pagesList D r1 rest = (a, b) := ⟨_, _, rfl⟩
    rw [hw2] at this ⊢
    simp only at this ⊢
    rw [this]

theorem indexEntry_writeBytes_length (e : IndexEntry) : e.writeBytes.length = 24 := by
  simp [IndexEntry.writeBytes, be32]

/-- `IndexEntry::read` inverts `IndexEntry::write` when every field fits
`u32`. -/
theorem parseIndexEntry_writeBytes (e : IndexEntry)
    (h1 : e.id < 2 ^ 32) (h2 : e.parentId < 2 ^ 32) (h3 : e.metadataBlockId < 2 ^ 32)
    (h4 : e.metadataBlockOffset < 2 ^ 32) (h5 : e.contentBlockId < 2 ^ 32)
    (h6 : e.contentBlockOffset < 2 ^ 32) :
    parseIndexEntry e.writeBytes = e := by
  obtain ⟨a, b, c, d, f, g⟩ := e
  simp only at h1 h2 h3 h4 h5 h6
  simp only [IndexEntry.writeBytes, parseIndexEntry, be32, List.cons_append, List.nil_append,
    List.take, List.drop, fromBe, List.foldl, IndexEntry.mk.injEq]
  refine ⟨?_, ?_, ?_, ?_, ?_, ?_⟩ <;> omega

/-- A successful `BTreeMap`-style insert permutes to consing the new
binding. -/
theorem btreeInsert_perm (k : Nat) (v : IndexEntry) :
    ∀ (m m' : List (Nat × IndexEntry)), btreeInsert m k v = some m' → List.Perm m' ((k, v) :: m) := by
  intro m
  induction m with
  | nil =>
    intro m' h
    simp only [btreeInsert, Option.some.injEq] at h
    rw [← h]
  | cons kv rest ih =>
    intro m' h
    obtain ⟨k', v'⟩ := kv
    rw [btreeInsert] at h
    by_cases hlt : k < k'
    · rw [if_pos hlt] at h
      simp only [Option.some.injEq] at h
      rw [← h]
    · rw [if_neg hlt] at h
      by_cases heq : k = k'
      · rw [if_pos heq] at h
        simp at h
      · rw [if_neg heq] at h
        cases hrec : btreeInsert rest k v with
        | none =>
          rw [hrec] at h
          simp at h
        | some m'' =>
          rw [hrec] at h
          simp only [Option.map_some', Option.some.injEq] at h
          rw [← h]
          exact List.Perm.trans ((ih m'' hrec).cons _) (List.Perm.swap _ _ _)

/-- Insertion succeeds exactly on fresh keys. -/
theorem btreeInsert_some (k : Nat) (v : IndexEntry) :
    ∀ (m : List (Nat × IndexEntry)), k ∉ m.map Prod.fst →
      ∃ m', btreeInsert m k v = some m' := by
  intro m
  induction m with
  | nil => intro _; exact ⟨[(k, v)], rfl⟩
  | cons kv rest ih =>
    intro hk
    obtain ⟨k', v'⟩ := kv
    simp only [List.map_cons, List.mem_cons, not_or] at hk
    rw [btreeInsert]
    by_cases hlt : k < k'
    · exact ⟨_, by rw [if_pos hlt]⟩
    · obtain ⟨m'', hm''⟩ := ih hk.2
      refine ⟨(k', v') :: m'', ?_⟩
      rw [if_neg hlt, if_neg hk.1, hm'']
      rfl

/-- Insertion keeps the key list strictly sorted. -/
theorem btreeInsert_sorted (k : Nat) (v : IndexEntry) :
    ∀ (m m' : List (Nat × IndexEntry)),
      (m.map Prod.fst).Pairwise (· < ·) → btreeInsert m k v = some m' →
      (m'.map Prod.fst).Pairwise (· < ·) := by
  intro m
  induction m with
  | nil =>
    intro m' _ h
    simp only [btreeInsert, Option.some.injEq] at h
    rw [← h]
    simp
  | cons kv rest ih =>
    intro m' hs h
    obtain ⟨k', v'⟩ := kv
    simp only [List.map_cons, List.pairwise_cons] at hs
    rw [btreeInsert] at h
    by_cases hlt : k < k'
    · rw [if_pos hlt] at h
      simp only [Option.some.injEq] at h
      rw [← h]
      simp only [List.map_cons, List.pairwise_cons, List.mem_cons]
      refine ⟨?_, hs⟩
      rintro b (hb | hb)
      · omega
      · have := hs.1 b hb
        omega
    · rw [if_neg hlt] at h
      by_cases heq : k = k'
      · rw [if_pos heq] at h
        simp at h
      · rw [if_neg heq] at h
        cases hrec : btreeInsert rest k v with
        | none =>
          rw [hrec] at h
          simp at h
        | some m'' =>
          rw [hrec] at h
          simp only [Option.map_some', Option.some.injEq] at h
          rw [← h]
          simp only [List.map_cons, List.pairwise_cons]
          refine ⟨?_, ih m'' hs.2 hrec⟩
          intro b hb
          have hperm : List.Perm (m''.map Prod.fst) (k :: rest.map Prod.fst) := by
            have := (btreeInsert_perm k v rest m'' hrec).map Prod.fst
            simpa using this
          have hb' : b ∈ k :: rest.map Prod.fst := hperm.subset hb
          rcases List.mem_cons.mp hb' with hb'' | hb''
          · omega
          · exact hs.1 b hb''

/-- The reading loop of `Index::new` over serialized entries with fresh
nonzero ids: it succeeds, the resulting map is the accumulated one plus
one binding per entry, and its keys stay strictly sorted. -/
theorem indexNewLoop_spec :
    ∀ (es : List IndexEntry) (m : List (Nat × IndexEntry)) (rest : List Nat),
      (∀ e ∈ es, e.id ≠ 0) →
      (∀ e ∈ es, parseIndexEntry e.writeBytes = e) →
      (m.map Prod.fst ++ es.map IndexEntry.id).Nodup →
      (m.map Prod.fst).Pairwise (· < ·) →
      ∃ m', indexNewLoop es.length ((es.map IndexEntry.writeBytes).flatten ++ rest) m = .ok m'
        ∧ List.Perm m' (m ++ es.map (fun e => (e.id, e)))
        ∧ (m'.map Prod.fst).Pairwise (· < ·) := by
  intro es
  induction es with
  | nil =>
    intro m rest _ _ _ hsort
    exact ⟨m, rfl, by simp, hsort⟩
  | cons e es ih =>
    intro m rest hid hparse hnd hsort
    have hin : ((e :: es).map IndexEntry.writeBytes).flatten ++ rest
        = e.writeBytes ++ ((es.map IndexEntry.writeBytes).flatten ++ rest) := by
      simp [List.flatten]
    have hread : readN (e.writeBytes ++ ((es.map IndexEntry.writeBytes).flatten ++ rest)) 24
        = some (e.writeBytes, (es.map IndexEntry.writeBytes).flatten ++ rest) := by
      have := readN_append e.writeBytes ((es.map IndexEntry.writeBytes).flatten ++ rest)
      rwa [indexEntry_writeBytes_length] at this
    have hnd0 : (m.map Prod.fst ++ (e.id :: es.map IndexEntry.id)).Nodup := by
      simpa using hnd
    have hkey : e.id ∉ m.map Prod.fst := by
      have hdisj := (List.nodup_append.mp hnd0).2.2
      intro hc
      exact hdisj hc (by simp)
    obtain ⟨m₁, hm₁⟩ := btreeInsert_some e.id e m hkey
    have hperm₁ := btreeInsert_perm e.id e m m₁ hm₁
    have hsort₁ := btreeInsert_sorted e.id e m m₁ hsort hm₁
    have hnd' : (m₁.map Prod.fst ++ es.map IndexEntry.id).Nodup := by
      have h1 : List.Perm (e.id :: m.map Prod.fst) (m₁.map Prod.fst) := by
        have := (hperm₁.map Prod.fst).symm
        simpa using this
      have hp : List.Perm (m.map Prod.fst ++ (e.id :: es.map IndexEntry.id))
          (m₁.map Prod.fst ++ es.map IndexEntry.id) :=
        List.Perm.trans List.perm_middle (List.Perm.append_right _ h1)
      exact hp.nodup hnd0
    obtain ⟨m', hrun, hperm, hsort'⟩ := ih m₁ rest
      (fun x hx => hid x (by simp [hx])) (fun x hx => hparse x (by simp [hx])) hnd' hsort₁
    refine ⟨m', ?_, ?_, hsort'⟩
    · rw [hin]
      simp only [List.length_cons, indexNewLoop, hread, hparse e (by simp),
        if_neg (hid e (by simp)), hm₁]
      exact hrun
    · simp only [List.map_cons]
      refine List.Perm.trans hperm ?_
      refine List.Perm.trans (List.Perm.append_right _ hperm₁) ?_
      exact List.perm_middle.symm

theorem zipEntriesM_length (mB : Nat) :
    ∀ (ps : List Page) (locs : List (Nat × Nat)) (bufLen : Nat),
      ps.length = locs.length →
      (zipEntriesM mB ps locs bufLen).length = ps.length := by
  intro ps
  induction ps with
  | nil => intro locs bufLen _; rfl
  | cons p ps ih =>
    intro locs bufLen h
    cases locs with
    | nil => simp at h
    | cons loc locs' =>
      simp only [List.length_cons] at h
      simp only [zipEntriesM, List.length_cons]
      rw [ih locs' _ (by omega)]

/-- The index entries paired with their pages: ids, raw parent ids, the
metadata block id, readable content locations and staging-buffer offsets
pointing at each page's KV-list. -/
theorem entries_spec (M : List Nat) (mB : Nat) (R : Page → Nat × Nat → Prop) :
    ∀ (ps : List Page) (locs : List (Nat × Nat)) (bufLen : Nat),
      List.Forall₂ R ps locs →
      (∃ sfx, M.drop bufLen = (ps.map pageKv).flatten ++ sfx) →
      List.Forall₂ (fun p (e : IndexEntry) =>
          e.id = p.id ∧ e.parentId = p.parentId.getD 0 ∧ e.metadataBlockId = mB ∧
          R p (e.contentBlockId, e.contentBlockOffset) ∧
          (∃ tl, M.drop e.metadataBlockOffset = pageKv p ++ tl) ∧
          e.metadataBlockOffset ≤ M.length)
        ps (zipEntriesM mB ps locs bufLen) := by
  intro ps
  induction ps with
  | nil =>
    intro locs bufLen _ _
    cases locs <;> exact List.Forall₂.nil
  | cons p ps ih =>
    intro locs bufLen hfa hsfx
    cases hfa with
    | cons hR htail =>
      obtain ⟨sfx, hsfx⟩ := hsfx
      have hdropbuf : M.drop bufLen = pageKv p ++ ((ps.map pageKv).flatten ++ sfx) := by
        rw [hsfx]
        simp [List.flatten, List.append_assoc]
      have hoff : bufLen ≤ M.length := by
        have hlen := congrArg List.length hdropbuf
        have hkv := List.length_pos.mpr (pageKv_ne_nil p)
        simp only [List.length_drop, List.length_append] at hlen
        omega
      have hnext : M.drop (bufLen + (pageKv p).length) = (ps.map pageKv).flatten ++ sfx := by
        have h1 : (M.drop bufLen).drop (pageKv p).length = (ps.map pageKv).flatten ++ sfx := by
          rw [hdropbuf, List.drop_left]
        rw [List.drop_drop] at h1
        first
          | exact h1
          | simpa [Nat.add_comm] using h1
      exact List.Forall₂.cons ⟨rfl, rfl, rfl, hR, ⟨_, hdropbuf⟩, hoff⟩
        (ih _ _ htail ⟨sfx, hnext⟩)

theorem forall2_imp_mem {α β : Type} {R S : α → β → Prop} :
    ∀ {l₁ : List α} {l₂ : List β}, List.Forall₂ R l₁ l₂ →
      (∀ a ∈ l₁, ∀ b ∈ l₂, R a b → S a b) → List.Forall₂ S l₁ l₂ := by
  intro l₁ l₂ h
  induction h with
  | nil => intro _; exact List.Forall₂.nil
  | cons hr ht ih =>
    intro himp
    refine List.Forall₂.cons (himp _ (by simp) _ (by simp) hr) ?_
    exact ih fun a ha b hb hr' => himp a (by simp [ha]) b (by simp [hb]) hr'

theorem forall2_map_self {α β : Type} (P : α → β → Prop) (v : α → β) :
    ∀ l : List α, (∀ x ∈ l, P x (v x)) → List.Forall₂ P l (l.map v) := by
  intro l
  induction l with
  | nil => intro _; exact List.Forall₂.nil
  | cons x xs ih =>
    intro h
    exact List.Forall₂.cons (h x (by simp)) (ih fun y hy => h y (by simp [hy]))

/-- C1 (amended): dumping a book with at least one page and loading the
result from the same position recovers the book: the page count, the
book-level metadata sequence, and — keyed by id — every page with its
title, keywords, description and byte-equal content (absent content loads
as explicitly empty content); the loaded pages iterate in ascending id
order. -/
theorem C1_roundtrip_nonempty (B : BookBuilderModel)
    (hne : B.pages ≠ [])
    (hn : B.pages.length < 2 ^ 32)
    (hid : ∀ q ∈ B.pages, q.id ≠ 0 ∧ q.id < 2 ^ 32)
    (hparent : ∀ q ∈ B.pages, q.parentId ≠ some 0 ∧ q.parentId.getD 0 < 2 ^ 32)
    (hnodup : (B.pages.map Page.id).Nodup)
    (hutf : ∀ q ∈ B.pages, validUtf8 q.title = true
      ∧ validUtf8 (q.keywords.getD []) = true
      ∧ validUtf8 (q.description.getD []) = true
      ∧ validUtf8 (pageContent q) = true)
    (hmeta : ∀ e ∈ B.metadata, e.wfb (metaDump B.metadata).length = true)
    (hsize : 40 + (metaDump B.metadata).length
        + (B.pages.map (fun q => 5 + (pageFrag q).length)).sum
        + ((B.pages.map pageKv).flatten).length < 2 ^ 32) :
    ∃ out bk,
      dumpV1 ⟨[], 0⟩ B = .ok out ∧
      loadV1 out.data 0 = .ok bk ∧
      bk.numPages = B.pages.length ∧
      bookMetadata bk = .ok B.metadata ∧
      List.Perm (pagesList bk.streamBytes bk.reader bk.pageIndex).1
        (B.pages.map fun q => .ok { q with content := some (pageContent q) }) ∧
      (bk.pageIndex.map Prod.fst).Pairwise (· < ·) ∧
      List.Forall₂ (fun (kv : Nat × IndexEntry) res => ∃ q, res = .ok q ∧ q.id = kv.1)
        bk.pageIndex (pagesList bk.streamBytes bk.reader bk.pageIndex).1 := by
  obtain ⟨Bmeta, Bpages⟩ := B
  simp only at hne hn hid hparent hnodup hutf hmeta hsize ⊢
  obtain ⟨p, rest, rfl⟩ := List.exists_cons_of_ne_nil hne
  -- abbreviations
  set PH : List Nat :=
    be32 (p :: rest).length ++ be32 U32MAX ++ be32 U32MAX ++ be32 U32MAX with hPH
  set S0 : List Nat := (MAGIC ++ PH) ++ metaDump Bmeta with hS0
  have hPHlen : PH.length = 16 := by simp [hPH, be32]
  have hMAGIClen : (MAGIC : List Nat).length = 8 := rfl
  have hS0len : S0.length = 24 + (metaDump Bmeta).length := by
    rw [hS0]
    simp only [List.length_append, hPHlen, hMAGIClen]
    try omega
  -- size bounds
  have hsum : ((p :: rest).map (fun q => 5 + (pageFrag q).length)).sum
      = 5 + (pageFrag p).length + (rest.map (fun q => 5 + (pageFrag q).length)).sum := by
    simp
  have hlay := layoutLoop_length_le rest S0 (pageFrag p)
  have hstream : (layoutLoop rest S0 (pageFrag p)).1.length
      + (5 + (layoutLoop rest S0 (pageFrag p)).2.1.length) < 2 ^ 32 := by
    omega
  have hbuf : (((p :: rest).map pageKv).flatten).length < 2 ^ 32 := by
    omega
  -- the dump
  have hw1 : writeBytes (⟨[], 0⟩ : OutStream) MAGIC = ⟨MAGIC, 8⟩ := by
    rw [writeBytes_append _ _ rfl]
    rfl
  have hw2 : writeBytes (⟨MAGIC, 8⟩ : OutStream) PH = ⟨MAGIC ++ PH, 24⟩ := by
    rw [writeBytes_append _ _ rfl]
    have h8 : (8 : Nat) + PH.length = 24 := by omega
    rw [h8]
  have hw3 : writeBytes (⟨MAGIC ++ PH, 24⟩ : OutStream) (metaDump Bmeta)
      = ⟨S0, S0.length⟩ := by
    have h24 : (⟨MAGIC ++ PH, 24⟩ : OutStream).pos = (MAGIC ++ PH).length := by
      simp [MAGIC, hPHlen]
    rw [writeBytes_append _ _ h24, hS0]
    congr 1 <;> simp [hPHlen, hMAGIClen] <;> omega
  have hPP32 : ((layoutLoop rest S0 (pageFrag p)).1
      ++ renderBlock (layoutLoop rest S0 (pageFrag p)).2.1
      ++ renderBlock (((p :: rest).map pageKv).flatten)).length < 2 ^ 32 := by
    simp only [List.length_append, renderBlock_length]
    omega
  obtain ⟨ext, junk, hWsplit⟩ := layoutLoop_active_block rest S0 (pageFrag p)
  have hreplen : (be32 (p :: rest).length ++ be32 24 ++ be32 ((layoutLoop rest S0 (pageFrag p)).1 ++ renderBlock (layoutLoop rest S0 (pageFrag p)).2.1 ++ renderBlock (((p :: rest).map pageKv).flatten)).length ++ be32 U32MAX : List Nat).length = PH.length := by
    simp [be32, hPHlen]
  have hgroup : (layoutLoop rest S0 (pageFrag p)).1 ++ renderBlock (layoutLoop rest S0 (pageFrag p)).2.1 ++ renderBlock (((p :: rest).map pageKv).flatten) ++ ((zipEntriesM ((layoutLoop rest S0 (pageFrag p)).1 ++ renderBlock (layoutLoop rest S0 (pageFrag p)).2.1).length (p :: rest) ((S0.length, 0) :: (layoutLoop rest S0 (pageFrag p)).2.2) 0).map IndexEntry.writeBytes).flatten
      = MAGIC ++ (PH ++ (metaDump Bmeta ++ ((renderBlock (pageFrag p ++ ext) ++ junk) ++ (renderBlock (((p :: rest).map pageKv).flatten) ++ ((zipEntriesM ((layoutLoop rest S0 (pageFrag p)).1 ++ renderBlock (layoutLoop rest S0 (pageFrag p)).2.1).length (p :: rest) ((S0.length, 0) :: (layoutLoop rest S0 (pageFrag p)).2.2) 0).map IndexEntry.writeBytes).flatten)))) := by
    rw [hWsplit, hS0]
    simp [List.append_assoc]
  have hpatch : ∀ pos0 : Nat,
      writeBytes (seekTo ⟨(layoutLoop rest S0 (pageFrag p)).1 ++ renderBlock (layoutLoop rest S0 (pageFrag p)).2.1 ++ renderBlock (((p :: rest).map pageKv).flatten) ++ ((zipEntriesM ((layoutLoop rest S0 (pageFrag p)).1 ++ renderBlock (layoutLoop rest S0 (pageFrag p)).2.1).length (p :: rest) ((S0.length, 0) :: (layoutLoop rest S0 (pageFrag p)).2.2) 0).map IndexEntry.writeBytes).flatten, pos0⟩ (0 + 8)) (be32 (p :: rest).length ++ be32 24 ++ be32 ((layoutLoop rest S0 (pageFrag p)).1 ++ renderBlock (layoutLoop rest S0 (pageFrag p)).2.1 ++ renderBlock (((p :: rest).map pageKv).flatten)).length ++ be32 U32MAX)
        = ⟨MAGIC ++ ((be32 (p :: rest).length ++ be32 24 ++ be32 ((layoutLoop rest S0 (pageFrag p)).1 ++ renderBlock (layoutLoop rest S0 (pageFrag p)).2.1 ++ renderBlock (((p :: rest).map pageKv).flatten)).length ++ be32 U32MAX) ++ (metaDump Bmeta ++ ((renderBlock (pageFrag p ++ ext) ++ junk) ++ (renderBlock (((p :: rest).map pageKv).flatten) ++ ((zipEntriesM ((layoutLoop rest S0 (pageFrag p)).1 ++ renderBlock (layoutLoop rest S0 (pageFrag p)).2.1).length (p :: rest) ((S0.length, 0) :: (layoutLoop rest S0 (pageFrag p)).2.2) 0).map IndexEntry.writeBytes).flatten)))), 24⟩ := by
    intro pos0
    rw [hgroup]
    have hp := writeBytes_patch MAGIC PH (metaDump Bmeta ++ ((renderBlock (pageFrag p ++ ext) ++ junk) ++ (renderBlock (((p :: rest).map pageKv).flatten) ++ ((zipEntriesM ((layoutLoop rest S0 (pageFrag p)).1 ++ renderBlock (layoutLoop rest S0 (pageFrag p)).2.1).length (p :: rest) ((S0.length, 0) :: (layoutLoop rest S0 (pageFrag p)).2.2) 0).map IndexEntry.writeBytes).flatten))) (be32 (p :: rest).length ++ be32 24 ++ be32 ((layoutLoop rest S0 (pageFrag p)).1 ++ renderBlock (layoutLoop rest S0 (pageFrag p)).2.1 ++ renderBlock (((p :: rest).map pageKv).flatten)).length ++ be32 U32MAX) pos0 hreplen
    have h08 : (0 : Nat) + 8 = (MAGIC : List Nat).length := by rw [hMAGIClen]
    rw [h08, hp]
    congr 1
  have hdump : dumpV1 ⟨[], 0⟩ ⟨Bmeta, p :: rest⟩
      = .ok ⟨MAGIC ++ ((be32 (p :: rest).length ++ be32 24 ++ be32 ((layoutLoop rest S0 (pageFrag p)).1 ++ renderBlock (layoutLoop rest S0 (pageFrag p)).2.1 ++ renderBlock (((p :: rest).map pageKv).flatten)).length ++ be32 U32MAX) ++ (metaDump Bmeta ++ ((renderBlock (pageFrag p ++ ext) ++ junk) ++ (renderBlock (((p :: rest).map pageKv).flatten) ++ ((zipEntriesM ((layoutLoop rest S0 (pageFrag p)).1 ++ renderBlock (layoutLoop rest S0 (pageFrag p)).2.1).length (p :: rest) ((S0.length, 0) :: (layoutLoop rest S0 (pageFrag p)).2.2) 0).map IndexEntry.writeBytes).flatten)))), 24⟩ := by
    simp only [dumpV1]
    rw [if_pos hn, hw1, hw2]
    simp only [Nat.sub_zero]
    rw [if_pos (by norm_num : (24 : Nat) < 2 ^ 32), hw3,
      dumpPages_eq_layout S0 p rest hstream hbuf]
    simp only [Nat.sub_zero]
    rw [if_pos hPP32]
    rw [hpatch]
  -- shape of the final stream seen by the loader
  have hWlenTX : ((layoutLoop rest S0 (pageFrag p)).1 ++ renderBlock (layoutLoop rest S0 (pageFrag p)).2.1).length = S0.length + ((renderBlock (pageFrag p ++ ext) ++ junk)).length := by
    rw [hWsplit]
    simp
  have hWlen32 : ((layoutLoop rest S0 (pageFrag p)).1 ++ renderBlock (layoutLoop rest S0 (pageFrag p)).2.1).length < 2 ^ 32 := by
    simp only [List.length_append, renderBlock_length]
    omega
  have hREP16 : (be32 (p :: rest).length ++ be32 24 ++ be32 ((layoutLoop rest S0 (pageFrag p)).1 ++ renderBlock (layoutLoop rest S0 (pageFrag p)).2.1 ++ renderBlock (((p :: rest).map pageKv).flatten)).length ++ be32 U32MAX : List Nat).length = 16 := by
    simp [be32]
  have hA2 : (MAGIC ++ ((be32 (p :: rest).length ++ be32 24 ++ be32 ((layoutLoop rest S0 (pageFrag p)).1 ++ renderBlock (layoutLoop rest S0 (pageFrag p)).2.1 ++ renderBlock (((p :: rest).map pageKv).flatten)).length ++ be32 U32MAX) ++ (metaDump Bmeta ++ ((renderBlock (pageFrag p ++ ext) ++ junk) ++ (renderBlock (((p :: rest).map pageKv).flatten) ++ ((zipEntriesM ((layoutLoop rest S0 (pageFrag p)).1 ++ renderBlock (layoutLoop rest S0 (pageFrag p)).2.1).length (p :: rest) ((S0.length, 0) :: (layoutLoop rest S0 (pageFrag p)).2.2) 0).map IndexEntry.writeBytes).flatten)))) : List Nat)
      = ((MAGIC ++ (be32 (p :: rest).length ++ be32 24 ++ be32 ((layoutLoop rest S0 (pageFrag p)).1 ++ renderBlock (layoutLoop rest S0 (pageFrag p)).2.1 ++ renderBlock (((p :: rest).map pageKv).flatten)).length ++ be32 U32MAX)) ++ (metaDump Bmeta ++ (renderBlock (pageFrag p ++ ext) ++ junk))) ++ (renderBlock (((p :: rest).map pageKv).flatten) ++ ((zipEntriesM ((layoutLoop rest S0 (pageFrag p)).1 ++ renderBlock (layoutLoop rest S0 (pageFrag p)).2.1).length (p :: rest) ((S0.length, 0) :: (layoutLoop rest S0 (pageFrag p)).2.2) 0).map IndexEntry.writeBytes).flatten) := by
    simp [List.append_assoc]
  have hBWlen : (((MAGIC ++ (be32 (p :: rest).length ++ be32 24 ++ be32 ((layoutLoop rest S0 (pageFrag p)).1 ++ renderBlock (layoutLoop rest S0 (pageFrag p)).2.1 ++ renderBlock (((p :: rest).map pageKv).flatten)).length ++ be32 U32MAX)) ++ (metaDump Bmeta ++ (renderBlock (pageFrag p ++ ext) ++ junk))) : List Nat).length = ((layoutLoop rest S0 (pageFrag p)).1 ++ renderBlock (layoutLoop rest S0 (pageFrag p)).2.1).length := by
    rw [hWsplit, hS0]
    simp only [List.length_append, hMAGIClen, be32_length, hPHlen, renderBlock_length]
    omega
  have hA3 : (MAGIC ++ ((be32 (p :: rest).length ++ be32 24 ++ be32 ((layoutLoop rest S0 (pageFrag p)).1 ++ renderBlock (layoutLoop rest S0 (pageFrag p)).2.1 ++ renderBlock (((p :: rest).map pageKv).flatten)).length ++ be32 U32MAX) ++ (metaDump Bmeta ++ ((renderBlock (pageFrag p ++ ext) ++ junk) ++ (renderBlock (((p :: rest).map pageKv).flatten) ++ ((zipEntriesM ((layoutLoop rest S0 (pageFrag p)).1 ++ renderBlock (layoutLoop rest S0 (pageFrag p)).2.1).length (p :: rest) ((S0.length, 0) :: (layoutLoop rest S0 (pageFrag p)).2.2) 0).map IndexEntry.writeBytes).flatten)))) : List Nat) = (((MAGIC ++ (be32 (p :: rest).length ++ be32 24 ++ be32 ((layoutLoop rest S0 (pageFrag p)).1 ++ renderBlock (layoutLoop rest S0 (pageFrag p)).2.1 ++ renderBlock (((p :: rest).map pageKv).flatten)).length ++ be32 U32MAX)) ++ (metaDump Bmeta ++ ((renderBlock (pageFrag p ++ ext) ++ junk) ++ renderBlock (((p :: rest).map pageKv).flatten))))) ++ ((zipEntriesM ((layoutLoop rest S0 (pageFrag p)).1 ++ renderBlock (layoutLoop rest S0 (pageFrag p)).2.1).length (p :: rest) ((S0.length, 0) :: (layoutLoop rest S0 (pageFrag p)).2.2) 0).map IndexEntry.writeBytes).flatten := by
    simp [List.append_assoc]
  have hBPlen : ((((MAGIC ++ (be32 (p :: rest).length ++ be32 24 ++ be32 ((layoutLoop rest S0 (pageFrag p)).1 ++ renderBlock (layoutLoop rest S0 (pageFrag p)).2.1 ++ renderBlock (((p :: rest).map pageKv).flatten)).length ++ be32 U32MAX)) ++ (metaDump Bmeta ++ ((renderBlock (pageFrag p ++ ext) ++ junk) ++ renderBlock (((p :: rest).map pageKv).flatten))))) : List Nat).length
      = ((layoutLoop rest S0 (pageFrag p)).1 ++ renderBlock (layoutLoop rest S0 (pageFrag p)).2.1 ++ renderBlock (((p :: rest).map pageKv).flatten)).length := by
    rw [hWsplit, hS0]
    simp only [List.length_append, hMAGIClen, be32_length, hPHlen, renderBlock_length]
    omega
  have hdropW : (MAGIC ++ ((be32 (p :: rest).length ++ be32 24 ++ be32 ((layoutLoop rest S0 (pageFrag p)).1 ++ renderBlock (layoutLoop rest S0 (pageFrag p)).2.1 ++ renderBlock (((p :: rest).map pageKv).flatten)).length ++ be32 U32MAX) ++ (metaDump Bmeta ++ ((renderBlock (pageFrag p ++ ext) ++ junk) ++ (renderBlock (((p :: rest).map pageKv).flatten) ++ ((zipEntriesM ((layoutLoop rest S0 (pageFrag p)).1 ++ renderBlock (layoutLoop rest S0 (pageFrag p)).2.1).length (p :: rest) ((S0.length, 0) :: (layoutLoop rest S0 (pageFrag p)).2.2) 0).map IndexEntry.writeBytes).flatten)))) : List Nat).drop (((layoutLoop rest S0 (pageFrag p)).1 ++ renderBlock (layoutLoop rest S0 (pageFrag p)).2.1).length)
      = renderBlock (((p :: rest).map pageKv).flatten) ++ ((zipEntriesM ((layoutLoop rest S0 (pageFrag p)).1 ++ renderBlock (layoutLoop rest S0 (pageFrag p)).2.1).length (p :: rest) ((S0.length, 0) :: (layoutLoop rest S0 (pageFrag p)).2.2) 0).map IndexEntry.writeBytes).flatten := by
    rw [hA2, ← hBWlen, List.drop_left]
  have hdropPP : (MAGIC ++ ((be32 (p :: rest).length ++ be32 24 ++ be32 ((layoutLoop rest S0 (pageFrag p)).1 ++ renderBlock (layoutLoop rest S0 (pageFrag p)).2.1 ++ renderBlock (((p :: rest).map pageKv).flatten)).length ++ be32 U32MAX) ++ (metaDump Bmeta ++ ((renderBlock (pageFrag p ++ ext) ++ junk) ++ (renderBlock (((p :: rest).map pageKv).flatten) ++ ((zipEntriesM ((layoutLoop rest S0 (pageFrag p)).1 ++ renderBlock (layoutLoop rest S0 (pageFrag p)).2.1).length (p :: rest) ((S0.length, 0) :: (layoutLoop rest S0 (pageFrag p)).2.2) 0).map IndexEntry.writeBytes).flatten)))) : List Nat).drop (((layoutLoop rest S0 (pageFrag p)).1 ++ renderBlock (layoutLoop rest S0 (pageFrag p)).2.1 ++ renderBlock (((p :: rest).map pageKv).flatten)).length)
      = ((zipEntriesM ((layoutLoop rest S0 (pageFrag p)).1 ++ renderBlock (layoutLoop rest S0 (pageFrag p)).2.1).length (p :: rest) ((S0.length, 0) :: (layoutLoop rest S0 (pageFrag p)).2.2) 0).map IndexEntry.writeBytes).flatten := by
    rw [hA3, drop_append_ge _ _ _ (le_of_eq hBPlen), hBPlen, Nat.sub_self, List.drop_zero]
  have hmetaRead : readBlockRaw (MAGIC ++ ((be32 (p :: rest).length ++ be32 24 ++ be32 ((layoutLoop rest S0 (pageFrag p)).1 ++ renderBlock (layoutLoop rest S0 (pageFrag p)).2.1 ++ renderBlock (((p :: rest).map pageKv).flatten)).length ++ be32 U32MAX) ++ (metaDump Bmeta ++ ((renderBlock (pageFrag p ++ ext) ++ junk) ++ (renderBlock (((p :: rest).map pageKv).flatten) ++ ((zipEntriesM ((layoutLoop rest S0 (pageFrag p)).1 ++ renderBlock (layoutLoop rest S0 (pageFrag p)).2.1).length (p :: rest) ((S0.length, 0) :: (layoutLoop rest S0 (pageFrag p)).2.2) 0).map IndexEntry.writeBytes).flatten))))) (MAGIC ++ ((be32 (p :: rest).length ++ be32 24 ++ be32 ((layoutLoop rest S0 (pageFrag p)).1 ++ renderBlock (layoutLoop rest S0 (pageFrag p)).2.1 ++ renderBlock (((p :: rest).map pageKv).flatten)).length ++ be32 U32MAX) ++ (metaDump Bmeta ++ ((renderBlock (pageFrag p ++ ext) ++ junk) ++ (renderBlock (((p :: rest).map pageKv).flatten) ++ ((zipEntriesM ((layoutLoop rest S0 (pageFrag p)).1 ++ renderBlock (layoutLoop rest S0 (pageFrag p)).2.1).length (p :: rest) ((S0.length, 0) :: (layoutLoop rest S0 (pageFrag p)).2.2) 0).map IndexEntry.writeBytes).flatten)))) : List Nat).length
      (((layoutLoop rest S0 (pageFrag p)).1 ++ renderBlock (layoutLoop rest S0 (pageFrag p)).2.1).length) 0 = .ok (((p :: rest).map pageKv).flatten) :=
    readBlockRaw_render _ _ _ _ hdropW hbuf
  -- the recorded fragments and index entries
  have hfaFrag : List.Forall₂ (fun q loc => S0.length ≤ loc.1
        ∧ FragAt ((layoutLoop rest S0 (pageFrag p)).1 ++ renderBlock (layoutLoop rest S0 (pageFrag p)).2.1) q loc)
      (p :: rest) ((S0.length, 0) :: (layoutLoop rest S0 (pageFrag p)).2.2) := by
    refine List.Forall₂.cons ⟨le_refl _, ?_⟩ (layoutLoop_fragments rest S0 (pageFrag p))
    exact ⟨S0, pageFrag p ++ ext, junk, ext, hWsplit, rfl, by simp, by simp⟩
  have hfaEnt := entries_spec (((p :: rest).map pageKv).flatten) (((layoutLoop rest S0 (pageFrag p)).1 ++ renderBlock (layoutLoop rest S0 (pageFrag p)).2.1).length)
    (fun q loc => S0.length ≤ loc.1 ∧ FragAt ((layoutLoop rest S0 (pageFrag p)).1 ++ renderBlock (layoutLoop rest S0 (pageFrag p)).2.1) q loc)
    (p :: rest) ((S0.length, 0) :: (layoutLoop rest S0 (pageFrag p)).2.2) 0
    hfaFrag ⟨[], by simp⟩
  have hent := forall2_mem_right hfaEnt
  have hS024 : 24 ≤ S0.length := by omega
  have hZid : ∀ e ∈ zipEntriesM ((layoutLoop rest S0 (pageFrag p)).1 ++ renderBlock (layoutLoop rest S0 (pageFrag p)).2.1).length (p :: rest) ((S0.length, 0) :: (layoutLoop rest S0 (pageFrag p)).2.2) 0, e.id ≠ 0 := by
    intro e he
    obtain ⟨q, hq, hrel⟩ := hent e he
    rw [hrel.1]
    exact (hid q hq).1
  have hZparse : ∀ e ∈ zipEntriesM ((layoutLoop rest S0 (pageFrag p)).1 ++ renderBlock (layoutLoop rest S0 (pageFrag p)).2.1).length (p :: rest) ((S0.length, 0) :: (layoutLoop rest S0 (pageFrag p)).2.2) 0, parseIndexEntry e.writeBytes = e := by
    intro e he
    obtain ⟨q, hq, h1, h2, h3, ⟨hcbge, hfrag⟩, hmtl, hmoff⟩ := hent e he
    obtain ⟨pre, bl, junk2, tl, hWeq, hpre, hle2, hdropbl⟩ := hfrag
    have hpre2 : pre.length = e.contentBlockId := hpre
    have hle3 : e.contentBlockOffset + (pageFrag q).length ≤ bl.length := hle2
    have hWblk : ((layoutLoop rest S0 (pageFrag p)).1
          ++ renderBlock (layoutLoop rest S0 (pageFrag p)).2.1).length
        = e.contentBlockId + (5 + bl.length + junk2.length) := by
      have hl := congrArg List.length hWeq
      simp only [List.length_append, renderBlock_length] at hl
      rw [hpre2] at hl
      simp only [List.length_append, renderBlock_length]
      omega
    have hWdec : ((layoutLoop rest S0 (pageFrag p)).1
          ++ renderBlock (layoutLoop rest S0 (pageFrag p)).2.1).length
        = (layoutLoop rest S0 (pageFrag p)).1.length
          + (5 + (layoutLoop rest S0 (pageFrag p)).2.1.length) := by
      simp only [List.length_append, renderBlock_length]
    refine parseIndexEntry_writeBytes e ?_ ?_ ?_ ?_ ?_ ?_
    · rw [h1]
      exact (hid q hq).2
    · rw [h2]
      exact (hparent q hq).2
    · rw [h3]
      exact hWlen32
    · omega
    · omega
    · omega
  have hZids : (zipEntriesM ((layoutLoop rest S0 (pageFrag p)).1 ++ renderBlock (layoutLoop rest S0 (pageFrag p)).2.1).length (p :: rest) ((S0.length, 0) :: (layoutLoop rest S0 (pageFrag p)).2.2) 0).map IndexEntry.id = (p :: rest).map Page.id :=
    forall2_map_eq Page.id IndexEntry.id (List.Forall₂.imp (fun a b hrel => hrel.1) hfaEnt)
  have hZnodup : (([] : List (Nat × IndexEntry)).map Prod.fst
      ++ (zipEntriesM ((layoutLoop rest S0 (pageFrag p)).1 ++ renderBlock (layoutLoop rest S0 (pageFrag p)).2.1).length (p :: rest) ((S0.length, 0) :: (layoutLoop rest S0 (pageFrag p)).2.2) 0).map IndexEntry.id).Nodup := by
    rw [List.map_nil, List.nil_append, hZids]
    exact hnodup
  have hZlen : (zipEntriesM ((layoutLoop rest S0 (pageFrag p)).1 ++ renderBlock (layoutLoop rest S0 (pageFrag p)).2.1).length (p :: rest) ((S0.length, 0) :: (layoutLoop rest S0 (pageFrag p)).2.2) 0).length = (p :: rest).length := by
    refine zipEntriesM_length _ _ _ _ ?_
    simp [layoutLoop_locs_length]
  obtain ⟨mI, hrun, hpermI, hsortI⟩ :=
    indexNewLoop_spec (zipEntriesM ((layoutLoop rest S0 (pageFrag p)).1 ++ renderBlock (layoutLoop rest S0 (pageFrag p)).2.1).length (p :: rest) ((S0.length, 0) :: (layoutLoop rest S0 (pageFrag p)).2.2) 0) [] [] hZid hZparse hZnodup (by simp)
  rw [List.append_nil] at hrun
  rw [hZlen] at hrun
  -- assembling the loader
  have hr8 : readN ((MAGIC ++ ((be32 (p :: rest).length ++ be32 24 ++ be32 ((layoutLoop rest S0 (pageFrag p)).1 ++ renderBlock (layoutLoop rest S0 (pageFrag p)).2.1 ++ renderBlock (((p :: rest).map pageKv).flatten)).length ++ be32 U32MAX) ++ (metaDump Bmeta ++ ((renderBlock (pageFrag p ++ ext) ++ junk) ++ (renderBlock (((p :: rest).map pageKv).flatten) ++ ((zipEntriesM ((layoutLoop rest S0 (pageFrag p)).1 ++ renderBlock (layoutLoop rest S0 (pageFrag p)).2.1).length (p :: rest) ((S0.length, 0) :: (layoutLoop rest S0 (pageFrag p)).2.2) 0).map IndexEntry.writeBytes).flatten)))) : List Nat)) 8
      = some (MAGIC, (be32 (p :: rest).length ++ be32 24 ++ be32 ((layoutLoop rest S0 (pageFrag p)).1 ++ renderBlock (layoutLoop rest S0 (pageFrag p)).2.1 ++ renderBlock (((p :: rest).map pageKv).flatten)).length ++ be32 U32MAX) ++ (metaDump Bmeta ++ ((renderBlock (pageFrag p ++ ext) ++ junk) ++ (renderBlock (((p :: rest).map pageKv).flatten) ++ ((zipEntriesM ((layoutLoop rest S0 (pageFrag p)).1 ++ renderBlock (layoutLoop rest S0 (pageFrag p)).2.1).length (p :: rest) ((S0.length, 0) :: (layoutLoop rest S0 (pageFrag p)).2.2) 0).map IndexEntry.writeBytes).flatten)))) := by
    have h := readN_append MAGIC ((be32 (p :: rest).length ++ be32 24 ++ be32 ((layoutLoop rest S0 (pageFrag p)).1 ++ renderBlock (layoutLoop rest S0 (pageFrag p)).2.1 ++ renderBlock (((p :: rest).map pageKv).flatten)).length ++ be32 U32MAX) ++ (metaDump Bmeta ++ ((renderBlock (pageFrag p ++ ext) ++ junk) ++ (renderBlock (((p :: rest).map pageKv).flatten) ++ ((zipEntriesM ((layoutLoop rest S0 (pageFrag p)).1 ++ renderBlock (layoutLoop rest S0 (pageFrag p)).2.1).length (p :: rest) ((S0.length, 0) :: (layoutLoop rest S0 (pageFrag p)).2.2) 0).map IndexEntry.writeBytes).flatten))))
    rwa [hMAGIClen] at h
  have hd8 : (MAGIC ++ ((be32 (p :: rest).length ++ be32 24 ++ be32 ((layoutLoop rest S0 (pageFrag p)).1 ++ renderBlock (layoutLoop rest S0 (pageFrag p)).2.1 ++ renderBlock (((p :: rest).map pageKv).flatten)).length ++ be32 U32MAX) ++ (metaDump Bmeta ++ ((renderBlock (pageFrag p ++ ext) ++ junk) ++ (renderBlock (((p :: rest).map pageKv).flatten) ++ ((zipEntriesM ((layoutLoop rest S0 (pageFrag p)).1 ++ renderBlock (layoutLoop rest S0 (pageFrag p)).2.1).length (p :: rest) ((S0.length, 0) :: (layoutLoop rest S0 (pageFrag p)).2.2) 0).map IndexEntry.writeBytes).flatten)))) : List Nat).drop 8
      = (be32 (p :: rest).length ++ be32 24 ++ be32 ((layoutLoop rest S0 (pageFrag p)).1 ++ renderBlock (layoutLoop rest S0 (pageFrag p)).2.1 ++ renderBlock (((p :: rest).map pageKv).flatten)).length ++ be32 U32MAX) ++ (metaDump Bmeta ++ ((renderBlock (pageFrag p ++ ext) ++ junk) ++ (renderBlock (((p :: rest).map pageKv).flatten) ++ ((zipEntriesM ((layoutLoop rest S0 (pageFrag p)).1 ++ renderBlock (layoutLoop rest S0 (pageFrag p)).2.1).length (p :: rest) ((S0.length, 0) :: (layoutLoop rest S0 (pageFrag p)).2.2) 0).map IndexEntry.writeBytes).flatten))) := by
    have h := drop_append_ge MAGIC ((be32 (p :: rest).length ++ be32 24 ++ be32 ((layoutLoop rest S0 (pageFrag p)).1 ++ renderBlock (layoutLoop rest S0 (pageFrag p)).2.1 ++ renderBlock (((p :: rest).map pageKv).flatten)).length ++ be32 U32MAX) ++ (metaDump Bmeta ++ ((renderBlock (pageFrag p ++ ext) ++ junk) ++ (renderBlock (((p :: rest).map pageKv).flatten) ++ ((zipEntriesM ((layoutLoop rest S0 (pageFrag p)).1 ++ renderBlock (layoutLoop rest S0 (pageFrag p)).2.1).length (p :: rest) ((S0.length, 0) :: (layoutLoop rest S0 (pageFrag p)).2.2) 0).map IndexEntry.writeBytes).flatten)))) 8
      (by rw [hMAGIClen])
    simpa [hMAGIClen] using h
  have hr16 : readN ((be32 (p :: rest).length ++ be32 24 ++ be32 ((layoutLoop rest S0 (pageFrag p)).1 ++ renderBlock (layoutLoop rest S0 (pageFrag p)).2.1 ++ renderBlock (((p :: rest).map pageKv).flatten)).length ++ be32 U32MAX) ++ (metaDump Bmeta ++ ((renderBlock (pageFrag p ++ ext) ++ junk) ++ (renderBlock (((p :: rest).map pageKv).flatten) ++ ((zipEntriesM ((layoutLoop rest S0 (pageFrag p)).1 ++ renderBlock (layoutLoop rest S0 (pageFrag p)).2.1).length (p :: rest) ((S0.length, 0) :: (layoutLoop rest S0 (pageFrag p)).2.2) 0).map IndexEntry.writeBytes).flatten)))) 16
      = some ((be32 (p :: rest).length ++ be32 24 ++ be32 ((layoutLoop rest S0 (pageFrag p)).1 ++ renderBlock (layoutLoop rest S0 (pageFrag p)).2.1 ++ renderBlock (((p :: rest).map pageKv).flatten)).length ++ be32 U32MAX), (metaDump Bmeta ++ ((renderBlock (pageFrag p ++ ext) ++ junk) ++ (renderBlock (((p :: rest).map pageKv).flatten) ++ ((zipEntriesM ((layoutLoop rest S0 (pageFrag p)).1 ++ renderBlock (layoutLoop rest S0 (pageFrag p)).2.1).length (p :: rest) ((S0.length, 0) :: (layoutLoop rest S0 (pageFrag p)).2.2) 0).map IndexEntry.writeBytes).flatten)))) := by
    have h := readN_append (be32 (p :: rest).length ++ be32 24 ++ be32 ((layoutLoop rest S0 (pageFrag p)).1 ++ renderBlock (layoutLoop rest S0 (pageFrag p)).2.1 ++ renderBlock (((p :: rest).map pageKv).flatten)).length ++ be32 U32MAX) (metaDump Bmeta ++ ((renderBlock (pageFrag p ++ ext) ++ junk) ++ (renderBlock (((p :: rest).map pageKv).flatten) ++ ((zipEntriesM ((layoutLoop rest S0 (pageFrag p)).1 ++ renderBlock (layoutLoop rest S0 (pageFrag p)).2.1).length (p :: rest) ((S0.length, 0) :: (layoutLoop rest S0 (pageFrag p)).2.2) 0).map IndexEntry.writeBytes).flatten)))
    rwa [hREP16] at h
  have hfield1 : fromBe ((be32 (p :: rest).length ++ be32 24 ++ be32 ((layoutLoop rest S0 (pageFrag p)).1 ++ renderBlock (layoutLoop rest S0 (pageFrag p)).2.1 ++ renderBlock (((p :: rest).map pageKv).flatten)).length ++ be32 U32MAX : List Nat).take 4) = (p :: rest).length :=
    fromBe_be32 (p :: rest).length hn
  have hfield2 : fromBe (((be32 (p :: rest).length ++ be32 24 ++ be32 ((layoutLoop rest S0 (pageFrag p)).1 ++ renderBlock (layoutLoop rest S0 (pageFrag p)).2.1 ++ renderBlock (((p :: rest).map pageKv).flatten)).length ++ be32 U32MAX : List Nat).drop 4).take 4) = 24 :=
    fromBe_be32 24 (by norm_num)
  have hfield3 : fromBe (((be32 (p :: rest).length ++ be32 24 ++ be32 ((layoutLoop rest S0 (pageFrag p)).1 ++ renderBlock (layoutLoop rest S0 (pageFrag p)).2.1 ++ renderBlock (((p :: rest).map pageKv).flatten)).length ++ be32 U32MAX : List Nat).drop 8).take 4) = ((layoutLoop rest S0 (pageFrag p)).1 ++ renderBlock (layoutLoop rest S0 (pageFrag p)).2.1 ++ renderBlock (((p :: rest).map pageKv).flatten)).length :=
    fromBe_be32 _ hPP32
  have hload : loadV1 (MAGIC ++ ((be32 (p :: rest).length ++ be32 24 ++ be32 ((layoutLoop rest S0 (pageFrag p)).1 ++ renderBlock (layoutLoop rest S0 (pageFrag p)).2.1 ++ renderBlock (((p :: rest).map pageKv).flatten)).length ++ be32 U32MAX) ++ (metaDump Bmeta ++ ((renderBlock (pageFrag p ++ ext) ++ junk) ++ (renderBlock (((p :: rest).map pageKv).flatten) ++ ((zipEntriesM ((layoutLoop rest S0 (pageFrag p)).1 ++ renderBlock (layoutLoop rest S0 (pageFrag p)).2.1).length (p :: rest) ((S0.length, 0) :: (layoutLoop rest S0 (pageFrag p)).2.2) 0).map IndexEntry.writeBytes).flatten))))) 0
      = .ok ⟨MAGIC ++ ((be32 (p :: rest).length ++ be32 24 ++ be32 ((layoutLoop rest S0 (pageFrag p)).1 ++ renderBlock (layoutLoop rest S0 (pageFrag p)).2.1 ++ renderBlock (((p :: rest).map pageKv).flatten)).length ++ be32 U32MAX) ++ (metaDump Bmeta ++ ((renderBlock (pageFrag p ++ ext) ++ junk) ++ (renderBlock (((p :: rest).map pageKv).flatten) ++ ((zipEntriesM ((layoutLoop rest S0 (pageFrag p)).1 ++ renderBlock (layoutLoop rest S0 (pageFrag p)).2.1).length (p :: rest) ((S0.length, 0) :: (layoutLoop rest S0 (pageFrag p)).2.2) 0).map IndexEntry.writeBytes).flatten)))), ⟨(MAGIC ++ ((be32 (p :: rest).length ++ be32 24 ++ be32 ((layoutLoop rest S0 (pageFrag p)).1 ++ renderBlock (layoutLoop rest S0 (pageFrag p)).2.1 ++ renderBlock (((p :: rest).map pageKv).flatten)).length ++ be32 U32MAX) ++ (metaDump Bmeta ++ ((renderBlock (pageFrag p ++ ext) ++ junk) ++ (renderBlock (((p :: rest).map pageKv).flatten) ++ ((zipEntriesM ((layoutLoop rest S0 (pageFrag p)).1 ++ renderBlock (layoutLoop rest S0 (pageFrag p)).2.1).length (p :: rest) ((S0.length, 0) :: (layoutLoop rest S0 (pageFrag p)).2.2) 0).map IndexEntry.writeBytes).flatten)))) : List Nat).length, []⟩,
          (p :: rest).length, 24, mI⟩ := by
    simp only [loadV1, List.drop_zero, Nat.zero_add, hr8, hd8, hr16, if_pos rfl, if_true,
      hfield1, hfield2, hfield3, indexNew, hdropPP, hrun]
  -- the book metadata read back
  have hMRlen : ((MAGIC ++ (be32 (p :: rest).length ++ be32 24 ++ be32 ((layoutLoop rest S0 (pageFrag p)).1 ++ renderBlock (layoutLoop rest S0 (pageFrag p)).2.1 ++ renderBlock (((p :: rest).map pageKv).flatten)).length ++ be32 U32MAX)) : List Nat).length = 24 := by
    simp [MAGIC, be32]
  have hMPlen : ((MAGIC ++ PH) : List Nat).length = 24 := by
    simp only [List.length_append, hMAGIClen, hPHlen]
  have hWg : (layoutLoop rest S0 (pageFrag p)).1 ++ renderBlock (layoutLoop rest S0 (pageFrag p)).2.1 = (MAGIC ++ PH) ++ (metaDump Bmeta ++ (renderBlock (pageFrag p ++ ext) ++ junk)) := by
    rw [hWsplit, hS0]
    simp [List.append_assoc]
  have hWglen : ((layoutLoop rest S0 (pageFrag p)).1 ++ renderBlock (layoutLoop rest S0 (pageFrag p)).2.1).length = 24 + ((metaDump Bmeta ++ (renderBlock (pageFrag p ++ ext) ++ junk)) : List Nat).length := by
    rw [hWg]
    simp only [List.length_append, hMAGIClen, hPHlen]
  have hgk : (MAGIC ++ ((be32 (p :: rest).length ++ be32 24 ++ be32 ((layoutLoop rest S0 (pageFrag p)).1 ++ renderBlock (layoutLoop rest S0 (pageFrag p)).2.1 ++ renderBlock (((p :: rest).map pageKv).flatten)).length ++ be32 U32MAX) ++ (metaDump Bmeta ++ ((renderBlock (pageFrag p ++ ext) ++ junk) ++ (renderBlock (((p :: rest).map pageKv).flatten) ++ ((zipEntriesM ((layoutLoop rest S0 (pageFrag p)).1 ++ renderBlock (layoutLoop rest S0 (pageFrag p)).2.1).length (p :: rest) ((S0.length, 0) :: (layoutLoop rest S0 (pageFrag p)).2.2) 0).map IndexEntry.writeBytes).flatten)))) : List Nat)
      = (MAGIC ++ (be32 (p :: rest).length ++ be32 24 ++ be32 ((layoutLoop rest S0 (pageFrag p)).1 ++ renderBlock (layoutLoop rest S0 (pageFrag p)).2.1 ++ renderBlock (((p :: rest).map pageKv).flatten)).length ++ be32 U32MAX)) ++ ((metaDump Bmeta ++ (renderBlock (pageFrag p ++ ext) ++ junk)) ++ (renderBlock (((p :: rest).map pageKv).flatten) ++ ((zipEntriesM ((layoutLoop rest S0 (pageFrag p)).1 ++ renderBlock (layoutLoop rest S0 (pageFrag p)).2.1).length (p :: rest) ((S0.length, 0) :: (layoutLoop rest S0 (pageFrag p)).2.2) 0).map IndexEntry.writeBytes).flatten)) := by
    simp [List.append_assoc]
  have hd24 : (MAGIC ++ ((be32 (p :: rest).length ++ be32 24 ++ be32 ((layoutLoop rest S0 (pageFrag p)).1 ++ renderBlock (layoutLoop rest S0 (pageFrag p)).2.1 ++ renderBlock (((p :: rest).map pageKv).flatten)).length ++ be32 U32MAX) ++ (metaDump Bmeta ++ ((renderBlock (pageFrag p ++ ext) ++ junk) ++ (renderBlock (((p :: rest).map pageKv).flatten) ++ ((zipEntriesM ((layoutLoop rest S0 (pageFrag p)).1 ++ renderBlock (layoutLoop rest S0 (pageFrag p)).2.1).length (p :: rest) ((S0.length, 0) :: (layoutLoop rest S0 (pageFrag p)).2.2) 0).map IndexEntry.writeBytes).flatten)))) : List Nat).drop 24
      = metaDump Bmeta ++ ((renderBlock (pageFrag p ++ ext) ++ junk) ++ (renderBlock (((p :: rest).map pageKv).flatten) ++ ((zipEntriesM ((layoutLoop rest S0 (pageFrag p)).1 ++ renderBlock (layoutLoop rest S0 (pageFrag p)).2.1).length (p :: rest) ((S0.length, 0) :: (layoutLoop rest S0 (pageFrag p)).2.2) 0).map IndexEntry.writeBytes).flatten)) := by
    have hgk2 : (MAGIC ++ ((be32 (p :: rest).length ++ be32 24 ++ be32 ((layoutLoop rest S0 (pageFrag p)).1 ++ renderBlock (layoutLoop rest S0 (pageFrag p)).2.1 ++ renderBlock (((p :: rest).map pageKv).flatten)).length ++ be32 U32MAX) ++ (metaDump Bmeta ++ ((renderBlock (pageFrag p ++ ext) ++ junk) ++ (renderBlock (((p :: rest).map pageKv).flatten) ++ ((zipEntriesM ((layoutLoop rest S0 (pageFrag p)).1 ++ renderBlock (layoutLoop rest S0 (pageFrag p)).2.1).length (p :: rest) ((S0.length, 0) :: (layoutLoop rest S0 (pageFrag p)).2.2) 0).map IndexEntry.writeBytes).flatten)))) : List Nat)
        = (MAGIC ++ (be32 (p :: rest).length ++ be32 24 ++ be32 ((layoutLoop rest S0 (pageFrag p)).1 ++ renderBlock (layoutLoop rest S0 (pageFrag p)).2.1 ++ renderBlock (((p :: rest).map pageKv).flatten)).length ++ be32 U32MAX)) ++ (metaDump Bmeta ++ ((renderBlock (pageFrag p ++ ext) ++ junk) ++ (renderBlock (((p :: rest).map pageKv).flatten) ++ ((zipEntriesM ((layoutLoop rest S0 (pageFrag p)).1 ++ renderBlock (layoutLoop rest S0 (pageFrag p)).2.1).length (p :: rest) ((S0.length, 0) :: (layoutLoop rest S0 (pageFrag p)).2.2) 0).map IndexEntry.writeBytes).flatten))) := by
      simp [List.append_assoc]
    rw [hgk2, drop_append_ge _ _ 24 (le_of_eq hMRlen), hMRlen, Nat.sub_self, List.drop_zero]
  have hmd1 : Bmeta.length < (metaDump Bmeta).length := metaDump_length_gt Bmeta
  have hmdD : (metaDump Bmeta).length ≤ (MAGIC ++ ((be32 (p :: rest).length ++ be32 24 ++ be32 ((layoutLoop rest S0 (pageFrag p)).1 ++ renderBlock (layoutLoop rest S0 (pageFrag p)).2.1 ++ renderBlock (((p :: rest).map pageKv).flatten)).length ++ be32 U32MAX) ++ (metaDump Bmeta ++ ((renderBlock (pageFrag p ++ ext) ++ junk) ++ (renderBlock (((p :: rest).map pageKv).flatten) ++ ((zipEntriesM ((layoutLoop rest S0 (pageFrag p)).1 ++ renderBlock (layoutLoop rest S0 (pageFrag p)).2.1).length (p :: rest) ((S0.length, 0) :: (layoutLoop rest S0 (pageFrag p)).2.2) 0).map IndexEntry.writeBytes).flatten)))) : List Nat).length := by
    simp only [List.length_append]
    omega
  have hfuelM : Bmeta.length < (MAGIC ++ ((be32 (p :: rest).length ++ be32 24 ++ be32 ((layoutLoop rest S0 (pageFrag p)).1 ++ renderBlock (layoutLoop rest S0 (pageFrag p)).2.1 ++ renderBlock (((p :: rest).map pageKv).flatten)).length ++ be32 U32MAX) ++ (metaDump Bmeta ++ ((renderBlock (pageFrag p ++ ext) ++ junk) ++ (renderBlock (((p :: rest).map pageKv).flatten) ++ ((zipEntriesM ((layoutLoop rest S0 (pageFrag p)).1 ++ renderBlock (layoutLoop rest S0 (pageFrag p)).2.1).length (p :: rest) ((S0.length, 0) :: (layoutLoop rest S0 (pageFrag p)).2.2) 0).map IndexEntry.writeBytes).flatten)))) : List Nat).length + 1 := by omega
  have hwfM : ∀ e ∈ Bmeta, e.wfb (MAGIC ++ ((be32 (p :: rest).length ++ be32 24 ++ be32 ((layoutLoop rest S0 (pageFrag p)).1 ++ renderBlock (layoutLoop rest S0 (pageFrag p)).2.1 ++ renderBlock (((p :: rest).map pageKv).flatten)).length ++ be32 U32MAX) ++ (metaDump Bmeta ++ ((renderBlock (pageFrag p ++ ext) ++ junk) ++ (renderBlock (((p :: rest).map pageKv).flatten) ++ ((zipEntriesM ((layoutLoop rest S0 (pageFrag p)).1 ++ renderBlock (layoutLoop rest S0 (pageFrag p)).2.1).length (p :: rest) ((S0.length, 0) :: (layoutLoop rest S0 (pageFrag p)).2.2) 0).map IndexEntry.writeBytes).flatten)))) : List Nat).length = true :=
    fun e he => wfb_mono e _ _ hmdD (hmeta e he)
  have hbm : bookMetadata ⟨MAGIC ++ ((be32 (p :: rest).length ++ be32 24 ++ be32 ((layoutLoop rest S0 (pageFrag p)).1 ++ renderBlock (layoutLoop rest S0 (pageFrag p)).2.1 ++ renderBlock (((p :: rest).map pageKv).flatten)).length ++ be32 U32MAX) ++ (metaDump Bmeta ++ ((renderBlock (pageFrag p ++ ext) ++ junk) ++ (renderBlock (((p :: rest).map pageKv).flatten) ++ ((zipEntriesM ((layoutLoop rest S0 (pageFrag p)).1 ++ renderBlock (layoutLoop rest S0 (pageFrag p)).2.1).length (p :: rest) ((S0.length, 0) :: (layoutLoop rest S0 (pageFrag p)).2.2) 0).map IndexEntry.writeBytes).flatten)))), ⟨(MAGIC ++ ((be32 (p :: rest).length ++ be32 24 ++ be32 ((layoutLoop rest S0 (pageFrag p)).1 ++ renderBlock (layoutLoop rest S0 (pageFrag p)).2.1 ++ renderBlock (((p :: rest).map pageKv).flatten)).length ++ be32 U32MAX) ++ (metaDump Bmeta ++ ((renderBlock (pageFrag p ++ ext) ++ junk) ++ (renderBlock (((p :: rest).map pageKv).flatten) ++ ((zipEntriesM ((layoutLoop rest S0 (pageFrag p)).1 ++ renderBlock (layoutLoop rest S0 (pageFrag p)).2.1).length (p :: rest) ((S0.length, 0) :: (layoutLoop rest S0 (pageFrag p)).2.2) 0).map IndexEntry.writeBytes).flatten)))) : List Nat).length, []⟩,
      (p :: rest).length, 24, mI⟩ = .ok Bmeta := by
    simp only [bookMetadata]
    rw [hd24]
    exact metaRun_dump Bmeta _ _ _ hfuelM hwfM
  -- the loaded pages
  have hok0 : CacheOK (MAGIC ++ ((be32 (p :: rest).length ++ be32 24 ++ be32 ((layoutLoop rest S0 (pageFrag p)).1 ++ renderBlock (layoutLoop rest S0 (pageFrag p)).2.1 ++ renderBlock (((p :: rest).map pageKv).flatten)).length ++ be32 U32MAX) ++ (metaDump Bmeta ++ ((renderBlock (pageFrag p ++ ext) ++ junk) ++ (renderBlock (((p :: rest).map pageKv).flatten) ++ ((zipEntriesM ((layoutLoop rest S0 (pageFrag p)).1 ++ renderBlock (layoutLoop rest S0 (pageFrag p)).2.1).length (p :: rest) ((S0.length, 0) :: (layoutLoop rest S0 (pageFrag p)).2.2) 0).map IndexEntry.writeBytes).flatten))))) ⟨(MAGIC ++ ((be32 (p :: rest).length ++ be32 24 ++ be32 ((layoutLoop rest S0 (pageFrag p)).1 ++ renderBlock (layoutLoop rest S0 (pageFrag p)).2.1 ++ renderBlock (((p :: rest).map pageKv).flatten)).length ++ be32 U32MAX) ++ (metaDump Bmeta ++ ((renderBlock (pageFrag p ++ ext) ++ junk) ++ (renderBlock (((p :: rest).map pageKv).flatten) ++ ((zipEntriesM ((layoutLoop rest S0 (pageFrag p)).1 ++ renderBlock (layoutLoop rest S0 (pageFrag p)).2.1).length (p :: rest) ((S0.length, 0) :: (layoutLoop rest S0 (pageFrag p)).2.2) 0).map IndexEntry.writeBytes).flatten)))) : List Nat).length, []⟩ :=
    ⟨rfl, fun kv hkv => absurd hkv (List.not_mem_nil kv)⟩
  have hcore : ∀ q ∈ p :: rest, ∀ e ∈ zipEntriesM ((layoutLoop rest S0 (pageFrag p)).1 ++ renderBlock (layoutLoop rest S0 (pageFrag p)).2.1).length (p :: rest) ((S0.length, 0) :: (layoutLoop rest S0 (pageFrag p)).2.2) 0,
      (e.id = q.id ∧ e.parentId = q.parentId.getD 0
        ∧ e.metadataBlockId = ((layoutLoop rest S0 (pageFrag p)).1 ++ renderBlock (layoutLoop rest S0 (pageFrag p)).2.1).length
        ∧ (S0.length ≤ e.contentBlockId
            ∧ FragAt ((layoutLoop rest S0 (pageFrag p)).1 ++ renderBlock (layoutLoop rest S0 (pageFrag p)).2.1) q (e.contentBlockId, e.contentBlockOffset))
        ∧ (∃ tl, ((((p :: rest).map pageKv).flatten) : List Nat).drop e.metadataBlockOffset = pageKv q ++ tl)
        ∧ e.metadataBlockOffset ≤ ((((p :: rest).map pageKv).flatten) : List Nat).length) →
      ∀ r', CacheOK (MAGIC ++ ((be32 (p :: rest).length ++ be32 24 ++ be32 ((layoutLoop rest S0 (pageFrag p)).1 ++ renderBlock (layoutLoop rest S0 (pageFrag p)).2.1 ++ renderBlock (((p :: rest).map pageKv).flatten)).length ++ be32 U32MAX) ++ (metaDump Bmeta ++ ((renderBlock (pageFrag p ++ ext) ++ junk) ++ (renderBlock (((p :: rest).map pageKv).flatten) ++ ((zipEntriesM ((layoutLoop rest S0 (pageFrag p)).1 ++ renderBlock (layoutLoop rest S0 (pageFrag p)).2.1).length (p :: rest) ((S0.length, 0) :: (layoutLoop rest S0 (pageFrag p)).2.2) 0).map IndexEntry.writeBytes).flatten))))) r' →
        (buildPage (MAGIC ++ ((be32 (p :: rest).length ++ be32 24 ++ be32 ((layoutLoop rest S0 (pageFrag p)).1 ++ renderBlock (layoutLoop rest S0 (pageFrag p)).2.1 ++ renderBlock (((p :: rest).map pageKv).flatten)).length ++ be32 U32MAX) ++ (metaDump Bmeta ++ ((renderBlock (pageFrag p ++ ext) ++ junk) ++ (renderBlock (((p :: rest).map pageKv).flatten) ++ ((zipEntriesM ((layoutLoop rest S0 (pageFrag p)).1 ++ renderBlock (layoutLoop rest S0 (pageFrag p)).2.1).length (p :: rest) ((S0.length, 0) :: (layoutLoop rest S0 (pageFrag p)).2.2) 0).map IndexEntry.writeBytes).flatten))))) r' e).1 = .ok { q with content := some (pageContent q) }
          ∧ CacheOK (MAGIC ++ ((be32 (p :: rest).length ++ be32 24 ++ be32 ((layoutLoop rest S0 (pageFrag p)).1 ++ renderBlock (layoutLoop rest S0 (pageFrag p)).2.1 ++ renderBlock (((p :: rest).map pageKv).flatten)).length ++ be32 U32MAX) ++ (metaDump Bmeta ++ ((renderBlock (pageFrag p ++ ext) ++ junk) ++ (renderBlock (((p :: rest).map pageKv).flatten) ++ ((zipEntriesM ((layoutLoop rest S0 (pageFrag p)).1 ++ renderBlock (layoutLoop rest S0 (pageFrag p)).2.1).length (p :: rest) ((S0.length, 0) :: (layoutLoop rest S0 (pageFrag p)).2.2) 0).map IndexEntry.writeBytes).flatten))))) (buildPage (MAGIC ++ ((be32 (p :: rest).length ++ be32 24 ++ be32 ((layoutLoop rest S0 (pageFrag p)).1 ++ renderBlock (layoutLoop rest S0 (pageFrag p)).2.1 ++ renderBlock (((p :: rest).map pageKv).flatten)).length ++ be32 U32MAX) ++ (metaDump Bmeta ++ ((renderBlock (pageFrag p ++ ext) ++ junk) ++ (renderBlock (((p :: rest).map pageKv).flatten) ++ ((zipEntriesM ((layoutLoop rest S0 (pageFrag p)).1 ++ renderBlock (layoutLoop rest S0 (pageFrag p)).2.1).length (p :: rest) ((S0.length, 0) :: (layoutLoop rest S0 (pageFrag p)).2.2) 0).map IndexEntry.writeBytes).flatten))))) r' e).2 := by
    intro q hq e he hrel r' hok2
    obtain ⟨h1, h2, h3, ⟨hcbge, hfrag⟩, hmtl, hmoff⟩ := hrel
    obtain ⟨pre, bl, junk2, tl, hWeq, hpre, hle2, hdropbl⟩ := hfrag
    have hpre2 : pre.length = e.contentBlockId := hpre
    have hle3 : e.contentBlockOffset + (pageFrag q).length ≤ bl.length := hle2
    have hdropbl2 : bl.drop e.contentBlockOffset = pageFrag q ++ tl := hdropbl
    have hWblk2 : ((layoutLoop rest S0 (pageFrag p)).1 ++ renderBlock (layoutLoop rest S0 (pageFrag p)).2.1).length = e.contentBlockId + (5 + bl.length + junk2.length) := by
      have hl := congrArg List.length hWeq
      simp only [List.length_append, renderBlock_length] at hl
      rw [hpre2] at hl
      simp only [List.length_append, renderBlock_length]
      omega
    have hWdec : ((layoutLoop rest S0 (pageFrag p)).1 ++ renderBlock (layoutLoop rest S0 (pageFrag p)).2.1).length
        = (layoutLoop rest S0 (pageFrag p)).1.length
          + (5 + (layoutLoop rest S0 (pageFrag p)).2.1.length) := by
      simp only [List.length_append, renderBlock_length]
    have hcb24 : 24 ≤ e.contentBlockId := le_trans hS024 hcbge
    have hcbW : e.contentBlockId ≤ ((layoutLoop rest S0 (pageFrag p)).1 ++ renderBlock (layoutLoop rest S0 (pageFrag p)).2.1).length := by omega
    have hWdropcb : ((layoutLoop rest S0 (pageFrag p)).1 ++ renderBlock (layoutLoop rest S0 (pageFrag p)).2.1).drop e.contentBlockId = renderBlock bl ++ junk2 := by
      rw [hWeq, ← hpre2, List.drop_left]
    have h1d : (MAGIC ++ ((be32 (p :: rest).length ++ be32 24 ++ be32 ((layoutLoop rest S0 (pageFrag p)).1 ++ renderBlock (layoutLoop rest S0 (pageFrag p)).2.1 ++ renderBlock (((p :: rest).map pageKv).flatten)).length ++ be32 U32MAX) ++ (metaDump Bmeta ++ ((renderBlock (pageFrag p ++ ext) ++ junk) ++ (renderBlock (((p :: rest).map pageKv).flatten) ++ ((zipEntriesM ((layoutLoop rest S0 (pageFrag p)).1 ++ renderBlock (layoutLoop rest S0 (pageFrag p)).2.1).length (p :: rest) ((S0.length, 0) :: (layoutLoop rest S0 (pageFrag p)).2.2) 0).map IndexEntry.writeBytes).flatten)))) : List Nat).drop e.contentBlockId
        = ((metaDump Bmeta ++ (renderBlock (pageFrag p ++ ext) ++ junk)) ++ (renderBlock (((p :: rest).map pageKv).flatten) ++ ((zipEntriesM ((layoutLoop rest S0 (pageFrag p)).1 ++ renderBlock (layoutLoop rest S0 (pageFrag p)).2.1).length (p :: rest) ((S0.length, 0) :: (layoutLoop rest S0 (pageFrag p)).2.2) 0).map IndexEntry.writeBytes).flatten)).drop
            (e.contentBlockId - 24) := by
      rw [hgk, drop_append_ge _ _ _ (by rw [hMRlen]; exact hcb24), hMRlen]
    have h2d : ((layoutLoop rest S0 (pageFrag p)).1 ++ renderBlock (layoutLoop rest S0 (pageFrag p)).2.1).drop e.contentBlockId
        = ((metaDump Bmeta ++ (renderBlock (pageFrag p ++ ext) ++ junk)) : List Nat).drop (e.contentBlockId - 24) := by
      rw [hWg, drop_append_ge _ _ _ (by rw [hMPlen]; exact hcb24), hMPlen]
    have h3d : ((metaDump Bmeta ++ (renderBlock (pageFrag p ++ ext) ++ junk)) ++ (renderBlock (((p :: rest).map pageKv).flatten) ++ ((zipEntriesM ((layoutLoop rest S0 (pageFrag p)).1 ++ renderBlock (layoutLoop rest S0 (pageFrag p)).2.1).length (p :: rest) ((S0.length, 0) :: (layoutLoop rest S0 (pageFrag p)).2.2) 0).map IndexEntry.writeBytes).flatten)).drop
          (e.contentBlockId - 24)
        = ((metaDump Bmeta ++ (renderBlock (pageFrag p ++ ext) ++ junk)) : List Nat).drop (e.contentBlockId - 24)
          ++ (renderBlock (((p :: rest).map pageKv).flatten) ++ ((zipEntriesM ((layoutLoop rest S0 (pageFrag p)).1 ++ renderBlock (layoutLoop rest S0 (pageFrag p)).2.1).length (p :: rest) ((S0.length, 0) :: (layoutLoop rest S0 (pageFrag p)).2.2) 0).map IndexEntry.writeBytes).flatten) :=
      List.drop_append_of_le_length (by omega)
    have hDPcb : (MAGIC ++ ((be32 (p :: rest).length ++ be32 24 ++ be32 ((layoutLoop rest S0 (pageFrag p)).1 ++ renderBlock (layoutLoop rest S0 (pageFrag p)).2.1 ++ renderBlock (((p :: rest).map pageKv).flatten)).length ++ be32 U32MAX) ++ (metaDump Bmeta ++ ((renderBlock (pageFrag p ++ ext) ++ junk) ++ (renderBlock (((p :: rest).map pageKv).flatten) ++ ((zipEntriesM ((layoutLoop rest S0 (pageFrag p)).1 ++ renderBlock (layoutLoop rest S0 (pageFrag p)).2.1).length (p :: rest) ((S0.length, 0) :: (layoutLoop rest S0 (pageFrag p)).2.2) 0).map IndexEntry.writeBytes).flatten)))) : List Nat).drop e.contentBlockId
        = renderBlock bl ++ (junk2 ++ (renderBlock (((p :: rest).map pageKv).flatten) ++ ((zipEntriesM ((layoutLoop rest S0 (pageFrag p)).1 ++ renderBlock (layoutLoop rest S0 (pageFrag p)).2.1).length (p :: rest) ((S0.length, 0) :: (layoutLoop rest S0 (pageFrag p)).2.2) 0).map IndexEntry.writeBytes).flatten)) := by
      rw [h1d, h3d, ← h2d, hWdropcb, List.append_assoc]
    have hbl32 : bl.length < 2 ^ 32 := by omega
    have hreadC : readBlockRaw (MAGIC ++ ((be32 (p :: rest).length ++ be32 24 ++ be32 ((layoutLoop rest S0 (pageFrag p)).1 ++ renderBlock (layoutLoop rest S0 (pageFrag p)).2.1 ++ renderBlock (((p :: rest).map pageKv).flatten)).length ++ be32 U32MAX) ++ (metaDump Bmeta ++ ((renderBlock (pageFrag p ++ ext) ++ junk) ++ (renderBlock (((p :: rest).map pageKv).flatten) ++ ((zipEntriesM ((layoutLoop rest S0 (pageFrag p)).1 ++ renderBlock (layoutLoop rest S0 (pageFrag p)).2.1).length (p :: rest) ((S0.length, 0) :: (layoutLoop rest S0 (pageFrag p)).2.2) 0).map IndexEntry.writeBytes).flatten))))) (MAGIC ++ ((be32 (p :: rest).length ++ be32 24 ++ be32 ((layoutLoop rest S0 (pageFrag p)).1 ++ renderBlock (layoutLoop rest S0 (pageFrag p)).2.1 ++ renderBlock (((p :: rest).map pageKv).flatten)).length ++ be32 U32MAX) ++ (metaDump Bmeta ++ ((renderBlock (pageFrag p ++ ext) ++ junk) ++ (renderBlock (((p :: rest).map pageKv).flatten) ++ ((zipEntriesM ((layoutLoop rest S0 (pageFrag p)).1 ++ renderBlock (layoutLoop rest S0 (pageFrag p)).2.1).length (p :: rest) ((S0.length, 0) :: (layoutLoop rest S0 (pageFrag p)).2.2) 0).map IndexEntry.writeBytes).flatten)))) : List Nat).length
        e.contentBlockId 0 = .ok bl :=
      readBlockRaw_render _ _ _ _ hDPcb hbl32
    have hcont64 : (pageContent q).length < 2 ^ 64 := by
      have hcf := pageContent_le_pageFrag q
      have h32 : (2 : Nat) ^ 32 < 2 ^ 64 := by norm_num
      omega
    have hcv : contentVisitor bl e.contentBlockOffset = .ok (pageContent q) :=
      contentVisitor_frag bl tl q _ hle3 hdropbl2 (hutf q hq).2.2.2 hcont64
    have hreadM : readBlockRaw (MAGIC ++ ((be32 (p :: rest).length ++ be32 24 ++ be32 ((layoutLoop rest S0 (pageFrag p)).1 ++ renderBlock (layoutLoop rest S0 (pageFrag p)).2.1 ++ renderBlock (((p :: rest).map pageKv).flatten)).length ++ be32 U32MAX) ++ (metaDump Bmeta ++ ((renderBlock (pageFrag p ++ ext) ++ junk) ++ (renderBlock (((p :: rest).map pageKv).flatten) ++ ((zipEntriesM ((layoutLoop rest S0 (pageFrag p)).1 ++ renderBlock (layoutLoop rest S0 (pageFrag p)).2.1).length (p :: rest) ((S0.length, 0) :: (layoutLoop rest S0 (pageFrag p)).2.2) 0).map IndexEntry.writeBytes).flatten))))) (MAGIC ++ ((be32 (p :: rest).length ++ be32 24 ++ be32 ((layoutLoop rest S0 (pageFrag p)).1 ++ renderBlock (layoutLoop rest S0 (pageFrag p)).2.1 ++ renderBlock (((p :: rest).map pageKv).flatten)).length ++ be32 U32MAX) ++ (metaDump Bmeta ++ ((renderBlock (pageFrag p ++ ext) ++ junk) ++ (renderBlock (((p :: rest).map pageKv).flatten) ++ ((zipEntriesM ((layoutLoop rest S0 (pageFrag p)).1 ++ renderBlock (layoutLoop rest S0 (pageFrag p)).2.1).length (p :: rest) ((S0.length, 0) :: (layoutLoop rest S0 (pageFrag p)).2.2) 0).map IndexEntry.writeBytes).flatten)))) : List Nat).length
        e.metadataBlockId 0 = .ok ((((p :: rest).map pageKv).flatten)) := by
      rw [h3]
      exact hmetaRead
    have hM64 : ((((p :: rest).map pageKv).flatten) : List Nat).length < 2 ^ 64 := by
      have h32 : (2 : Nat) ^ 32 < 2 ^ 64 := by norm_num
      omega
    obtain ⟨tl2, hdropm⟩ := hmtl
    have hmv : metaVisitor ((((p :: rest).map pageKv).flatten)) e.metadataBlockOffset
        = .ok (some q.title, q.keywords, q.description) :=
      metaVisitor_kv _ tl2 q _ hdropm (hutf q hq).1
        (fun k hk => by
          have h := (hutf q hq).2.1
          rw [hk] at h
          simpa using h)
        (fun d hd => by
          have h := (hutf q hq).2.2.1
          rw [hd] at h
          simpa using h)
        hM64
    exact buildPage_ok (MAGIC ++ ((be32 (p :: rest).length ++ be32 24 ++ be32 ((layoutLoop rest S0 (pageFrag p)).1 ++ renderBlock (layoutLoop rest S0 (pageFrag p)).2.1 ++ renderBlock (((p :: rest).map pageKv).flatten)).length ++ be32 U32MAX) ++ (metaDump Bmeta ++ ((renderBlock (pageFrag p ++ ext) ++ junk) ++ (renderBlock (((p :: rest).map pageKv).flatten) ++ ((zipEntriesM ((layoutLoop rest S0 (pageFrag p)).1 ++ renderBlock (layoutLoop rest S0 (pageFrag p)).2.1).length (p :: rest) ((S0.length, 0) :: (layoutLoop rest S0 (pageFrag p)).2.2) 0).map IndexEntry.writeBytes).flatten))))) r' e q bl ((((p :: rest).map pageKv).flatten)) hok2 hreadC hcv hreadM hmv
      h1 (hid q hq).1 h2 (hparent q hq).1
  have hfaVal : List.Forall₂ (fun q e =>
      (buildPage (MAGIC ++ ((be32 (p :: rest).length ++ be32 24 ++ be32 ((layoutLoop rest S0 (pageFrag p)).1 ++ renderBlock (layoutLoop rest S0 (pageFrag p)).2.1 ++ renderBlock (((p :: rest).map pageKv).flatten)).length ++ be32 U32MAX) ++ (metaDump Bmeta ++ ((renderBlock (pageFrag p ++ ext) ++ junk) ++ (renderBlock (((p :: rest).map pageKv).flatten) ++ ((zipEntriesM ((layoutLoop rest S0 (pageFrag p)).1 ++ renderBlock (layoutLoop rest S0 (pageFrag p)).2.1).length (p :: rest) ((S0.length, 0) :: (layoutLoop rest S0 (pageFrag p)).2.2) 0).map IndexEntry.writeBytes).flatten))))) ⟨(MAGIC ++ ((be32 (p :: rest).length ++ be32 24 ++ be32 ((layoutLoop rest S0 (pageFrag p)).1 ++ renderBlock (layoutLoop rest S0 (pageFrag p)).2.1 ++ renderBlock (((p :: rest).map pageKv).flatten)).length ++ be32 U32MAX) ++ (metaDump Bmeta ++ ((renderBlock (pageFrag p ++ ext) ++ junk) ++ (renderBlock (((p :: rest).map pageKv).flatten) ++ ((zipEntriesM ((layoutLoop rest S0 (pageFrag p)).1 ++ renderBlock (layoutLoop rest S0 (pageFrag p)).2.1).length (p :: rest) ((S0.length, 0) :: (layoutLoop rest S0 (pageFrag p)).2.2) 0).map IndexEntry.writeBytes).flatten)))) : List Nat).length, []⟩ e).1
        = .ok { q with content := some (pageContent q) }) (p :: rest) (zipEntriesM ((layoutLoop rest S0 (pageFrag p)).1 ++ renderBlock (layoutLoop rest S0 (pageFrag p)).2.1).length (p :: rest) ((S0.length, 0) :: (layoutLoop rest S0 (pageFrag p)).2.2) 0) :=
    forall2_imp_mem hfaEnt (fun q hq e he hrel => (hcore q hq e he hrel _ hok0).1)
  have hkvmem : ∀ kv ∈ mI, ∃ e, e ∈ zipEntriesM ((layoutLoop rest S0 (pageFrag p)).1 ++ renderBlock (layoutLoop rest S0 (pageFrag p)).2.1).length (p :: rest) ((S0.length, 0) :: (layoutLoop rest S0 (pageFrag p)).2.2) 0 ∧ kv = (e.id, e) := by
    intro kv hkv
    have hm := hpermI.subset hkv
    simp only [List.nil_append, List.mem_map] at hm
    obtain ⟨e, he, heq⟩ := hm
    exact ⟨e, he, heq.symm⟩
  have hv : ∀ kv ∈ mI, ∀ r', CacheOK (MAGIC ++ ((be32 (p :: rest).length ++ be32 24 ++ be32 ((layoutLoop rest S0 (pageFrag p)).1 ++ renderBlock (layoutLoop rest S0 (pageFrag p)).2.1 ++ renderBlock (((p :: rest).map pageKv).flatten)).length ++ be32 U32MAX) ++ (metaDump Bmeta ++ ((renderBlock (pageFrag p ++ ext) ++ junk) ++ (renderBlock (((p :: rest).map pageKv).flatten) ++ ((zipEntriesM ((layoutLoop rest S0 (pageFrag p)).1 ++ renderBlock (layoutLoop rest S0 (pageFrag p)).2.1).length (p :: rest) ((S0.length, 0) :: (layoutLoop rest S0 (pageFrag p)).2.2) 0).map IndexEntry.writeBytes).flatten))))) r' →
      (buildPage (MAGIC ++ ((be32 (p :: rest).length ++ be32 24 ++ be32 ((layoutLoop rest S0 (pageFrag p)).1 ++ renderBlock (layoutLoop rest S0 (pageFrag p)).2.1 ++ renderBlock (((p :: rest).map pageKv).flatten)).length ++ be32 U32MAX) ++ (metaDump Bmeta ++ ((renderBlock (pageFrag p ++ ext) ++ junk) ++ (renderBlock (((p :: rest).map pageKv).flatten) ++ ((zipEntriesM ((layoutLoop rest S0 (pageFrag p)).1 ++ renderBlock (layoutLoop rest S0 (pageFrag p)).2.1).length (p :: rest) ((S0.length, 0) :: (layoutLoop rest S0 (pageFrag p)).2.2) 0).map IndexEntry.writeBytes).flatten))))) r' kv.2).1
        = (buildPage (MAGIC ++ ((be32 (p :: rest).length ++ be32 24 ++ be32 ((layoutLoop rest S0 (pageFrag p)).1 ++ renderBlock (layoutLoop rest S0 (pageFrag p)).2.1 ++ renderBlock (((p :: rest).map pageKv).flatten)).length ++ be32 U32MAX) ++ (metaDump Bmeta ++ ((renderBlock (pageFrag p ++ ext) ++ junk) ++ (renderBlock (((p :: rest).map pageKv).flatten) ++ ((zipEntriesM ((layoutLoop rest S0 (pageFrag p)).1 ++ renderBlock (layoutLoop rest S0 (pageFrag p)).2.1).length (p :: rest) ((S0.length, 0) :: (layoutLoop rest S0 (pageFrag p)).2.2) 0).map IndexEntry.writeBytes).flatten))))) ⟨(MAGIC ++ ((be32 (p :: rest).length ++ be32 24 ++ be32 ((layoutLoop rest S0 (pageFrag p)).1 ++ renderBlock (layoutLoop rest S0 (pageFrag p)).2.1 ++ renderBlock (((p :: rest).map pageKv).flatten)).length ++ be32 U32MAX) ++ (metaDump Bmeta ++ ((renderBlock (pageFrag p ++ ext) ++ junk) ++ (renderBlock (((p :: rest).map pageKv).flatten) ++ ((zipEntriesM ((layoutLoop rest S0 (pageFrag p)).1 ++ renderBlock (layoutLoop rest S0 (pageFrag p)).2.1).length (p :: rest) ((S0.length, 0) :: (layoutLoop rest S0 (pageFrag p)).2.2) 0).map IndexEntry.writeBytes).flatten)))) : List Nat).length, []⟩ kv.2).1
        ∧ CacheOK (MAGIC ++ ((be32 (p :: rest).length ++ be32 24 ++ be32 ((layoutLoop rest S0 (pageFrag p)).1 ++ renderBlock (layoutLoop rest S0 (pageFrag p)).2.1 ++ renderBlock (((p :: rest).map pageKv).flatten)).length ++ be32 U32MAX) ++ (metaDump Bmeta ++ ((renderBlock (pageFrag p ++ ext) ++ junk) ++ (renderBlock (((p :: rest).map pageKv).flatten) ++ ((zipEntriesM ((layoutLoop rest S0 (pageFrag p)).1 ++ renderBlock (layoutLoop rest S0 (pageFrag p)).2.1).length (p :: rest) ((S0.length, 0) :: (layoutLoop rest S0 (pageFrag p)).2.2) 0).map IndexEntry.writeBytes).flatten))))) (buildPage (MAGIC ++ ((be32 (p :: rest).length ++ be32 24 ++ be32 ((layoutLoop rest S0 (pageFrag p)).1 ++ renderBlock (layoutLoop rest S0 (pageFrag p)).2.1 ++ renderBlock (((p :: rest).map pageKv).flatten)).length ++ be32 U32MAX) ++ (metaDump Bmeta ++ ((renderBlock (pageFrag p ++ ext) ++ junk) ++ (renderBlock (((p :: rest).map pageKv).flatten) ++ ((zipEntriesM ((layoutLoop rest S0 (pageFrag p)).1 ++ renderBlock (layoutLoop rest S0 (pageFrag p)).2.1).length (p :: rest) ((S0.length, 0) :: (layoutLoop rest S0 (pageFrag p)).2.2) 0).map IndexEntry.writeBytes).flatten))))) r' kv.2).2 := by
    intro kv hkv r' hok2
    obtain ⟨e, he, rfl⟩ := hkvmem kv hkv
    obtain ⟨q, hq, hrel⟩ := hent e he
    have hres := hcore q hq e he hrel r' hok2
    have hres0 := hcore q hq e he hrel _ hok0
    exact ⟨hres.1.trans hres0.1.symm, hres.2⟩
  have hplist : (pagesList (MAGIC ++ ((be32 (p :: rest).length ++ be32 24 ++ be32 ((layoutLoop rest S0 (pageFrag p)).1 ++ renderBlock (layoutLoop rest S0 (pageFrag p)).2.1 ++ renderBlock (((p :: rest).map pageKv).flatten)).length ++ be32 U32MAX) ++ (metaDump Bmeta ++ ((renderBlock (pageFrag p ++ ext) ++ junk) ++ (renderBlock (((p :: rest).map pageKv).flatten) ++ ((zipEntriesM ((layoutLoop rest S0 (pageFrag p)).1 ++ renderBlock (layoutLoop rest S0 (pageFrag p)).2.1).length (p :: rest) ((S0.length, 0) :: (layoutLoop rest S0 (pageFrag p)).2.2) 0).map IndexEntry.writeBytes).flatten))))) ⟨(MAGIC ++ ((be32 (p :: rest).length ++ be32 24 ++ be32 ((layoutLoop rest S0 (pageFrag p)).1 ++ renderBlock (layoutLoop rest S0 (pageFrag p)).2.1 ++ renderBlock (((p :: rest).map pageKv).flatten)).length ++ be32 U32MAX) ++ (metaDump Bmeta ++ ((renderBlock (pageFrag p ++ ext) ++ junk) ++ (renderBlock (((p :: rest).map pageKv).flatten) ++ ((zipEntriesM ((layoutLoop rest S0 (pageFrag p)).1 ++ renderBlock (layoutLoop rest S0 (pageFrag p)).2.1).length (p :: rest) ((S0.length, 0) :: (layoutLoop rest S0 (pageFrag p)).2.2) 0).map IndexEntry.writeBytes).flatten)))) : List Nat).length, []⟩ mI).1
      = mI.map (fun kv =>
        (buildPage (MAGIC ++ ((be32 (p :: rest).length ++ be32 24 ++ be32 ((layoutLoop rest S0 (pageFrag p)).1 ++ renderBlock (layoutLoop rest S0 (pageFrag p)).2.1 ++ renderBlock (((p :: rest).map pageKv).flatten)).length ++ be32 U32MAX) ++ (metaDump Bmeta ++ ((renderBlock (pageFrag p ++ ext) ++ junk) ++ (renderBlock (((p :: rest).map pageKv).flatten) ++ ((zipEntriesM ((layoutLoop rest S0 (pageFrag p)).1 ++ renderBlock (layoutLoop rest S0 (pageFrag p)).2.1).length (p :: rest) ((S0.length, 0) :: (layoutLoop rest S0 (pageFrag p)).2.2) 0).map IndexEntry.writeBytes).flatten))))) ⟨(MAGIC ++ ((be32 (p :: rest).length ++ be32 24 ++ be32 ((layoutLoop rest S0 (pageFrag p)).1 ++ renderBlock (layoutLoop rest S0 (pageFrag p)).2.1 ++ renderBlock (((p :: rest).map pageKv).flatten)).length ++ be32 U32MAX) ++ (metaDump Bmeta ++ ((renderBlock (pageFrag p ++ ext) ++ junk) ++ (renderBlock (((p :: rest).map pageKv).flatten) ++ ((zipEntriesM ((layoutLoop rest S0 (pageFrag p)).1 ++ renderBlock (layoutLoop rest S0 (pageFrag p)).2.1).length (p :: rest) ((S0.length, 0) :: (layoutLoop rest S0 (pageFrag p)).2.2) 0).map IndexEntry.writeBytes).flatten)))) : List Nat).length, []⟩ kv.2).1) :=
    pagesList_map (MAGIC ++ ((be32 (p :: rest).length ++ be32 24 ++ be32 ((layoutLoop rest S0 (pageFrag p)).1 ++ renderBlock (layoutLoop rest S0 (pageFrag p)).2.1 ++ renderBlock (((p :: rest).map pageKv).flatten)).length ++ be32 U32MAX) ++ (metaDump Bmeta ++ ((renderBlock (pageFrag p ++ ext) ++ junk) ++ (renderBlock (((p :: rest).map pageKv).flatten) ++ ((zipEntriesM ((layoutLoop rest S0 (pageFrag p)).1 ++ renderBlock (layoutLoop rest S0 (pageFrag p)).2.1).length (p :: rest) ((S0.length, 0) :: (layoutLoop rest S0 (pageFrag p)).2.2) 0).map IndexEntry.writeBytes).flatten))))) _ mI ⟨(MAGIC ++ ((be32 (p :: rest).length ++ be32 24 ++ be32 ((layoutLoop rest S0 (pageFrag p)).1 ++ renderBlock (layoutLoop rest S0 (pageFrag p)).2.1 ++ renderBlock (((p :: rest).map pageKv).flatten)).length ++ be32 U32MAX) ++ (metaDump Bmeta ++ ((renderBlock (pageFrag p ++ ext) ++ junk) ++ (renderBlock (((p :: rest).map pageKv).flatten) ++ ((zipEntriesM ((layoutLoop rest S0 (pageFrag p)).1 ++ renderBlock (layoutLoop rest S0 (pageFrag p)).2.1).length (p :: rest) ((S0.length, 0) :: (layoutLoop rest S0 (pageFrag p)).2.2) 0).map IndexEntry.writeBytes).flatten)))) : List Nat).length, []⟩ hok0 hv
  have hmapped : (zipEntriesM ((layoutLoop rest S0 (pageFrag p)).1 ++ renderBlock (layoutLoop rest S0 (pageFrag p)).2.1).length (p :: rest) ((S0.length, 0) :: (layoutLoop rest S0 (pageFrag p)).2.2) 0).map (fun e =>
      (buildPage (MAGIC ++ ((be32 (p :: rest).length ++ be32 24 ++ be32 ((layoutLoop rest S0 (pageFrag p)).1 ++ renderBlock (layoutLoop rest S0 (pageFrag p)).2.1 ++ renderBlock (((p :: rest).map pageKv).flatten)).length ++ be32 U32MAX) ++ (metaDump Bmeta ++ ((renderBlock (pageFrag p ++ ext) ++ junk) ++ (renderBlock (((p :: rest).map pageKv).flatten) ++ ((zipEntriesM ((layoutLoop rest S0 (pageFrag p)).1 ++ renderBlock (layoutLoop rest S0 (pageFrag p)).2.1).length (p :: rest) ((S0.length, 0) :: (layoutLoop rest S0 (pageFrag p)).2.2) 0).map IndexEntry.writeBytes).flatten))))) ⟨(MAGIC ++ ((be32 (p :: rest).length ++ be32 24 ++ be32 ((layoutLoop rest S0 (pageFrag p)).1 ++ renderBlock (layoutLoop rest S0 (pageFrag p)).2.1 ++ renderBlock (((p :: rest).map pageKv).flatten)).length ++ be32 U32MAX) ++ (metaDump Bmeta ++ ((renderBlock (pageFrag p ++ ext) ++ junk) ++ (renderBlock (((p :: rest).map pageKv).flatten) ++ ((zipEntriesM ((layoutLoop rest S0 (pageFrag p)).1 ++ renderBlock (layoutLoop rest S0 (pageFrag p)).2.1).length (p :: rest) ((S0.length, 0) :: (layoutLoop rest S0 (pageFrag p)).2.2) 0).map IndexEntry.writeBytes).flatten)))) : List Nat).length, []⟩ e).1)
      = (p :: rest).map (fun q =>
        (Except.ok { q with content := some (pageContent q) } : Except PageErr Page)) :=
    forall2_map_eq _ _ hfaVal
  have hpermFinal : List.Perm
      (pagesList (MAGIC ++ ((be32 (p :: rest).length ++ be32 24 ++ be32 ((layoutLoop rest S0 (pageFrag p)).1 ++ renderBlock (layoutLoop rest S0 (pageFrag p)).2.1 ++ renderBlock (((p :: rest).map pageKv).flatten)).length ++ be32 U32MAX) ++ (metaDump Bmeta ++ ((renderBlock (pageFrag p ++ ext) ++ junk) ++ (renderBlock (((p :: rest).map pageKv).flatten) ++ ((zipEntriesM ((layoutLoop rest S0 (pageFrag p)).1 ++ renderBlock (layoutLoop rest S0 (pageFrag p)).2.1).length (p :: rest) ((S0.length, 0) :: (layoutLoop rest S0 (pageFrag p)).2.2) 0).map IndexEntry.writeBytes).flatten))))) ⟨(MAGIC ++ ((be32 (p :: rest).length ++ be32 24 ++ be32 ((layoutLoop rest S0 (pageFrag p)).1 ++ renderBlock (layoutLoop rest S0 (pageFrag p)).2.1 ++ renderBlock (((p :: rest).map pageKv).flatten)).length ++ be32 U32MAX) ++ (metaDump Bmeta ++ ((renderBlock (pageFrag p ++ ext) ++ junk) ++ (renderBlock (((p :: rest).map pageKv).flatten) ++ ((zipEntriesM ((layoutLoop rest S0 (pageFrag p)).1 ++ renderBlock (layoutLoop rest S0 (pageFrag p)).2.1).length (p :: rest) ((S0.length, 0) :: (layoutLoop rest S0 (pageFrag p)).2.2) 0).map IndexEntry.writeBytes).flatten)))) : List Nat).length, []⟩ mI).1
      ((p :: rest).map (fun q =>
        (Except.ok { q with content := some (pageContent q) } : Except PageErr Page))) := by
    rw [hplist, ← hmapped]
    have h := hpermI.map (fun kv : Nat × IndexEntry =>
      (buildPage (MAGIC ++ ((be32 (p :: rest).length ++ be32 24 ++ be32 ((layoutLoop rest S0 (pageFrag p)).1 ++ renderBlock (layoutLoop rest S0 (pageFrag p)).2.1 ++ renderBlock (((p :: rest).map pageKv).flatten)).length ++ be32 U32MAX) ++ (metaDump Bmeta ++ ((renderBlock (pageFrag p ++ ext) ++ junk) ++ (renderBlock (((p :: rest).map pageKv).flatten) ++ ((zipEntriesM ((layoutLoop rest S0 (pageFrag p)).1 ++ renderBlock (layoutLoop rest S0 (pageFrag p)).2.1).length (p :: rest) ((S0.length, 0) :: (layoutLoop rest S0 (pageFrag p)).2.2) 0).map IndexEntry.writeBytes).flatten))))) ⟨(MAGIC ++ ((be32 (p :: rest).length ++ be32 24 ++ be32 ((layoutLoop rest S0 (pageFrag p)).1 ++ renderBlock (layoutLoop rest S0 (pageFrag p)).2.1 ++ renderBlock (((p :: rest).map pageKv).flatten)).length ++ be32 U32MAX) ++ (metaDump Bmeta ++ ((renderBlock (pageFrag p ++ ext) ++ junk) ++ (renderBlock (((p :: rest).map pageKv).flatten) ++ ((zipEntriesM ((layoutLoop rest S0 (pageFrag p)).1 ++ renderBlock (layoutLoop rest S0 (pageFrag p)).2.1).length (p :: rest) ((S0.length, 0) :: (layoutLoop rest S0 (pageFrag p)).2.2) 0).map IndexEntry.writeBytes).flatten)))) : List Nat).length, []⟩ kv.2).1)
    simpa [Function.comp] using h
  have hlastFA : List.Forall₂
      (fun (kv : Nat × IndexEntry) res => ∃ q, res = .ok q ∧ q.id = kv.1)
      mI (pagesList (MAGIC ++ ((be32 (p :: rest).length ++ be32 24 ++ be32 ((layoutLoop rest S0 (pageFrag p)).1 ++ renderBlock (layoutLoop rest S0 (pageFrag p)).2.1 ++ renderBlock (((p :: rest).map pageKv).flatten)).length ++ be32 U32MAX) ++ (metaDump Bmeta ++ ((renderBlock (pageFrag p ++ ext) ++ junk) ++ (renderBlock (((p :: rest).map pageKv).flatten) ++ ((zipEntriesM ((layoutLoop rest S0 (pageFrag p)).1 ++ renderBlock (layoutLoop rest S0 (pageFrag p)).2.1).length (p :: rest) ((S0.length, 0) :: (layoutLoop rest S0 (pageFrag p)).2.2) 0).map IndexEntry.writeBytes).flatten))))) ⟨(MAGIC ++ ((be32 (p :: rest).length ++ be32 24 ++ be32 ((layoutLoop rest S0 (pageFrag p)).1 ++ renderBlock (layoutLoop rest S0 (pageFrag p)).2.1 ++ renderBlock (((p :: rest).map pageKv).flatten)).length ++ be32 U32MAX) ++ (metaDump Bmeta ++ ((renderBlock (pageFrag p ++ ext) ++ junk) ++ (renderBlock (((p :: rest).map pageKv).flatten) ++ ((zipEntriesM ((layoutLoop rest S0 (pageFrag p)).1 ++ renderBlock (layoutLoop rest S0 (pageFrag p)).2.1).length (p :: rest) ((S0.length, 0) :: (layoutLoop rest S0 (pageFrag p)).2.2) 0).map IndexEntry.writeBytes).flatten)))) : List Nat).length, []⟩ mI).1 := by
    rw [hplist]
    refine forall2_map_self _ _ mI ?_
    intro kv hkv
    obtain ⟨e, he, rfl⟩ := hkvmem kv hkv
    obtain ⟨q, hq, hrel⟩ := hent e he
    exact ⟨{ q with content := some (pageContent q) }, (hcore q hq e he hrel _ hok0).1,
      hrel.1.symm⟩
  exact ⟨⟨MAGIC ++ ((be32 (p :: rest).length ++ be32 24 ++ be32 ((layoutLoop rest S0 (pageFrag p)).1 ++ renderBlock (layoutLoop rest S0 (pageFrag p)).2.1 ++ renderBlock (((p :: rest).map pageKv).flatten)).length ++ be32 U32MAX) ++ (metaDump Bmeta ++ ((renderBlock (pageFrag p ++ ext) ++ junk) ++ (renderBlock (((p :: rest).map pageKv).flatten) ++ ((zipEntriesM ((layoutLoop rest S0 (pageFrag p)).1 ++ renderBlock (layoutLoop rest S0 (pageFrag p)).2.1).length (p :: rest) ((S0.length, 0) :: (layoutLoop rest S0 (pageFrag p)).2.2) 0).map IndexEntry.writeBytes).flatten)))), 24⟩,
    ⟨MAGIC ++ ((be32 (p :: rest).length ++ be32 24 ++ be32 ((layoutLoop rest S0 (pageFrag p)).1 ++ renderBlock (layoutLoop rest S0 (pageFrag p)).2.1 ++ renderBlock (((p :: rest).map pageKv).flatten)).length ++ be32 U32MAX) ++ (metaDump Bmeta ++ ((renderBlock (pageFrag p ++ ext) ++ junk) ++ (renderBlock (((p :: rest).map pageKv).flatten) ++ ((zipEntriesM ((layoutLoop rest S0 (pageFrag p)).1 ++ renderBlock (layoutLoop rest S0 (pageFrag p)).2.1).length (p :: rest) ((S0.length, 0) :: (layoutLoop rest S0 (pageFrag p)).2.2) 0).map IndexEntry.writeBytes).flatten)))), ⟨(MAGIC ++ ((be32 (p :: rest).length ++ be32 24 ++ be32 ((layoutLoop rest S0 (pageFrag p)).1 ++ renderBlock (layoutLoop rest S0 (pageFrag p)).2.1 ++ renderBlock (((p :: rest).map pageKv).flatten)).length ++ be32 U32MAX) ++ (metaDump Bmeta ++ ((renderBlock (pageFrag p ++ ext) ++ junk) ++ (renderBlock (((p :: rest).map pageKv).flatten) ++ ((zipEntriesM ((layoutLoop rest S0 (pageFrag p)).1 ++ renderBlock (layoutLoop rest S0 (pageFrag p)).2.1).length (p :: rest) ((S0.length, 0) :: (layoutLoop rest S0 (pageFrag p)).2.2) 0).map IndexEntry.writeBytes).flatten)))) : List Nat).length, []⟩, (p :: rest).length, 24, mI⟩,
    hdump, hload, rfl, hbm, hpermFinal, hsortI, hlastFA⟩


/-- The concrete two-page book used to witness the amended round trip:
pages with ids 2 and 1 (deliberately out of order), the optional fields
exercised, and two book-level metadata entries. -/
def c1Book : BookBuilderModel :=
  ⟨[.title [77], .user [107] [118]],
   [⟨2, none, [84], none, none, some [99]⟩, ⟨1, some 2, [85], some [75], none, none⟩]⟩

/-- C1 counterexample: the claim quantifies over every book, but dumping
a zero-page book destroys the magic bytes already written (`close_current`
runs on the `Wait` sentinel, patching the stream start), so loading the
dumped bytes fails with `InvalidMagic` instead of returning the empty
book. -/
theorem C1_empty_book_load_fails :
    (dumpV1 ⟨[], 0⟩ ⟨[], []⟩).map (fun out => loadV1 out.data 0)
      = .ok (.error .invalidMagic) := by decide

/-- Witness for `C1_roundtrip_nonempty`: the concrete book `c1Book`
satisfies every hypothesis, and the round trip holds for it. -/
theorem C1_roundtrip_nonempty_witness :
    (c1Book.pages ≠ [] ∧ c1Book.pages.length < 2 ^ 32
      ∧ (∀ q ∈ c1Book.pages, q.id ≠ 0 ∧ q.id < 2 ^ 32)
      ∧ (∀ q ∈ c1Book.pages, q.parentId ≠ some 0 ∧ q.parentId.getD 0 < 2 ^ 32)
      ∧ (c1Book.pages.map Page.id).Nodup
      ∧ (∀ q ∈ c1Book.pages, validUtf8 q.title = true
          ∧ validUtf8 (q.keywords.getD []) = true
          ∧ validUtf8 (q.description.getD []) = true
          ∧ validUtf8 (pageContent q) = true)
      ∧ (∀ e ∈ c1Book.metadata, e.wfb (metaDump c1Book.metadata).length = true)
      ∧ 40 + (metaDump c1Book.metadata).length
          + (c1Book.pages.map (fun q => 5 + (pageFrag q).length)).sum
          + ((c1Book.pages.map pageKv).flatten).length < 2 ^ 32) ∧
    (∃ out bk,
      dumpV1 ⟨[], 0⟩ c1Book = .ok out ∧
      loadV1 out.data 0 = .ok bk ∧
      bk.numPages = c1Book.pages.length ∧
      bookMetadata bk = .ok c1Book.metadata ∧
      List.Perm (pagesList bk.streamBytes bk.reader bk.pageIndex).1
        (c1Book.pages.map fun q => .ok { q with content := some (pageContent q) }) ∧
      (bk.pageIndex.map Prod.fst).Pairwise (· < ·) ∧
      List.Forall₂ (fun (kv : Nat × IndexEntry) res => ∃ q, res = .ok q ∧ q.id = kv.1)
        bk.pageIndex (pagesList bk.streamBytes bk.reader bk.pageIndex).1) :=
  ⟨⟨by decide, by decide, by decide, by decide, by decide, by decide, by decide, by decide⟩,
    C1_roundtrip_nonempty c1Book (by decide) (by decide) (by decide) (by decide) (by decide)
      (by decide) (by decide) (by decide)⟩

end Theory
